import Mathlib

/-!
# awqatsalah-go: the request/response pipeline of `client.go`

A shallow embedding of `src/client.go` (package `awqatsalah`) and the properties of
its execution pipeline: `New`, `auth`, `execute`, the eleven accessors and the method
`Error()` of the response envelope.

Conventions of the embedding.

* A Go `string` is a Lean `String`.  All literals of the package are ASCII, where
  bytes and characters coincide.
* A Go function returning `(T, error)` returns a pair `Option T × Option Error`
  (`none` is Go's `nil`).  A run-time panic (nil pointer dereference) is the
  outcome `Outcome.panics`.
* The network is the environment: a `Transport` is what `(*http.Client).Do` answers,
  and every method that reaches the network takes one.  Every run records the
  requests handed to the transport, in order, and the state of the client at its end.
* Text-level JSON is not modelled: a message body is the JSON value it carries
  (`JSON`), and a response body that does not start with a syntactically valid JSON
  value is `none`.  Storing a JSON value into a Go variable follows package
  `encoding/json` (`Dec`): keys match struct fields without regard to case, `null`
  clears a pointer and leaves other variables alone, a value of the wrong kind is an
  error.
* A Go slice is its elements together with the part of its backing array beyond its
  length that was written before (`Slice`): `encoding/json` decodes an array over the
  backing array of the slice it finds.  An accessor returns the elements.
* The library functions the pipeline calls (`url.Parse`, `ResolveReference`,
  `String`, `JoinPath`, `path.Join`, `http.NewRequest`, `json.Marshal`) are written
  out after the Go standard library, version 1.25; `url.Parse` checks a host in
  brackets as the releases 1.24.8 and 1.25.2 and later do.  An error of `url.Parse`
  is the text refused and the cause (`url.Cause`), not the message.
-/

namespace Awqat

/-! ## JSON values -/

/-- A JSON number literal, represented by what package `strconv` makes of it:
`asInt` is the value of the literal when it is a decimal integer literal (`1`, `-20`),
`asFloat` tells whether `strconv.ParseFloat(lit, 64)` succeeds. -/
structure NumLit where
  asInt : Option Int
  asFloat : Bool
deriving DecidableEq, Repr

/-- The integer literal `i` (small enough for `float64`). -/
def NumLit.ofInt (i : Int) : NumLit := { asInt := some i, asFloat := true }

/-- A JSON value.  An object keeps its members in document order, repeated keys
included. -/
inductive JSON where
  | null
  | bool (b : Bool)
  | num (n : NumLit)
  | str (s : String)
  | arr (xs : List JSON)
  | obj (kvs : List (String × JSON))
deriving Repr

mutual
/-- Every number literal inside the value converts to `float64`: the only way the
decoding of a value into an `interface{}` can fail. -/
def JSON.floatsFinite : JSON → Bool
  | .null => true
  | .bool _ => true
  | .num n => n.asFloat
  | .str _ => true
  | .arr xs => JSON.floatsFiniteList xs
  | .obj kvs => JSON.floatsFiniteFields kvs
/-- The check `JSON.floatsFinite` on the elements of an array. -/
def JSON.floatsFiniteList : List JSON → Bool
  | [] => true
  | x :: xs => x.floatsFinite && JSON.floatsFiniteList xs
/-- The check `JSON.floatsFinite` on the members of an object. -/
def JSON.floatsFiniteFields : List (String × JSON) → Bool
  | [] => true
  | (_, v) :: kvs => v.floatsFinite && JSON.floatsFiniteFields kvs
end

/-- Whether the value is the literal `null`. -/
def JSON.isNull : JSON → Bool
  | .null => true
  | _ => false

/-! ## Data model of `client.go` -/

/-- Go: `type Credentials struct { Email string; Password string }`. -/
structure Credentials where
  Email : String := ""
  Password : String := ""
deriving DecidableEq, Repr

/-- Go: `type AwqatResponse[TData any] struct` with the JSON names `data`, `success`,
`message`.  `Data` is a pointer: `none` is `nil`. -/
structure AwqatResponse (TData : Type) where
  Data : Option TData := none
  Success : Bool := false
  Message : String := ""
deriving DecidableEq, Repr

/-- Go: `type AuthResponse struct { AccessToken string; RefreshToken string }`. -/
structure AuthResponse where
  AccessToken : String := ""
  RefreshToken : String := ""
deriving DecidableEq, Repr

/-- Go: `type Location struct { ID int; Code string; Name string }`. -/
structure Location where
  ID : Int := 0
  Code : String := ""
  Name : String := ""
deriving DecidableEq, Repr

/-- Go: `type DailyContent struct`. -/
structure DailyContent where
  ID : Int := 0
  DayOfYear : Int := 0
  Verse : String := ""
  VerseSource : String := ""
  Hadith : String := ""
  HadithSource : String := ""
  Pray : String := ""
  PraySource : String := ""
deriving DecidableEq, Repr

/-- Go: `type PrayerTime struct` (eighteen string fields). -/
structure PrayerTime where
  ShapeMoonUrl : String := ""
  Fajr : String := ""
  Sunrise : String := ""
  Dhuhr : String := ""
  Asr : String := ""
  Maghrib : String := ""
  Isha : String := ""
  AstronomicalSunset : String := ""
  AstronomicalSunrise : String := ""
  HijriDateShort : String := ""
  HijriDateShortIso8601 : String := ""
  HijriDateLongIso8601 : String := ""
  HijriDateLong : String := ""
  QiblaTime : String := ""
  GregorianDateShort : String := ""
  GregorianDateShortIso8601 : String := ""
  GregorianDateLong : String := ""
  GregorianDateLongIso8601 : String := ""
deriving DecidableEq, Repr

/-- Go: `type PrayerTimeEid struct` (six string fields). -/
structure PrayerTimeEid where
  EidAlAdhaHijri : String := ""
  EidAlAdhaTime : String := ""
  EidAlAdhaDate : String := ""
  EidAlFitrHijri : String := ""
  EidAlFitrTime : String := ""
  EidAlFitrDate : String := ""
deriving DecidableEq, Repr

/-! ## Errors and outcomes -/

/-- The causes for which `url.Parse` refuses a text, one for each error the library
function returns (the text or character a cause quotes is left out). -/
inductive url.Cause where
  /-- "net/url: invalid control character in URL". -/
  | controlCharacter
  /-- "missing protocol scheme". -/
  | missingScheme
  /-- "first path segment in URL cannot contain colon". -/
  | colonInFirstSegment
  /-- "invalid port ... after host". -/
  | invalidPort
  /-- "missing ']' in host". -/
  | missingBracket
  /-- "net/url: invalid userinfo". -/
  | invalidUserinfo
  /-- An `EscapeError`: "invalid URL escape ...". -/
  | escape
  /-- An `InvalidHostError`: "invalid character ... in host name". -/
  | invalidHostCharacter
  /-- "invalid host: ...", the bracketed host is not an IP address. -/
  | invalidHost
  /-- "invalid IP-literal", the bracketed host is an IPv4 address. -/
  | invalidIPLiteral
deriving DecidableEq, Repr

/-- The Go `error` values the package can return. -/
inductive Error where
  /-- The `*url.Error` of `url.Parse` (also when called by `http.NewRequest`): the
  operation is `parse`, with the text refused and the cause. -/
  | url (urlText : String) (cause : url.Cause)
  /-- The error of `http.NewRequest` for a method that is not a token. -/
  | invalidMethod (method : String)
  /-- The error returned by `(*http.Client).Do`. -/
  | transport (msg : String)
  /-- The error returned by `(*json.Decoder).Decode`. -/
  | decode
  /-- The decoded error envelope `&errRes`, a `*AwqatResponse[interface{}]`. -/
  | api (errRes : AwqatResponse JSON)
  /-- The value of `fmt.Errorf` with the formatted text. -/
  | errorf (msg : String)
deriving Repr

/-- How a Go call ends: it returns, or it panics (nil pointer dereference). -/
inductive Outcome (α : Type) where
  | returns (a : α)
  | panics
deriving Repr

/-! ## Package `encoding/json`: storing a JSON value into a Go variable -/

/-- Storing a JSON value into a Go variable that holds `old`: the new content of
the variable, or `none` when `Decode` reports an error (a JSON value that does not
fit the Go type).  The content of the variable after an error is not modelled: no
caller reads it. -/
abbrev Dec (α : Type) := JSON → α → Option α

/-- Go `string`: `null` leaves the variable alone, a JSON string is stored. -/
def decString : Dec String := fun j old =>
  match j with
  | .null => some old
  | .str s => some s
  | _ => none

/-- Go `bool`. -/
def decBool : Dec Bool := fun j old =>
  match j with
  | .null => some old
  | .bool b => some b
  | _ => none

/-- Go `int` (64 bits): an integer literal in range is stored. -/
def decInt : Dec Int := fun j old =>
  match j with
  | .null => some old
  | .num n =>
    match n.asInt with
    | some i => if -9223372036854775808 ≤ i ∧ i ≤ 9223372036854775807 then some i else none
    | none => none
  | _ => none

/-- Go `interface{}`, the decoded tree being kept as the JSON value itself: every
value fits, unless a number literal overflows `float64`. -/
def decAny : Dec JSON := fun j _ =>
  if j.floatsFinite then some j else none

/-- Go pointer `*T`: `null` sets the pointer to nil, any other value is decoded into
the pointed variable, allocated with the zero value when the pointer is nil. -/
def decPtr {α : Type} (d : Dec α) (zero : α) : Dec (Option α) := fun j old =>
  match j with
  | .null => some none
  | _ => (d j (old.getD zero)).map some

/-- A Go slice `[]T` as the decoder sees it: its elements, and after them the
elements of its backing array beyond its length that a decoding before has written
(`spare`).  Memory that was never written holds zero values and is not listed. -/
structure Slice (α : Type) where
  elems : List α := []
  spare : List α := []
deriving DecidableEq, Repr

/-- The loop of `(*decodeState).array`: element `i` of the array is decoded into
element `i` of the backing array, the length of the slice being raised over memory
it had before, and into a zero value where the backing array ends and the slice is
grown.  The result is the elements decoded and the backing memory left after them. -/
def decElems {α : Type} (d : Dec α) (zero : α) : List JSON → List α → Option (List α × List α)
  | [], backing => some ([], backing)
  | x :: xs, backing =>
    match d x (backing.headD zero) with
    | some v => (decElems d zero xs backing.tail).map (fun r => (v :: r.1, r.2))
    | none => none

/-- Go slice `[]T`: `null` stores the nil slice and the empty array a new empty
slice, both without backing memory; any other array is decoded element by element
over the backing array of the slice, which is cut to the length of the array. -/
def decSlice {α : Type} (d : Dec α) (zero : α) : Dec (Slice α) := fun j old =>
  match j with
  | .null => some {}
  | .arr [] => some {}
  | .arr xs => (decElems d zero xs (old.elems ++ old.spare)).map (fun r => { elems := r.1, spare := r.2 })
  | _ => none

/-- A field of a Go struct as `encoding/json` sees it: its JSON name (the tag, or
the Go field name) and how a value is stored into it. -/
structure Field (σ : Type) where
  name : String
  store : JSON → σ → Option σ

/-- The field of struct `σ` read by `get` and written by `set`, decoded by `d`. -/
def Field.of {σ α : Type} (name : String) (d : Dec α) (get : σ → α) (set : σ → α → σ) :
    Field σ :=
  { name := name, store := fun j st => (d j (get st)).map (set st) }

/-- The smallest rune of the case-folding orbit, as far as it can be an ASCII
letter: lower case to upper case, U+017F to S, U+212A to K. -/
def foldRune (c : Char) : Char :=
  if 97 ≤ c.toNat ∧ c.toNat ≤ 122 then Char.ofNat (c.toNat - 32)
  else if c.toNat = 0x17F then 'S'
  else if c.toNat = 0x212A then 'K'
  else c

/-- The folded form of a JSON name (`foldName` of `encoding/json`). -/
def foldName (s : String) : List Char := s.data.map foldRune

/-- The struct field a JSON key is stored into: the field of that exact name, else
the field whose folded name equals the folded key. -/
def findField {σ : Type} (fields : List (Field σ)) (key : String) : Option (Field σ) :=
  match fields.find? (fun f => f.name == key) with
  | some f => some f
  | none => fields.find? (fun f => foldName f.name == foldName key)

/-- The members of an object stored one after the other, in document order; a key
without a field is skipped. -/
def decMembers {σ : Type} (fields : List (Field σ)) : List (String × JSON) → σ → Option σ
  | [], st => some st
  | (k, v) :: kvs, st =>
    match findField fields k with
    | some f =>
      match f.store v st with
      | some st1 => decMembers fields kvs st1
      | none => none
    | none => decMembers fields kvs st

/-- Go struct: `null` leaves it alone, an object is stored member by member, any
other value is an error. -/
def decStruct {σ : Type} (fields : List (Field σ)) : Dec σ := fun j old =>
  match j with
  | .null => some old
  | .obj kvs => decMembers fields kvs old
  | _ => none

/-- The fields of `AwqatResponse[TData]`, named by their JSON tags. -/
def AwqatResponse.fields {T : Type} (d : Dec T) (zero : T) : List (Field (AwqatResponse T)) :=
  [ Field.of "data" (decPtr d zero) (fun r => r.Data) (fun r v => { r with Data := v }),
    Field.of "success" decBool (fun r => r.Success) (fun r v => { r with Success := v }),
    Field.of "message" decString (fun r => r.Message) (fun r v => { r with Message := v }) ]

/-- Decoding into an `AwqatResponse[TData]` whose payload is decoded by `d`. -/
def decAwqatResponse {T : Type} (d : Dec T) (zero : T) : Dec (AwqatResponse T) :=
  decStruct (AwqatResponse.fields d zero)

/-- Decoding into an `AuthResponse` (fields without tags: the Go names). -/
def decAuthResponse : Dec AuthResponse :=
  decStruct
    [ Field.of "AccessToken" decString (fun r => r.AccessToken) (fun r v => { r with AccessToken := v }),
      Field.of "RefreshToken" decString (fun r => r.RefreshToken) (fun r v => { r with RefreshToken := v }) ]

/-- Decoding into a `Location`. -/
def decLocation : Dec Location :=
  decStruct
    [ Field.of "ID" decInt (fun r => r.ID) (fun r v => { r with ID := v }),
      Field.of "Code" decString (fun r => r.Code) (fun r v => { r with Code := v }),
      Field.of "Name" decString (fun r => r.Name) (fun r v => { r with Name := v }) ]

/-- Decoding into a `DailyContent`. -/
def decDailyContent : Dec DailyContent :=
  decStruct
    [ Field.of "ID" decInt (fun r => r.ID) (fun r v => { r with ID := v }),
      Field.of "DayOfYear" decInt (fun r => r.DayOfYear) (fun r v => { r with DayOfYear := v }),
      Field.of "Verse" decString (fun r => r.Verse) (fun r v => { r with Verse := v }),
      Field.of "VerseSource" decString (fun r => r.VerseSource) (fun r v => { r with VerseSource := v }),
      Field.of "Hadith" decString (fun r => r.Hadith) (fun r v => { r with Hadith := v }),
      Field.of "HadithSource" decString (fun r => r.HadithSource) (fun r v => { r with HadithSource := v }),
      Field.of "Pray" decString (fun r => r.Pray) (fun r v => { r with Pray := v }),
      Field.of "PraySource" decString (fun r => r.PraySource) (fun r v => { r with PraySource := v }) ]

/-- Decoding into a `PrayerTime`. -/
def decPrayerTime : Dec PrayerTime :=
  decStruct
    [ Field.of "ShapeMoonUrl" decString (fun r => r.ShapeMoonUrl) (fun r v => { r with ShapeMoonUrl := v }),
      Field.of "Fajr" decString (fun r => r.Fajr) (fun r v => { r with Fajr := v }),
      Field.of "Sunrise" decString (fun r => r.Sunrise) (fun r v => { r with Sunrise := v }),
      Field.of "Dhuhr" decString (fun r => r.Dhuhr) (fun r v => { r with Dhuhr := v }),
      Field.of "Asr" decString (fun r => r.Asr) (fun r v => { r with Asr := v }),
      Field.of "Maghrib" decString (fun r => r.Maghrib) (fun r v => { r with Maghrib := v }),
      Field.of "Isha" decString (fun r => r.Isha) (fun r v => { r with Isha := v }),
      Field.of "AstronomicalSunset" decString (fun r => r.AstronomicalSunset)
        (fun r v => { r with AstronomicalSunset := v }),
      Field.of "AstronomicalSunrise" decString (fun r => r.AstronomicalSunrise)
        (fun r v => { r with AstronomicalSunrise := v }),
      Field.of "HijriDateShort" decString (fun r => r.HijriDateShort)
        (fun r v => { r with HijriDateShort := v }),
      Field.of "HijriDateShortIso8601" decString (fun r => r.HijriDateShortIso8601)
        (fun r v => { r with HijriDateShortIso8601 := v }),
      Field.of "HijriDateLongIso8601" decString (fun r => r.HijriDateLongIso8601)
        (fun r v => { r with HijriDateLongIso8601 := v }),
      Field.of "HijriDateLong" decString (fun r => r.HijriDateLong)
        (fun r v => { r with HijriDateLong := v }),
      Field.of "QiblaTime" decString (fun r => r.QiblaTime) (fun r v => { r with QiblaTime := v }),
      Field.of "GregorianDateShort" decString (fun r => r.GregorianDateShort)
        (fun r v => { r with GregorianDateShort := v }),
      Field.of "GregorianDateShortIso8601" decString (fun r => r.GregorianDateShortIso8601)
        (fun r v => { r with GregorianDateShortIso8601 := v }),
      Field.of "GregorianDateLong" decString (fun r => r.GregorianDateLong)
        (fun r v => { r with GregorianDateLong := v }),
      Field.of "GregorianDateLongIso8601" decString (fun r => r.GregorianDateLongIso8601)
        (fun r v => { r with GregorianDateLongIso8601 := v }) ]

/-- Decoding into a `PrayerTimeEid`. -/
def decPrayerTimeEid : Dec PrayerTimeEid :=
  decStruct
    [ Field.of "EidAlAdhaHijri" decString (fun r => r.EidAlAdhaHijri) (fun r v => { r with EidAlAdhaHijri := v }),
      Field.of "EidAlAdhaTime" decString (fun r => r.EidAlAdhaTime) (fun r v => { r with EidAlAdhaTime := v }),
      Field.of "EidAlAdhaDate" decString (fun r => r.EidAlAdhaDate) (fun r v => { r with EidAlAdhaDate := v }),
      Field.of "EidAlFitrHijri" decString (fun r => r.EidAlFitrHijri) (fun r v => { r with EidAlFitrHijri := v }),
      Field.of "EidAlFitrTime" decString (fun r => r.EidAlFitrTime) (fun r v => { r with EidAlFitrTime := v }),
      Field.of "EidAlFitrDate" decString (fun r => r.EidAlFitrDate) (fun r v => { r with EidAlFitrDate := v }) ]

/-- The envelope object with the members `data`, `success`, `message`, in this order. -/
def envelope (data : JSON) (success : Bool) (message : String) : JSON :=
  .obj [("data", data), ("success", .bool success), ("message", .str message)]

/-! ## Package `strings`, on lists of characters -/

/-- Go `strings.Cut(s, sep)` for a one-byte separator: the text before the first
`sep`, the text after it, and whether `sep` was found. -/
def cut (sep : Char) : List Char → List Char × List Char × Bool
  | [] => ([], [], false)
  | c :: cs =>
    if c = sep then ([], cs, true)
    else ((c :: (cut sep cs).1), (cut sep cs).2.1, (cut sep cs).2.2)

/-- The pieces of `s` between the occurrences of `sep` (`strings.Split`): what the
repeated `strings.Cut` of a scanning loop yields. -/
def split (sep : Char) : List Char → List (List Char)
  | [] => [[]]
  | c :: cs =>
    if c = sep then [] :: split sep cs
    else
      match split sep cs with
      | [] => [[c]]
      | x :: xs => (c :: x) :: xs

/-- Go `strings.LastIndex(s, sep)` for a one-byte separator (`none` is -1). -/
def lastIndex (sep : Char) (s : List Char) : Option Nat :=
  (s.reverse.findIdx? (fun c => c = sep)).map (fun k => s.length - 1 - k)

/-- Go `strings.Index(s, pat)` (`none` is -1). -/
def indexOfSub (pat : List Char) : List Char → Option Nat
  | [] => if pat = [] then some 0 else none
  | c :: cs =>
    if pat.isPrefixOf (c :: cs) then some 0
    else (indexOfSub pat cs).map (fun k => k + 1)

/-- ASCII letter. -/
def isLetter (c : Char) : Bool :=
  (97 ≤ c.toNat && c.toNat ≤ 122) || (65 ≤ c.toNat && c.toNat ≤ 90)

/-- ASCII digit. -/
def isDigit (c : Char) : Bool := 48 ≤ c.toNat && c.toNat ≤ 57

/-- Go `strings.ToLower` on ASCII text. -/
def toLower (s : List Char) : List Char :=
  s.map (fun c => if 65 ≤ c.toNat ∧ c.toNat ≤ 90 then Char.ofNat (c.toNat + 32) else c)

/-! ## Package `net/url`

Percent-escapes of bytes from 0x80 on are outside the precision of the embedding
(a `String` holds characters, not bytes): such an escape decodes to the character
with that code. -/

namespace url

/-- The escaping modes of `net/url` that parsing and printing a URL use. -/
inductive Mode where
  | encodePath
  | encodeHost
  | encodeZone
  | encodeUserPassword
  | encodeFragment
deriving DecidableEq, Repr

/-- Go `shouldEscape(c, mode)` for an ASCII character. -/
def shouldEscape (c : Char) (mode : Mode) : Bool :=
  if isLetter c || isDigit c then false
  else if (mode = .encodeHost ∨ mode = .encodeZone) ∧
      (c ∈ "!$&()*+,;=:[]<>".data ∨ c.toNat = 39 ∨ c.toNat = 34) then false
  else if c ∈ "-_.~".data then false
  else if c ∈ "$&+,/:;=?@".data then
    match mode with
    | .encodePath => c = '?'
    | .encodeUserPassword => c = '@' || c = '/' || c = '?' || c = ':'
    | .encodeFragment => false
    | _ => true
  else if mode = .encodeFragment ∧ c ∈ "!()*".data then false
  else true

/-- Go `ishex`. -/
def ishex (c : Char) : Bool :=
  isDigit c || (97 ≤ c.toNat && c.toNat ≤ 102) || (65 ≤ c.toNat && c.toNat ≤ 70)

/-- Go `unhex`. -/
def unhex (c : Char) : Nat :=
  if isDigit c then c.toNat - 48
  else if 97 ≤ c.toNat ∧ c.toNat ≤ 102 then c.toNat - 97 + 10
  else if 65 ≤ c.toNat ∧ c.toNat ≤ 70 then c.toNat - 65 + 10
  else 0

/-- Go `unescape(s, mode)`: the text with its percent-escapes decoded, or the
`EscapeError` or `InvalidHostError` of the first offence. -/
def unescape (mode : Mode) : List Char → Except Cause (List Char)
  | [] => .ok []
  | c :: rest =>
    if c = '%' then
      match rest with
      | a :: b :: rest2 =>
        if ishex a && ishex b then
          if mode = .encodeHost ∧ unhex a < 8 ∧ ¬ (a = '2' ∧ b = '5') then .error .escape
          else if mode = .encodeZone ∧ ¬ (a = '2' ∧ b = '5') ∧ unhex a * 16 + unhex b ≠ 32 ∧
              shouldEscape (Char.ofNat (unhex a * 16 + unhex b)) .encodeHost then .error .escape
          else (unescape mode rest2).map (fun t => Char.ofNat (unhex a * 16 + unhex b) :: t)
        else .error .escape
      | _ => .error .escape
    else if (mode = .encodeHost ∨ mode = .encodeZone) ∧ c.toNat < 128 ∧ shouldEscape c .encodeHost then
      .error .invalidHostCharacter
    else (unescape mode rest).map (fun t => c :: t)

/-- The UTF-8 bytes of a character. -/
def utf8Bytes (c : Char) : List Nat :=
  if c.toNat < 0x80 then [c.toNat]
  else if c.toNat < 0x800 then [0xC0 + c.toNat / 64, 0x80 + c.toNat % 64]
  else if c.toNat < 0x10000 then
    [0xE0 + c.toNat / 4096, 0x80 + c.toNat / 64 % 64, 0x80 + c.toNat % 64]
  else
    [0xF0 + c.toNat / 262144, 0x80 + c.toNat / 4096 % 64, 0x80 + c.toNat / 64 % 64,
      0x80 + c.toNat % 64]

/-- The escape `%XX` of a byte, in upper-case hexadecimal. -/
def escapeByte (b : Nat) : List Char :=
  ['%', "0123456789ABCDEF".data.getD (b / 16) '0', "0123456789ABCDEF".data.getD (b % 16) '0']

/-- Go `escape(s, mode)` (no mode here turns a space into a plus sign). -/
def escape (mode : Mode) : List Char → List Char
  | [] => []
  | c :: rest =>
    (if c.toNat < 128 then (if shouldEscape c mode then escapeByte c.toNat else [c])
     else (utf8Bytes c).flatMap escapeByte) ++ escape mode rest

/-- Go `validEncoded(s, mode)`. -/
def validEncoded (mode : Mode) (s : List Char) : Bool :=
  s.all (fun c =>
    if c ∈ "!$&()*+,;=:@[]%".data ∨ c.toNat = 39 then true
    else c.toNat < 128 && !shouldEscape c mode)

/-- Go `url.Userinfo`: a user name and an optional password. -/
structure Userinfo where
  username : String
  password : Option String
deriving DecidableEq, Repr

/-- Go `url.URL`. -/
structure URL where
  Scheme : String := ""
  Opaque : String := ""
  User : Option Userinfo := none
  Host : String := ""
  Path : String := ""
  RawPath : String := ""
  OmitHost : Bool := false
  ForceQuery : Bool := false
  RawQuery : String := ""
  Fragment : String := ""
  RawFragment : String := ""
deriving DecidableEq, Repr

/-- Go `(*URL).setPath(p)`: an error when `p` does not unescape. -/
def URL.setPath (u : URL) (p : List Char) : Except Cause URL :=
  match unescape .encodePath p with
  | .error e => .error e
  | .ok path =>
    if p = escape .encodePath path then .ok { u with Path := String.mk path, RawPath := "" }
    else .ok { u with Path := String.mk path, RawPath := String.mk p }

/-- Go `(*URL).EscapedPath()`. -/
def URL.EscapedPath (u : URL) : List Char :=
  if u.RawPath ≠ "" ∧ validEncoded .encodePath u.RawPath.data ∧
      (unescape .encodePath u.RawPath.data).toOption = some u.Path.data then u.RawPath.data
  else if u.Path = "*" then ['*']
  else escape .encodePath u.Path.data

/-- Go `(*URL).setFragment(f)`. -/
def URL.setFragment (u : URL) (f : List Char) : Except Cause URL :=
  match unescape .encodeFragment f with
  | .error e => .error e
  | .ok frag =>
    if f = escape .encodeFragment frag then
      .ok { u with Fragment := String.mk frag, RawFragment := "" }
    else .ok { u with Fragment := String.mk frag, RawFragment := String.mk f }

/-- Go `(*URL).EscapedFragment()`. -/
def URL.EscapedFragment (u : URL) : List Char :=
  if u.RawFragment ≠ "" ∧ validEncoded .encodeFragment u.RawFragment.data ∧
      (unescape .encodeFragment u.RawFragment.data).toOption = some u.Fragment.data then u.RawFragment.data
  else escape .encodeFragment u.Fragment.data

/-- Go `getScheme(rawURL)`: the scheme and the rest; `none` is the error
"missing protocol scheme".  `i` counts the characters read, `seen` holds them in
reverse. -/
def getSchemeLoop (rawURL : List Char) : Nat → List Char → List Char →
    Option (List Char × List Char)
  | _, _, [] => some ([], rawURL)
  | i, seen, c :: cs =>
    if isLetter c then getSchemeLoop rawURL (i + 1) (c :: seen) cs
    else if isDigit c || c = '+' || c = '-' || c = '.' then
      if i = 0 then some ([], rawURL) else getSchemeLoop rawURL (i + 1) (c :: seen) cs
    else if c = ':' then
      if i = 0 then none else some (seen.reverse, cs)
    else some ([], rawURL)

/-- Go `getScheme(rawURL)`. -/
def getScheme (rawURL : List Char) : Option (List Char × List Char) :=
  getSchemeLoop rawURL 0 [] rawURL

/-- Go `validOptionalPort(port)`. -/
def validOptionalPort (port : List Char) : Bool :=
  match port with
  | [] => true
  | c :: ds => c = ':' && ds.all isDigit

/-- The loop of `parseIPv4Fields` of package `net/netip`, telling whether the text
is a dotted IPv4 address: `val` is the octet read so far, `pos` counts the dots,
`digLen` the digits of the octet and `prev` is the character before. -/
def ipv4Loop : List Char → Nat → Nat → Nat → Option Char → Bool
  | [], _, pos, _, _ => decide (3 ≤ pos)
  | c :: cs, val, pos, digLen, prev =>
    if isDigit c then
      if digLen = 1 ∧ val = 0 then false
      else if 255 < val * 10 + (c.toNat - 48) then false
      else ipv4Loop cs (val * 10 + (c.toNat - 48)) pos (digLen + 1) (some c)
    else if c = '.' then
      if prev = none ∨ cs = [] ∨ prev = some '.' then false
      else if pos = 3 then false
      else ipv4Loop cs 0 (pos + 1) 0 (some c)
    else false

/-- Go `parseIPv4` of package `net/netip`, as far as whether it succeeds. -/
def validIPv4 (s : List Char) : Bool := ipv4Loop s 0 0 0 none

/-- The loop of `parseIPv6` of package `net/netip`, as far as whether it succeeds:
`i` counts the bytes of the address filled so far, `ellipsis` tells whether `::` was
seen.  Each turn reads one group of one to four hexadecimal digits; a group followed
by a dot starts the embedded IPv4 address that ends the text.  At the end an address
of fewer than sixteen bytes needs the ellipsis, a full one must not have it. -/
def ipv6Loop : Nat → Nat → Bool → List Char → Bool
  | 0, _, _, _ => false
  | fuel + 1, i, ellipsis, s =>
    if (s.takeWhile ishex).length = 0 ∨ 4 < (s.takeWhile ishex).length then false
    else
      match s.dropWhile ishex with
      | [] => if i + 2 < 16 then ellipsis else !ellipsis
      | c :: rest =>
        if c = '.' then
          if !ellipsis ∧ i ≠ 12 then false
          else if 16 < i + 4 then false
          else if !validIPv4 s then false
          else if i + 4 < 16 then ellipsis else !ellipsis
        else if c ≠ ':' then false
        else
          match rest with
          | [] => false
          | d :: rest2 =>
            if d = ':' then
              if ellipsis then false
              else if rest2 = [] then decide (i + 2 < 16)
              else if 16 ≤ i + 2 then false
              else ipv6Loop fuel (i + 2) true rest2
            else if 16 ≤ i + 2 then false
            else ipv6Loop fuel (i + 2) ellipsis rest

/-- Go `parseIPv6` of package `net/netip`, as far as whether it succeeds: a zone
after a percent sign must not be empty, and a leading `::` may be the whole
address. -/
def validIPv6 (s : List Char) : Bool :=
  if (cut '%' s).2.2 ∧ (cut '%' s).2.1 = [] then false
  else if [':', ':'].isPrefixOf (cut '%' s).1 then
    if (cut '%' s).1.drop 2 = [] then true else ipv6Loop 9 0 true ((cut '%' s).1.drop 2)
  else ipv6Loop 9 0 false (cut '%' s).1

/-- Go `netip.ParseAddr(s)`, as far as `parseHost` looks at it: `none` for an error,
else whether the address is an IPv4 address.  The first dot, colon or percent sign
decides how the text is read. -/
def parseAddrIs4 (s : List Char) : Option Bool :=
  match s.find? (fun c => c = '.' || c = ':' || c = '%') with
  | some c =>
    if c = '.' then (if validIPv4 s then some true else none)
    else if c = ':' then (if validIPv6 s then some false else none)
    else none
  | none => none

/-- Go `parseHost(host)`, as of the releases 1.24.8 and 1.25.2: a host with a bracket
is an IP literal, whose inside must be an IPv6 address (`netip.ParseAddr`), with an
optional zone in it and an optional port after it; a bracketed IPv4 address is
refused. -/
def parseHost (host : List Char) : Except Cause (List Char) :=
  match lastIndex '[' host with
  | some openIdx =>
    match lastIndex ']' host with
    | none => .error .missingBracket
    | some closeIdx =>
      if !validOptionalPort (host.drop (closeIdx + 1)) then .error .invalidPort
      else
        match unescape .encodeHost (host.drop (closeIdx + 1)) with
        | .error e => .error e
        | .ok colonPort =>
          match (match indexOfSub "%25".data ((host.take closeIdx).drop (openIdx + 1)) with
            | some zone =>
              match unescape .encodeHost (((host.take closeIdx).drop (openIdx + 1)).take zone) with
              | .error e => .error e
              | .ok hostPart =>
                match unescape .encodeZone (((host.take closeIdx).drop (openIdx + 1)).drop zone) with
                | .error e => .error e
                | .ok zonePart => .ok (hostPart ++ zonePart)
            | none => unescape .encodeHost ((host.take closeIdx).drop (openIdx + 1))
            : Except Cause (List Char)) with
          | .error e => .error e
          | .ok name =>
            match parseAddrIs4 name with
            | none => .error .invalidHost
            | some true => .error .invalidIPLiteral
            | some false => .ok ('[' :: name ++ ']' :: colonPort)
  | none =>
    match lastIndex ':' host with
    | some i =>
      if !validOptionalPort (host.drop i) then .error .invalidPort
      else unescape .encodeHost host
    | none => unescape .encodeHost host

/-- Go `validUserinfo(s)`. -/
def validUserinfo (s : List Char) : Bool :=
  s.all (fun c => isLetter c || isDigit c || c ∈ "-._:~!$&()*+,;=%@".data || c.toNat = 39)

/-- Go `parseAuthority(authority)`: the user information and the host. -/
def parseAuthority (authority : List Char) : Except Cause (Option Userinfo × List Char) :=
  match lastIndex '@' authority with
  | none => (parseHost authority).map (fun h => (none, h))
  | some i =>
    match parseHost (authority.drop (i + 1)) with
    | .error e => .error e
    | .ok host =>
      if !validUserinfo (authority.take i) then .error .invalidUserinfo
      else if ':' ∉ authority.take i then
        (unescape .encodeUserPassword (authority.take i)).map
          (fun n => (some { username := String.mk n, password := none }, host))
      else
        match unescape .encodeUserPassword (cut ':' (authority.take i)).1 with
        | .error e => .error e
        | .ok n =>
          match unescape .encodeUserPassword (cut ':' (authority.take i)).2.1 with
          | .error e => .error e
          | .ok pw =>
            .ok (some { username := String.mk n, password := some (String.mk pw) }, host)

/-- The authority step of `parse`: with `rest` starting with two slashes, the
authority runs up to the next slash. -/
def parseRest (url : URL) (rest : List Char) : Except Cause URL :=
  if (url.Scheme ≠ "" ∨ ¬ "///".data.isPrefixOf rest) ∧ "//".data.isPrefixOf rest then
    match parseAuthority (cut '/' (rest.drop 2)).1 with
    | .error e => .error e
    | .ok (user, host) =>
      { url with User := user, Host := String.mk host }.setPath
        (if (cut '/' (rest.drop 2)).2.2 then '/' :: (cut '/' (rest.drop 2)).2.1 else [])
  else if url.Scheme ≠ "" ∧ "/".data.isPrefixOf rest then
    { url with OmitHost := true }.setPath rest
  else url.setPath rest

/-- Go `parse(rawURL, viaRequest)` with `viaRequest` false, as `Parse` calls it. -/
def parse (rawURL : List Char) : Except Cause URL :=
  if rawURL.any (fun c => c.toNat < 32 || c.toNat = 127) then .error .controlCharacter
  else if rawURL = ['*'] then .ok { Path := "*" }
  else
    match getScheme rawURL with
    | none => .error .missingScheme
    | some (scheme, rest0) =>
      let url : URL := { Scheme := String.mk (toLower scheme) }
      let url : URL :=
        if rest0.getLast? = some '?' ∧ rest0.count '?' = 1 then { url with ForceQuery := true }
        else { url with RawQuery := String.mk (cut '?' rest0).2.1 }
      let rest : List Char :=
        if rest0.getLast? = some '?' ∧ rest0.count '?' = 1 then rest0.dropLast
        else (cut '?' rest0).1
      if rest.head? ≠ some '/' then
        if url.Scheme ≠ "" then .ok { url with Opaque := String.mk rest }
        else if ':' ∈ (cut '/' rest).1 then .error .colonInFirstSegment
        else parseRest url rest
      else parseRest url rest

/-- Go `url.Parse(rawURL)`: the fragment is cut off and parsed last; the error names
the text that was refused. -/
def Parse (rawURL : String) : Except Error URL :=
  match parse (cut '#' rawURL.data).1 with
  | .error e => .error (.url (String.mk (cut '#' rawURL.data).1) e)
  | .ok url =>
    if (cut '#' rawURL.data).2.1 = [] then .ok url
    else
      match url.setFragment (cut '#' rawURL.data).2.1 with
      | .error e => .error (.url rawURL e)
      | .ok url1 => .ok url1

/-- Go `(*Userinfo).String()`. -/
def Userinfo.text (ui : Userinfo) : List Char :=
  match ui.password with
  | none => escape .encodeUserPassword ui.username.data
  | some pw => escape .encodeUserPassword ui.username.data ++ ':' :: escape .encodeUserPassword pw.data

/-- The part of `(*URL).String()` before the path: scheme and authority. -/
def URL.stringHead (u : URL) : List Char :=
  (if u.Scheme ≠ "" then u.Scheme.data ++ [':'] else []) ++
  (if u.Scheme ≠ "" ∨ u.Host ≠ "" ∨ u.User.isSome then
    if u.OmitHost ∧ u.Host = "" ∧ u.User.isNone then []
    else
      (if u.Host ≠ "" ∨ u.Path ≠ "" ∨ u.User.isSome then ['/', '/'] else []) ++
      (match u.User with
        | some ui => ui.text ++ ['@']
        | none => []) ++
      (if u.Host ≠ "" then escape .encodeHost u.Host.data else [])
   else [])

/-- Go `(*URL).String()`. -/
def URL.text (u : URL) : String :=
  String.mk (
    (if u.Opaque ≠ "" then
      (if u.Scheme ≠ "" then u.Scheme.data ++ [':'] else []) ++ u.Opaque.data
     else
      u.stringHead ++
      (if u.EscapedPath ≠ [] ∧ u.EscapedPath.head? ≠ some '/' ∧ u.Host ≠ "" then ['/'] else []) ++
      (if u.stringHead = [] ∧ ':' ∈ (cut '/' u.EscapedPath).1 then ['.', '/'] else []) ++
      u.EscapedPath) ++
    (if u.ForceQuery ∨ u.RawQuery ≠ "" then '?' :: u.RawQuery.data else []) ++
    (if u.Fragment ≠ "" then '#' :: u.EscapedFragment else []))

/-- One turn of the loop of `resolvePath` on the element `elem`: `dst` is the text
written so far, leading slash included, and `first` the flag of the loop. -/
def resolveStep (st : List Char × Bool) (elem : List Char) : List Char × Bool :=
  if elem = ['.'] then (st.1, false)
  else if elem = ['.', '.'] then
    match lastIndex '/' (st.1.drop 1) with
    | none => (['/'], true)
    | some index => ('/' :: (st.1.drop 1).take index, st.2)
  else ((if st.2 then st.1 else st.1 ++ ['/']) ++ elem, false)

/-- Go `resolvePath(base, ref)`: the reference resolved against the base path, dot
segments removed. -/
def resolvePath (base ref : List Char) : List Char :=
  let full : List Char :=
    if ref = [] then base
    else if ref.head? ≠ some '/' then
      (match lastIndex '/' base with
        | some i => base.take (i + 1)
        | none => []) ++ ref
    else ref
  if full = [] then []
  else
    let dst : List Char := ((split '/' full).foldl resolveStep (['/'], true)).1
    let r : List Char :=
      if (split '/' full).getLast? = some ['.'] ∨ (split '/' full).getLast? = some ['.', '.'] then
        dst ++ ['/']
      else dst
    if 1 < r.length ∧ (r.drop 1).head? = some '/' then r.drop 1 else r

/-- Go `(*URL).ResolveReference(ref)`. -/
def URL.ResolveReference (u ref : URL) : URL :=
  let url : URL := if ref.Scheme = "" then { ref with Scheme := u.Scheme } else ref
  if ref.Scheme ≠ "" ∨ ref.Host ≠ "" ∨ ref.User.isSome then
    (url.setPath (resolvePath ref.EscapedPath [])).toOption.getD url
  else if ref.Opaque ≠ "" then { url with User := none, Host := "", Path := "" }
  else
    let url : URL :=
      if ref.Path = "" ∧ ¬ ref.ForceQuery ∧ ref.RawQuery = "" then
        if ref.Fragment = "" then
          { url with RawQuery := u.RawQuery, Fragment := u.Fragment, RawFragment := u.RawFragment }
        else { url with RawQuery := u.RawQuery }
      else url
    if ref.Path = "" ∧ u.Opaque ≠ "" then
      { url with Opaque := u.Opaque, User := none, Host := "", Path := "" }
    else
      let url : URL := { url with Host := u.Host, User := u.User }
      (url.setPath (resolvePath u.EscapedPath ref.EscapedPath)).toOption.getD url

end url

/-! ## Package `path` -/

namespace path

/-- The loop of `path.Clean` on the elements between slashes: `out` holds the
elements kept so far, the last one first.  An empty element and `.` are dropped,
`..` removes the element before it (after a leading run of `..` in a path that is
not rooted it is kept; at the root it is dropped). -/
def cleanElems (rooted : Bool) : List (List Char) → List (List Char) → List (List Char)
  | [], out => out
  | e :: es, out =>
    if e = [] ∨ e = ['.'] then cleanElems rooted es out
    else if e = ['.', '.'] then
      match out with
      | o :: os =>
        if o = ['.', '.'] then cleanElems rooted es (e :: out) else cleanElems rooted es os
      | [] => if rooted then cleanElems rooted es [] else cleanElems rooted es [e]
    else cleanElems rooted es (e :: out)

/-- Go `path.Clean(path)`, on the elements of the path. -/
def Clean (p : List Char) : List Char :=
  if p = [] then ['.']
  else
    let rooted : Bool := p.head? = some '/'
    let out : List Char :=
      (if rooted then ['/'] else []) ++
        ['/'].intercalate (cleanElems rooted (split '/' p) []).reverse
    if out = [] then ['.'] else out

/-- The buffer of `path.Join`: an element is appended, after a slash, once the buffer
is not empty or the element is not empty. -/
def joinBuf (buf : List Char) : List (List Char) → List Char
  | [] => buf
  | e :: es =>
    if buf ≠ [] ∨ e ≠ [] then joinBuf ((if buf ≠ [] then buf ++ ['/'] else buf) ++ e) es
    else joinBuf buf es

/-- Go `path.Join(elem...)`. -/
def Join (elem : List (List Char)) : List Char :=
  if elem.all (fun e => e = []) then [] else Clean (joinBuf [] elem)

end path

namespace url

/-- Go `(*URL).JoinPath(elem)` with the one element `client.go` passes.  The error of
`setPath` is dropped as in the library: the path then stays as it was. -/
def URL.JoinPath (u : URL) (elem : String) : URL :=
  let e0 : List Char := u.EscapedPath
  let p : List Char :=
    if e0.head? ≠ some '/' then (path.Join ['/' :: e0, elem.data]).drop 1
    else path.Join [e0, elem.data]
  let p : List Char :=
    if elem.data.getLast? = some '/' ∧ p.getLast? ≠ some '/' then p ++ ['/'] else p
  (u.setPath p).toOption.getD u

end url

/-! ## Package `net/http` -/

namespace http

/-- Go `http.Header`, as the list of its (canonical key, value) entries in the order
they were added.  The three keys `client.go` uses are canonical as written. -/
abbrev Header := List (String × String)

/-- Go `Header.Set(key, value)`: the entries of the key are replaced by the one value. -/
def Header.Set (h : Header) (key value : String) : Header :=
  h.filter (fun kv => kv.1 ≠ key) ++ [(key, value)]

/-- Go `Header.Add(key, value)`: the value is appended to the entries of the key. -/
def Header.Add (h : Header) (key value : String) : Header :=
  h ++ [(key, value)]

/-- Go `Header.Values(key)`: the values of the key. -/
def Header.Values (h : Header) (key : String) : List String :=
  (h.filter (fun kv => kv.1 = key)).map (fun kv => kv.2)

/-- Go `http.Request`, with the fields `client.go` sets: the body is the JSON value
written into the buffer, `none` for a nil body. -/
structure Request where
  Method : String
  URL : url.URL
  Header : Header := []
  Body : Option JSON := none

/-- Go `http.Response`, with the fields `client.go` reads: the body is the first JSON
value of the body text, `none` when the text does not start with one. -/
structure Response where
  StatusCode : Int
  Body : Option JSON

/-- What `(*http.Client).Do` answers to a request: a response, or the text of a
transport error. -/
abbrev Transport := Request → Except String Response

/-- Go `hasPort(s)`: the last colon stands after the last closing bracket. -/
def hasPort (s : List Char) : Bool :=
  match lastIndex ':' s, lastIndex ']' s with
  | some i, some j => decide (j < i)
  | some _, none => true
  | none, _ => false

/-- Go `removeEmptyPort(host)`: a trailing colon without a port is removed. -/
def removeEmptyPort (host : List Char) : List Char :=
  if hasPort host ∧ host.getLast? = some ':' then host.dropLast else host

/-- Go `validMethod(method)`: a non-empty token. -/
def validMethod (method : String) : Bool :=
  method ≠ "" &&
    method.data.all (fun c => isLetter c || isDigit c || c ∈ "!#$%&*+-.^_|~".data ||
      c.toNat = 39 || c.toNat = 96)

/-- Go `http.NewRequest(method, url, body)`: the empty method stands for `GET`, and
the URL text is parsed again. -/
def NewRequest (method : String) (urlText : String) (body : Option JSON) : Except Error Request :=
  if !validMethod (if method = "" then "GET" else method) then .error (.invalidMethod method)
  else
    match url.Parse urlText with
    | .error e => .error e
    | .ok u =>
      .ok { Method := if method = "" then "GET" else method,
            URL := { u with Host := String.mk (removeEmptyPort u.Host.data) },
            Header := [],
            Body := body }

/-- Go `http.Client`, with the field `client.go` sets: the timeout in seconds. -/
structure Client where
  Timeout : Nat
deriving DecidableEq, Repr

end http

/-! ## `client.go` -/

/-- The values `client.go` passes as `body interface{}` of `execute`. -/
inductive Body where
  | nil
  | credentials (credentials : Credentials)
deriving DecidableEq, Repr

/-- Go `json.Marshal(body)`: `null` for nil, and for the credentials an object whose
keys are the Go field names (the struct declares no JSON tags). -/
def jsonMarshal : Body → JSON
  | .nil => .null
  | .credentials cr => .obj [("Email", .str cr.Email), ("Password", .str cr.Password)]

/-- Go: `type Client struct { BaseUrl string; Credentials Credentials;
accessToken string; c *http.Client }`. -/
structure Client where
  BaseUrl : String
  Credentials : Credentials
  accessToken : String := ""
  c : http.Client
deriving DecidableEq, Repr

/-- A run of a method of `*Client`: the requests handed to the transport, in order,
the state of the client when the run ends, and how the call ended. -/
structure Run (α : Type) where
  sent : List http.Request
  client : Client
  outcome : Outcome α

/-- Go: `func (err *AwqatResponse[nil]) Error() string`, with fuel for the calls of
`Error()` that `fmt.Sprintf` makes: the verb `%s` applied to `err`, an `error`, formats
`err.Error()`.  `none` when the fuel runs out.  A verb applied to an operand of the
wrong type prints `%!verb(type=value)`, a verb without operand `%!verb(MISSING)`. -/
def AwqatResponse.Error {T : Type} (err : AwqatResponse T) : Nat → Option String
  | 0 => none
  | fuel + 1 =>
    if err.Message = "" then
      some ("%!d(string=" ++ err.Message ++ ") API error: %!s(MISSING)")
    else
      match AwqatResponse.Error err fuel with
      | none => none
      | some inner =>
        some ("%!d(bool=" ++ toString err.Success ++ ") (" ++ inner ++ ") API error: " ++
          err.Message)

/-- Go: `func newDefaultHTTPClient() *http.Client`, with a timeout of one minute. -/
def newDefaultHTTPClient : http.Client := { Timeout := 60 }

/-- Go: `func (c *Client) execute(method, endp, path string, body, expectedResponse
interface{}) error`.  `expectedResponse` is the pointer to a variable holding
`target`, decoded into by `dec`; the pair returned is the error and the content of
that variable after the call.  With a method that is neither `POST` nor `GET` the
request `req` stays nil and `req.Header` panics. -/
def Client.execute {β : Type} (net : http.Transport) (c : Client) (method endp path : String)
    (body : Body) (dec : Dec β) (target : β) : Run (Option Error × β) :=
  match url.Parse c.BaseUrl with
  | .error err => ⟨[], c, .returns (some err, target)⟩
  | .ok u0 =>
    let u : url.URL := u0.ResolveReference { Path := endp }
    let built : Except Error (Option http.Request) :=
      if method = "POST" then
        let bodyJson : JSON := jsonMarshal body
        (http.NewRequest "POST" u.text (some bodyJson)).map some
      else if method = "GET" then
        (http.NewRequest "GET" u.text none).map
          (fun req => some { req with URL := req.URL.JoinPath path })
      else .ok none
    match built with
    | .error err => ⟨[], c, .returns (some err, target)⟩
    -- `req` is nil: `req.Header.Set` or `req.Header.Add` dereferences it
    | .ok none => ⟨[], c, .panics⟩
    | .ok (some req0) =>
      let req1 : http.Request :=
        if 0 < c.accessToken.length then
          { req0 with Header := req0.Header.Set "Authorization" ("Bearer " ++ c.accessToken) }
        else req0
      let req2 : http.Request :=
        { req1 with Header := req1.Header.Add "Content-Type" "application/json" }
      let req : http.Request := { req2 with Header := req2.Header.Add "Accept" "application/json" }
      -- `res, err := c.c.Do(req)`
      match net req with
      | .error msg => ⟨[req], c, .returns (some (.transport msg), target)⟩
      | .ok res =>
        if res.StatusCode = 200 then
          match res.Body with
          | none => ⟨[req], c, .returns (some .decode, target)⟩
          | some j =>
            match dec j target with
            | none => ⟨[req], c, .returns (some .decode, target)⟩
            | some v => ⟨[req], c, .returns (none, v)⟩
        else if res.StatusCode ∈ [400, 401, 403, 404, 415, 500] then
          match res.Body with
          | none => ⟨[req], c, .returns (some .decode, target)⟩
          | some j =>
            match decAwqatResponse decAny .null j {} with
            | none => ⟨[req], c, .returns (some .decode, target)⟩
            | some errRes => ⟨[req], c, .returns (some (.api errRes), target)⟩
        else
          ⟨[req], c, .returns
            (some (.errorf ("unexpected HTTP response status code: " ++ toString res.StatusCode)),
              target)⟩

/-- Go: `func (c *Client) auth() error`.  `res.Data.AccessToken` panics when
`res.Data` is nil. -/
def Client.auth (net : http.Transport) (c : Client) : Run (Option Error) :=
  let r := c.execute net "POST" "auth/login" "" (.credentials c.Credentials)
    (decAwqatResponse decAuthResponse {}) {}
  match r.outcome with
  | .panics => ⟨r.sent, r.client, .panics⟩
  | .returns (some err, _) => ⟨r.sent, r.client, .returns (some err)⟩
  | .returns (none, res) =>
    match res.Data with
    | none => ⟨r.sent, r.client, .panics⟩
    | some data => ⟨r.sent, { r.client with accessToken := data.AccessToken }, .returns none⟩

/-- Go: `func New(credentials Credentials) (*Client, error)`.  The client of the run
is the one `New` allocates. -/
def New (net : http.Transport) (credentials : Credentials) : Run (Option Client × Option Error) :=
  let c : Client :=
    { BaseUrl := "https://awqatsalah.diyanet.gov.tr/",
      Credentials := credentials,
      c := newDefaultHTTPClient }
  let r := c.auth net
  match r.outcome with
  | .panics => ⟨r.sent, r.client, .panics⟩
  | .returns (some err) => ⟨r.sent, r.client, .returns (none, some err)⟩
  | .returns none => ⟨r.sent, r.client, .returns (some r.client, none)⟩

/-- Go: `func (c *Client) Countries() ([]Location, error)`.  `res` is the pointer
the decoder writes through `&res`; `*res.Data` panics when `res` or `res.Data` is nil,
and the slice returned is given by its elements. -/
def Client.Countries (net : http.Transport) (c : Client) :
    Run (Option (List Location) × Option Error) :=
  let r := c.execute net "GET" "api/place/countries" "" .nil
    (decPtr (decAwqatResponse (decSlice decLocation {}) {}) {}) (some {})
  match r.outcome with
  | .panics => ⟨r.sent, r.client, .panics⟩
  | .returns (some err, _) => ⟨r.sent, r.client, .returns (none, some err)⟩
  | .returns (none, res) =>
    match res with
    | none => ⟨r.sent, r.client, .panics⟩
    | some env =>
      match env.Data with
      | none => ⟨r.sent, r.client, .panics⟩
      | some data => ⟨r.sent, r.client, .returns (some data.elems, none)⟩

/-- Go: `func (c *Client) States() ([]Location, error)`.  `res` is the pointer
the decoder writes through `&res`; `*res.Data` panics when `res` or `res.Data` is nil,
and the slice returned is given by its elements. -/
def Client.States (net : http.Transport) (c : Client) :
    Run (Option (List Location) × Option Error) :=
  let r := c.execute net "GET" "api/place/states" "" .nil
    (decPtr (decAwqatResponse (decSlice decLocation {}) {}) {}) (some {})
  match r.outcome with
  | .panics => ⟨r.sent, r.client, .panics⟩
  | .returns (some err, _) => ⟨r.sent, r.client, .returns (none, some err)⟩
  | .returns (none, res) =>
    match res with
    | none => ⟨r.sent, r.client, .panics⟩
    | some env =>
      match env.Data with
      | none => ⟨r.sent, r.client, .panics⟩
      | some data => ⟨r.sent, r.client, .returns (some data.elems, none)⟩

/-- Go: `func (c *Client) Cities() ([]Location, error)`.  `res` is the pointer
the decoder writes through `&res`; `*res.Data` panics when `res` or `res.Data` is nil,
and the slice returned is given by its elements. -/
def Client.Cities (net : http.Transport) (c : Client) :
    Run (Option (List Location) × Option Error) :=
  let r := c.execute net "GET" "api/place/cities" "" .nil
    (decPtr (decAwqatResponse (decSlice decLocation {}) {}) {}) (some {})
  match r.outcome with
  | .panics => ⟨r.sent, r.client, .panics⟩
  | .returns (some err, _) => ⟨r.sent, r.client, .returns (none, some err)⟩
  | .returns (none, res) =>
    match res with
    | none => ⟨r.sent, r.client, .panics⟩
    | some env =>
      match env.Data with
      | none => ⟨r.sent, r.client, .panics⟩
      | some data => ⟨r.sent, r.client, .returns (some data.elems, none)⟩

/-- Go: `func (c *Client) StatesByCountryID(countryID string) ([]Location, error)`.  `res` is the pointer
the decoder writes through `&res`; `*res.Data` panics when `res` or `res.Data` is nil,
and the slice returned is given by its elements. -/
def Client.StatesByCountryID (net : http.Transport) (c : Client) (countryID : String) :
    Run (Option (List Location) × Option Error) :=
  let r := c.execute net "GET" "api/place/states" countryID .nil
    (decPtr (decAwqatResponse (decSlice decLocation {}) {}) {}) (some {})
  match r.outcome with
  | .panics => ⟨r.sent, r.client, .panics⟩
  | .returns (some err, _) => ⟨r.sent, r.client, .returns (none, some err)⟩
  | .returns (none, res) =>
    match res with
    | none => ⟨r.sent, r.client, .panics⟩
    | some env =>
      match env.Data with
      | none => ⟨r.sent, r.client, .panics⟩
      | some data => ⟨r.sent, r.client, .returns (some data.elems, none)⟩

/-- Go: `func (c *Client) CitiesByStateID(stateID string) ([]Location, error)`.  `res` is the pointer
the decoder writes through `&res`; `*res.Data` panics when `res` or `res.Data` is nil,
and the slice returned is given by its elements. -/
def Client.CitiesByStateID (net : http.Transport) (c : Client) (stateID : String) :
    Run (Option (List Location) × Option Error) :=
  let r := c.execute net "GET" "api/place/cities/" stateID .nil
    (decPtr (decAwqatResponse (decSlice decLocation {}) {}) {}) (some {})
  match r.outcome with
  | .panics => ⟨r.sent, r.client, .panics⟩
  | .returns (some err, _) => ⟨r.sent, r.client, .returns (none, some err)⟩
  | .returns (none, res) =>
    match res with
    | none => ⟨r.sent, r.client, .panics⟩
    | some env =>
      match env.Data with
      | none => ⟨r.sent, r.client, .panics⟩
      | some data => ⟨r.sent, r.client, .returns (some data.elems, none)⟩

/-- Go: `func (c *Client) DailyContent() (*DailyContent, error)`.  `res.Data` panics when
`res` is nil, and is returned as it is, nil included, otherwise. -/
def Client.DailyContent (net : http.Transport) (c : Client) :
    Run (Option DailyContent × Option Error) :=
  let r := c.execute net "GET" "api/DailyContent" "" .nil
    (decPtr (decAwqatResponse decDailyContent {}) {}) (some {})
  match r.outcome with
  | .panics => ⟨r.sent, r.client, .panics⟩
  | .returns (some err, _) => ⟨r.sent, r.client, .returns (none, some err)⟩
  | .returns (none, res) =>
    match res with
    | none => ⟨r.sent, r.client, .panics⟩
    | some env => ⟨r.sent, r.client, .returns (env.Data, none)⟩

/-- Go: `func (c *Client) PrayerTimeDailyByCityID(cityID string) ([]PrayerTime, error)`.  `res` is the pointer
the decoder writes through `&res`; `*res.Data` panics when `res` or `res.Data` is nil,
and the slice returned is given by its elements. -/
def Client.PrayerTimeDailyByCityID (net : http.Transport) (c : Client) (cityID : String) :
    Run (Option (List PrayerTime) × Option Error) :=
  let r := c.execute net "GET" "api/PrayerTime/Daily" cityID .nil
    (decPtr (decAwqatResponse (decSlice decPrayerTime {}) {}) {}) (some {})
  match r.outcome with
  | .panics => ⟨r.sent, r.client, .panics⟩
  | .returns (some err, _) => ⟨r.sent, r.client, .returns (none, some err)⟩
  | .returns (none, res) =>
    match res with
    | none => ⟨r.sent, r.client, .panics⟩
    | some env =>
      match env.Data with
      | none => ⟨r.sent, r.client, .panics⟩
      | some data => ⟨r.sent, r.client, .returns (some data.elems, none)⟩

/-- Go: `func (c *Client) PrayerTimeWeeklyByCityID(cityID string) ([]PrayerTime, error)`.  `res` is the pointer
the decoder writes through `&res`; `*res.Data` panics when `res` or `res.Data` is nil,
and the slice returned is given by its elements. -/
def Client.PrayerTimeWeeklyByCityID (net : http.Transport) (c : Client) (cityID : String) :
    Run (Option (List PrayerTime) × Option Error) :=
  let r := c.execute net "GET" "api/PrayerTime/Weekly" cityID .nil
    (decPtr (decAwqatResponse (decSlice decPrayerTime {}) {}) {}) (some {})
  match r.outcome with
  | .panics => ⟨r.sent, r.client, .panics⟩
  | .returns (some err, _) => ⟨r.sent, r.client, .returns (none, some err)⟩
  | .returns (none, res) =>
    match res with
    | none => ⟨r.sent, r.client, .panics⟩
    | some env =>
      match env.Data with
      | none => ⟨r.sent, r.client, .panics⟩
      | some data => ⟨r.sent, r.client, .returns (some data.elems, none)⟩

/-- Go: `func (c *Client) PrayerTimeMonthlyByCityID(cityID string) ([]PrayerTime, error)`.  `res` is the pointer
the decoder writes through `&res`; `*res.Data` panics when `res` or `res.Data` is nil,
and the slice returned is given by its elements. -/
def Client.PrayerTimeMonthlyByCityID (net : http.Transport) (c : Client) (cityID : String) :
    Run (Option (List PrayerTime) × Option Error) :=
  let r := c.execute net "GET" "api/PrayerTime/Monthly" cityID .nil
    (decPtr (decAwqatResponse (decSlice decPrayerTime {}) {}) {}) (some {})
  match r.outcome with
  | .panics => ⟨r.sent, r.client, .panics⟩
  | .returns (some err, _) => ⟨r.sent, r.client, .returns (none, some err)⟩
  | .returns (none, res) =>
    match res with
    | none => ⟨r.sent, r.client, .panics⟩
    | some env =>
      match env.Data with
      | none => ⟨r.sent, r.client, .panics⟩
      | some data => ⟨r.sent, r.client, .returns (some data.elems, none)⟩

/-- Go: `func (c *Client) PrayerTimeEidByCityID(cityID string) (*PrayerTimeEid, error)`.  `res.Data` panics when
`res` is nil, and is returned as it is, nil included, otherwise. -/
def Client.PrayerTimeEidByCityID (net : http.Transport) (c : Client) (cityID : String) :
    Run (Option PrayerTimeEid × Option Error) :=
  let r := c.execute net "GET" "api/PrayerTime/Eid" cityID .nil
    (decPtr (decAwqatResponse decPrayerTimeEid {}) {}) (some {})
  match r.outcome with
  | .panics => ⟨r.sent, r.client, .panics⟩
  | .returns (some err, _) => ⟨r.sent, r.client, .returns (none, some err)⟩
  | .returns (none, res) =>
    match res with
    | none => ⟨r.sent, r.client, .panics⟩
    | some env => ⟨r.sent, r.client, .returns (env.Data, none)⟩

/-- Go: `func (c *Client) PrayerTimeRamadanByCityID(cityID string) ([]PrayerTime, error)`.  `res` is the pointer
the decoder writes through `&res`; `*res.Data` panics when `res` or `res.Data` is nil,
and the slice returned is given by its elements. -/
def Client.PrayerTimeRamadanByCityID (net : http.Transport) (c : Client) (cityID : String) :
    Run (Option (List PrayerTime) × Option Error) :=
  let r := c.execute net "GET" "api/PrayerTime/Ramadan" cityID .nil
    (decPtr (decAwqatResponse (decSlice decPrayerTime {}) {}) {}) (some {})
  match r.outcome with
  | .panics => ⟨r.sent, r.client, .panics⟩
  | .returns (some err, _) => ⟨r.sent, r.client, .returns (none, some err)⟩
  | .returns (none, res) =>
    match res with
    | none => ⟨r.sent, r.client, .panics⟩
    | some env =>
      match env.Data with
      | none => ⟨r.sent, r.client, .panics⟩
      | some data => ⟨r.sent, r.client, .returns (some data.elems, none)⟩

/-! ## All accessors at once -/

/-- A call of one of the eleven accessors, with its argument. -/
inductive Accessor where
  | Countries
  | States
  | Cities
  | StatesByCountryID (countryID : String)
  | CitiesByStateID (stateID : String)
  | DailyContent
  | PrayerTimeDailyByCityID (cityID : String)
  | PrayerTimeWeeklyByCityID (cityID : String)
  | PrayerTimeMonthlyByCityID (cityID : String)
  | PrayerTimeEidByCityID (cityID : String)
  | PrayerTimeRamadanByCityID (cityID : String)
deriving DecidableEq, Repr

/-- The typed results of the accessors. -/
inductive Value where
  | locations (v : List Location)
  | dailyContent (v : DailyContent)
  | prayerTimes (v : List PrayerTime)
  | eid (v : PrayerTimeEid)
deriving DecidableEq, Repr

/-- The result pair of an accessor with its first component turned into a `Value`. -/
def Run.conv {α : Type} (f : α → Value) (r : Run (Option α × Option Error)) :
    Run (Option Value × Option Error) :=
  ⟨r.sent, r.client,
    match r.outcome with
    | .panics => .panics
    | .returns (v, err) => .returns (v.map f, err)⟩

/-- The run of an accessor call. -/
def Accessor.call (net : http.Transport) (c : Client) : Accessor → Run (Option Value × Option Error)
  | .Countries => (c.Countries net).conv .locations
  | .States => (c.States net).conv .locations
  | .Cities => (c.Cities net).conv .locations
  | .StatesByCountryID countryID => (c.StatesByCountryID net countryID).conv .locations
  | .CitiesByStateID stateID => (c.CitiesByStateID net stateID).conv .locations
  | .DailyContent => (c.DailyContent net).conv .dailyContent
  | .PrayerTimeDailyByCityID cityID => (c.PrayerTimeDailyByCityID net cityID).conv .prayerTimes
  | .PrayerTimeWeeklyByCityID cityID => (c.PrayerTimeWeeklyByCityID net cityID).conv .prayerTimes
  | .PrayerTimeMonthlyByCityID cityID => (c.PrayerTimeMonthlyByCityID net cityID).conv .prayerTimes
  | .PrayerTimeEidByCityID cityID => (c.PrayerTimeEidByCityID net cityID).conv .eid
  | .PrayerTimeRamadanByCityID cityID => (c.PrayerTimeRamadanByCityID net cityID).conv .prayerTimes

/-- The run reached the transport with one request, which the transport answered
with the response `res`. -/
def Run.answered {α : Type} (r : Run α) (net : http.Transport) (res : http.Response) : Prop :=
  ∃ req, r.sent = [req] ∧ net req = .ok res

open url

/-! ## Definitions used to state and prove the properties -/

/-- The request `execute` builds before it calls the transport (`.ok none`: `req` is
nil, the method being neither `POST` nor `GET`). -/
def Client.request (c : Client) (method endp path : String) (body : Body) :
    Except Error (Option http.Request) :=
  match url.Parse c.BaseUrl with
  | .error err => .error err
  | .ok u0 =>
    match (if method = "POST" then
        (http.NewRequest "POST" (u0.ResolveReference { Path := endp }).text
          (some (jsonMarshal body))).map some
      else if method = "GET" then
        (http.NewRequest "GET" (u0.ResolveReference { Path := endp }).text none).map
          (fun req => some { req with URL := req.URL.JoinPath path })
      else .ok none : Except Error (Option http.Request)) with
    | .error err => .error err
    | .ok none => .ok none
    | .ok (some req0) =>
      .ok (some
        { req0 with
          Header := ((if 0 < c.accessToken.length then
              req0.Header.Set "Authorization" ("Bearer " ++ c.accessToken)
            else req0.Header).Add "Content-Type" "application/json").Add
              "Accept" "application/json" })

/-- What `execute` returns once the transport has answered `res`. -/
def respond {β : Type} (dec : Dec β) (target : β) (res : http.Response) : Option Error × β :=
  if res.StatusCode = 200 then
    match res.Body with
    | none => (some .decode, target)
    | some j =>
      match dec j target with
      | none => (some .decode, target)
      | some v => (none, v)
  else if res.StatusCode ∈ [400, 401, 403, 404, 415, 500] then
    match res.Body with
    | none => (some .decode, target)
    | some j =>
      match decAwqatResponse decAny .null j {} with
      | none => (some .decode, target)
      | some errRes => (some (.api errRes), target)
  else
    (some (.errorf ("unexpected HTTP response status code: " ++ toString res.StatusCode)), target)

/-- The requests a run sends, given the request it builds. -/
def sentOf (built : Except Error (Option http.Request)) : List http.Request :=
  match built with
  | .ok (some req) => [req]
  | _ => []

/-- The tail of an accessor that returns `*res.Data`: from what `execute` returned to
what the accessor returns. -/
def sliceResult {T : Type} :
    Option Error × Option (AwqatResponse (Slice T)) → Outcome (Option (List T) × Option Error)
  | (some err, _) => .returns (none, some err)
  | (none, none) => .panics
  | (none, some env) =>
    match env.Data with
    | none => .panics
    | some data => .returns (some data.elems, none)

/-- The tail of an accessor that returns `res.Data`. -/
def ptrResult {T : Type} :
    Option Error × Option (AwqatResponse T) → Outcome (Option T × Option Error)
  | (some err, _) => .returns (none, some err)
  | (none, none) => .panics
  | (none, some env) => .returns (env.Data, none)

/-- The result pair of an accessor with its first component turned into a `Value`. -/
def convOutcome {α : Type} (f : α → Value) : Outcome (Option α × Option Error) →
    Outcome (Option Value × Option Error)
  | .panics => .panics
  | .returns (v, err) => .returns (v.map f, err)

/-- The endpoint literal of an accessor. -/
def Accessor.endp : Accessor → String
  | .Countries => "api/place/countries"
  | .States => "api/place/states"
  | .Cities => "api/place/cities"
  | .StatesByCountryID _ => "api/place/states"
  | .CitiesByStateID _ => "api/place/cities/"
  | .DailyContent => "api/DailyContent"
  | .PrayerTimeDailyByCityID _ => "api/PrayerTime/Daily"
  | .PrayerTimeWeeklyByCityID _ => "api/PrayerTime/Weekly"
  | .PrayerTimeMonthlyByCityID _ => "api/PrayerTime/Monthly"
  | .PrayerTimeEidByCityID _ => "api/PrayerTime/Eid"
  | .PrayerTimeRamadanByCityID _ => "api/PrayerTime/Ramadan"

/-- The path suffix an accessor passes to `execute`. -/
def Accessor.arg : Accessor → String
  | .Countries => ""
  | .States => ""
  | .Cities => ""
  | .StatesByCountryID countryID => countryID
  | .CitiesByStateID stateID => stateID
  | .DailyContent => ""
  | .PrayerTimeDailyByCityID cityID => cityID
  | .PrayerTimeWeeklyByCityID cityID => cityID
  | .PrayerTimeMonthlyByCityID cityID => cityID
  | .PrayerTimeEidByCityID cityID => cityID
  | .PrayerTimeRamadanByCityID cityID => cityID

/-- The decoder and the variable an accessor with a slice payload hands to `execute`. -/
abbrev sliceDec {T : Type} (d : Dec T) (zero : T) : Dec (Option (AwqatResponse (Slice T))) :=
  decPtr (decAwqatResponse (decSlice d zero) {}) {}

/-- The decoder an accessor with a single payload hands to `execute`. -/
abbrev ptrDec {T : Type} (d : Dec T) (zero : T) : Dec (Option (AwqatResponse T)) :=
  decPtr (decAwqatResponse d zero) {}

/-- What an accessor returns once the transport has answered `res`. -/
def Accessor.respond (a : Accessor) (res : http.Response) : Outcome (Option Value × Option Error) :=
  match a with
  | .DailyContent =>
    convOutcome .dailyContent (ptrResult (Awqat.respond (ptrDec decDailyContent {}) (some {}) res))
  | .PrayerTimeEidByCityID _ =>
    convOutcome .eid (ptrResult (Awqat.respond (ptrDec decPrayerTimeEid {}) (some {}) res))
  | .PrayerTimeDailyByCityID _ =>
    convOutcome .prayerTimes (sliceResult (Awqat.respond (sliceDec decPrayerTime {}) (some {}) res))
  | .PrayerTimeWeeklyByCityID _ =>
    convOutcome .prayerTimes (sliceResult (Awqat.respond (sliceDec decPrayerTime {}) (some {}) res))
  | .PrayerTimeMonthlyByCityID _ =>
    convOutcome .prayerTimes (sliceResult (Awqat.respond (sliceDec decPrayerTime {}) (some {}) res))
  | .PrayerTimeRamadanByCityID _ =>
    convOutcome .prayerTimes (sliceResult (Awqat.respond (sliceDec decPrayerTime {}) (some {}) res))
  | _ =>
    convOutcome .locations (sliceResult (Awqat.respond (sliceDec decLocation {}) (some {}) res))

/-- The default base address `New` writes into the client. -/
def defaultBaseUrl : String := "https://awqatsalah.diyanet.gov.tr/"

/-- The parsed form of the default base address. -/
def baseURL : URL := { Scheme := "https", Host := "awqatsalah.diyanet.gov.tr", Path := "/" }

/-- The headers `execute` puts on a request built by `http.NewRequest`. -/
def headersFor (accessToken : String) : http.Header :=
  (if accessToken = "" then [] else [("Authorization", "Bearer " ++ accessToken)]) ++
    [("Content-Type", "application/json"), ("Accept", "application/json")]

/-- A path suffix that is one plain path segment: not empty, without slash or
percent sign, and not a dot segment. -/
def isSegment (s : String) : Prop :=
  s ≠ "" ∧ '/' ∉ s.data ∧ '%' ∉ s.data ∧ s ≠ "." ∧ s ≠ ".."

instance (s : String) : Decidable (isSegment s) := by
  unfold isSegment; exact inferInstance

/-- The client `New` allocates before the login. -/
def newClient (credentials : Credentials) : Client :=
  { BaseUrl := "https://awqatsalah.diyanet.gov.tr/", Credentials := credentials,
    c := newDefaultHTTPClient }

/-- The login request of a client with the default base address. -/
def loginRequest (c : Client) : http.Request :=
  { Method := "POST", URL := { baseURL with Path := "/auth/login" },
    Header := headersFor c.accessToken,
    Body := some (.obj [("Email", .str c.Credentials.Email), ("Password", .str c.Credentials.Password)]) }

/-- The tail of `auth`: from what `execute` returned to the state of the client and the
error `auth` returns. -/
def authResult (c : Client) : Option Error × AwqatResponse AuthResponse → Client × Outcome (Option Error)
  | (some err, _) => (c, .returns (some err))
  | (none, res) =>
    match res.Data with
    | none => (c, .panics)
    | some data => ({ c with accessToken := data.AccessToken }, .returns none)

/-- A transport that answers every request with the same response. -/
def constNet (res : http.Response) : http.Transport := fun _ => .ok res

/-- A transport that fails on every request. -/
def downNet : http.Transport := fun _ => .error "connection refused"

/-- A client as `New` leaves it after a login that returned the token `tok`. -/
def exampleClient : Client :=
  { BaseUrl := "https://awqatsalah.diyanet.gov.tr/",
    Credentials := { Email := "user@example.org", Password := "secret" },
    accessToken := "tok",
    c := newDefaultHTTPClient }

/-- The payload of a login response. -/
def authData (accessToken refreshToken : String) : JSON :=
  .obj [("accessToken", .str accessToken), ("refreshToken", .str refreshToken)]

/-- The request URL of an accessor call below the default base address. -/
def Accessor.url (a : Accessor) : URL :=
  ({ baseURL with Path := String.mk ('/' :: a.endp.data) } : URL).JoinPath a.arg

/-- The body of the round-trip scenario: one country. -/
def turkeyData : JSON :=
  .arr [.obj [("id", .num (.ofInt 1)), ("code", .str "TR"), ("name", .str "Turkey")]]

/-- Whether an integer is a value of Go `int` (64 bits). -/
def isGoInt (i : Int) : Bool :=
  decide (-9223372036854775808 ≤ i) && decide (i ≤ 9223372036854775807)

/-- The JSON object the service sends for a location: the members `id`, `code`,
`name`. -/
def Location.wire (l : Location) : JSON :=
  .obj [("id", .num (.ofInt l.ID)), ("code", .str l.Code), ("name", .str l.Name)]

/-- The JSON object the service sends for the content of the day. -/
def DailyContent.wire (d : DailyContent) : JSON :=
  .obj [("id", .num (.ofInt d.ID)), ("dayOfYear", .num (.ofInt d.DayOfYear)),
    ("verse", .str d.Verse), ("verseSource", .str d.VerseSource),
    ("hadith", .str d.Hadith), ("hadithSource", .str d.HadithSource),
    ("pray", .str d.Pray), ("praySource", .str d.PraySource)]

/-- The JSON object the service sends for a prayer-time record. -/
def PrayerTime.wire (t : PrayerTime) : JSON :=
  .obj [("shapeMoonUrl", .str t.ShapeMoonUrl), ("fajr", .str t.Fajr),
    ("sunrise", .str t.Sunrise), ("dhuhr", .str t.Dhuhr), ("asr", .str t.Asr),
    ("maghrib", .str t.Maghrib), ("isha", .str t.Isha),
    ("astronomicalSunset", .str t.AstronomicalSunset),
    ("astronomicalSunrise", .str t.AstronomicalSunrise),
    ("hijriDateShort", .str t.HijriDateShort),
    ("hijriDateShortIso8601", .str t.HijriDateShortIso8601),
    ("hijriDateLongIso8601", .str t.HijriDateLongIso8601),
    ("hijriDateLong", .str t.HijriDateLong), ("qiblaTime", .str t.QiblaTime),
    ("gregorianDateShort", .str t.GregorianDateShort),
    ("gregorianDateShortIso8601", .str t.GregorianDateShortIso8601),
    ("gregorianDateLong", .str t.GregorianDateLong),
    ("gregorianDateLongIso8601", .str t.GregorianDateLongIso8601)]

/-- The JSON object the service sends for an Eid record. -/
def PrayerTimeEid.wire (e : PrayerTimeEid) : JSON :=
  .obj [("eidAlAdhaHijri", .str e.EidAlAdhaHijri), ("eidAlAdhaTime", .str e.EidAlAdhaTime),
    ("eidAlAdhaDate", .str e.EidAlAdhaDate), ("eidAlFitrHijri", .str e.EidAlFitrHijri),
    ("eidAlFitrTime", .str e.EidAlFitrTime), ("eidAlFitrDate", .str e.EidAlFitrDate)]

/-- The JSON value of a typed result, as the service writes it into the member
`data`: an array of objects for a sequence, an object for a single record. -/
def Value.wire : Value → JSON
  | .locations v => .arr (v.map Location.wire)
  | .dailyContent v => v.wire
  | .prayerTimes v => .arr (v.map PrayerTime.wire)
  | .eid v => v.wire

/-- Whether the typed value is of the result type of the accessor, its integers being
values of Go `int`. -/
def Value.isResultOf : Value → Accessor → Bool
  | .locations v, .Countries => v.all (fun l => isGoInt l.ID)
  | .locations v, .States => v.all (fun l => isGoInt l.ID)
  | .locations v, .Cities => v.all (fun l => isGoInt l.ID)
  | .locations v, .StatesByCountryID _ => v.all (fun l => isGoInt l.ID)
  | .locations v, .CitiesByStateID _ => v.all (fun l => isGoInt l.ID)
  | .dailyContent v, .DailyContent => isGoInt v.ID && isGoInt v.DayOfYear
  | .prayerTimes _, .PrayerTimeDailyByCityID _ => true
  | .prayerTimes _, .PrayerTimeWeeklyByCityID _ => true
  | .prayerTimes _, .PrayerTimeMonthlyByCityID _ => true
  | .prayerTimes _, .PrayerTimeRamadanByCityID _ => true
  | .eid _, .PrayerTimeEidByCityID _ => true
  | _, _ => false

/-- A member of a response envelope beside `data`: `success` holding a boolean, or
`message` holding a text. -/
def isStatusMember (m : String × JSON) : Bool :=
  match m.2 with
  | .bool _ => m.1 == "success"
  | .str _ => m.1 == "message"
  | _ => false

/-- ASCII lowercase letter. -/
def isLower (c : Char) : Bool := 97 ≤ c.toNat && c.toNat ≤ 122

/-- A scheme that `url.Parse` reads back as it is: a lowercase letter, then lowercase
letters, digits, `+`, `-` and `.`. -/
def plainScheme : List Char → Bool
  | [] => false
  | c :: cs => isLower c && cs.all (fun d => isLower d || isDigit d || d = '+' || d = '-' || d = '.')

/-- A host that `(*URL).String` writes without escapes and `url.Parse` reads back as
it is: characters that need no escape in a host, no bracket, and digits only after
the last colon. -/
def plainHost (h : List Char) : Bool :=
  h.all (fun c => decide (c.toNat < 128) && !shouldEscape c .encodeHost && c != '[') &&
    (match lastIndex ':' h with
     | some i => validOptionalPort (h.drop i)
     | none => true)

/-- A rooted path of characters that need no escape in a path. -/
def plainPath (p : List Char) : Bool :=
  p.head? = some '/' && p.all (fun c => decide (c.toNat < 128) && !shouldEscape c .encodePath)

/-- A URL of a scheme, a host and a rooted path, all written without escapes, and
nothing else. -/
def plainURL (u : URL) : Bool :=
  plainScheme u.Scheme.data && plainHost u.Host.data && plainPath u.Path.data &&
    u.Opaque == "" && u.User.isNone && u.RawPath == "" && !u.OmitHost && !u.ForceQuery &&
    u.RawQuery == "" && u.Fragment == "" && u.RawFragment == ""

/-- The path without the slash at its end, if it has one. -/
def trimSlash (p : List Char) : List Char :=
  if p.getLast? = some '/' then p.dropLast else p

/-- The root, or a rooted path that `path.Clean` leaves as it is (no empty and no dot
element), with or without one slash after it. -/
def cleanPath (p : List Char) : Bool :=
  p == ['/'] ||
    (trimSlash p != ['/'] && (trimSlash p).head? == some '/' &&
      path.Clean (trimSlash p) == trimSlash p)

/-- A client with the base address `http://h//v1/`, whose path has a doubled slash. -/
def doubledSlashClient : Client :=
  { BaseUrl := "http://h//v1/", Credentials := {}, c := newDefaultHTTPClient }

/-- A client of a test server at `http://127.0.0.1:8080/v1/`. -/
def localClient : Client :=
  { BaseUrl := "http://127.0.0.1:8080/v1/", Credentials := {}, c := newDefaultHTTPClient }

/-- The parsed base address of `localClient`. -/
def localURL : URL := { Scheme := "http", Host := "127.0.0.1:8080", Path := "/v1/" }

/-- The parsed base address of `doubledSlashClient`. -/
def doubledSlashURL : URL := { Scheme := "http", Host := "h", Path := "//v1/" }

/-- A client whose base address has no scheme. -/
def badAddressClient : Client :=
  { BaseUrl := "://bad", Credentials := {}, c := newDefaultHTTPClient }

/-- A URL of a scheme, any user information and host, and a rooted path of characters
that need no escape, and nothing else. -/
def rootedURL (u : URL) : Bool :=
  plainScheme u.Scheme.data && plainPath u.Path.data &&
    u.Opaque == "" && u.RawPath == "" && !u.OmitHost && !u.ForceQuery &&
    u.RawQuery == "" && u.Fragment == "" && u.RawFragment == ""

/-- The authority `(*URL).String` writes: the user information and the host. -/
def authorityText (u : URL) : List Char :=
  (match u.User with
    | some ui => ui.text ++ ['@']
    | none => []) ++
  (if u.Host ≠ "" then escape .encodeHost u.Host.data else [])

/-- A client whose base address names a user and an IPv6 host with a port. -/
def userClient : Client :=
  { BaseUrl := "http://user@[::1]:8080/v1/", Credentials := {}, c := newDefaultHTTPClient }

/-- The parsed base address of `userClient`. -/
def userURL : URL :=
  { Scheme := "http", User := some { username := "user", password := none },
    Host := "[::1]:8080", Path := "/v1/" }

/-! ## Lemmas -/

/-- `execute` is the request it builds, the call of the transport, and the handling of the answer. -/
theorem execute_eq {β : Type} (net : http.Transport) (c : Client) (method endp path : String)
    (body : Body) (dec : Dec β) (target : β) :
    c.execute net method endp path body dec target =
      match c.request method endp path body with
      | .error err => ⟨[], c, .returns (some err, target)⟩
      | .ok none => ⟨[], c, .panics⟩
      | .ok (some req) =>
        match net req with
        | .error msg => ⟨[req], c, .returns (some (.transport msg), target)⟩
        | .ok res => ⟨[req], c, .returns (respond dec target res)⟩ := by
  unfold Client.execute Client.request respond
  cases hp : url.Parse c.BaseUrl with
  | error err => rfl
  | ok u0 =>
    dsimp only
    generalize (if method = "POST" then
        (http.NewRequest "POST" (u0.ResolveReference { Path := endp }).text
          (some (jsonMarshal body))).map some
      else if method = "GET" then
        (http.NewRequest "GET" (u0.ResolveReference { Path := endp }).text none).map
          (fun req => some { req with URL := req.URL.JoinPath path })
      else .ok none : Except Error (Option http.Request)) = built
    cases built with
    | error err => rfl
    | ok o =>
      cases o with
      | none => rfl
      | some req0 =>
        dsimp only
        by_cases ht : 0 < c.accessToken.length
        · simp only [ht, if_true]
          cases net _ with
          | error msg => rfl
          | ok res =>
            dsimp only
            by_cases h1 : res.StatusCode = 200
            · simp only [h1, if_true]
              cases res.Body with
              | none => rfl
              | some j => dsimp only; cases dec j target <;> rfl
            · simp only [h1, if_false]
              by_cases h2 : res.StatusCode ∈ [400, 401, 403, 404, 415, 500]
              · simp only [h2, if_true]
                cases res.Body with
                | none => rfl
                | some j => dsimp only; cases decAwqatResponse decAny .null j {} <;> rfl
              · simp only [h2, if_false]
        · simp only [ht, if_false]
          cases net _ with
          | error msg => rfl
          | ok res =>
            dsimp only
            by_cases h1 : res.StatusCode = 200
            · simp only [h1, if_true]
              cases res.Body with
              | none => rfl
              | some j => dsimp only; cases dec j target <;> rfl
            · simp only [h1, if_false]
              by_cases h2 : res.StatusCode ∈ [400, 401, 403, 404, 415, 500]
              · simp only [h2, if_true]
                cases res.Body with
                | none => rfl
                | some j => dsimp only; cases decAwqatResponse decAny .null j {} <;> rfl
              · simp only [h2, if_false]

/-- The requests `execute` sends are determined by the request it builds. -/
theorem execute_sent {β : Type} (net : http.Transport) (c : Client) (method endp path : String)
    (body : Body) (dec : Dec β) (target : β) :
    (c.execute net method endp path body dec target).sent =
      sentOf (c.request method endp path body) := by
  rw [execute_eq]
  cases c.request method endp path body with
  | error err => rfl
  | ok o =>
    cases o with
    | none => rfl
    | some req => dsimp only [sentOf]; cases net req <;> rfl

/-- `execute` leaves the client as it found it. -/
theorem execute_client {β : Type} (net : http.Transport) (c : Client) (method endp path : String)
    (body : Body) (dec : Dec β) (target : β) :
    (c.execute net method endp path body dec target).client = c := by
  rw [execute_eq]
  cases c.request method endp path body with
  | error err => rfl
  | ok o =>
    cases o with
    | none => rfl
    | some req => dsimp only; cases net req <;> rfl

/-- A run sends one request at most. -/
theorem sentOf_length_le (built : Except Error (Option http.Request)) :
    (sentOf built).length ≤ 1 := by
  cases built with
  | error err => simp [sentOf]
  | ok o => cases o <;> simp [sentOf]

/-- Once the transport has answered, `execute` returns what `respond` says. -/
theorem execute_outcome_of_sent {β : Type} (net : http.Transport) (c : Client)
    (method endp path : String) (body : Body) (dec : Dec β) (target : β)
    (req : http.Request) (res : http.Response)
    (hs : sentOf (c.request method endp path body) = [req]) (hn : net req = .ok res) :
    (c.execute net method endp path body dec target).outcome =
      .returns (respond dec target res) := by
  rw [execute_eq]
  cases hr : c.request method endp path body with
  | error err => rw [hr] at hs; simp [sentOf] at hs
  | ok o =>
    cases o with
    | none => rw [hr] at hs; simp [sentOf] at hs
    | some req1 =>
      rw [hr] at hs
      simp only [sentOf, List.cons.injEq, and_true] at hs
      subst hs
      simp only [hn]

/-- Every accessor is `execute` with its endpoint and suffix, and its tail. -/
theorem call_eq (net : http.Transport) (c : Client) (a : Accessor) :
    a.call net c =
      match c.request "GET" a.endp a.arg .nil with
      | .error err => ⟨[], c, .returns (none, some err)⟩
      | .ok none => ⟨[], c, .panics⟩
      | .ok (some req) =>
        match net req with
        | .error msg => ⟨[req], c, .returns (none, some (.transport msg))⟩
        | .ok res => ⟨[req], c, a.respond res⟩ := by
  cases a <;>
  · simp only [Accessor.call, Accessor.endp, Accessor.arg, Client.Countries, Client.States,
      Client.Cities, Client.StatesByCountryID, Client.CitiesByStateID, Client.DailyContent,
      Client.PrayerTimeDailyByCityID, Client.PrayerTimeWeeklyByCityID,
      Client.PrayerTimeMonthlyByCityID, Client.PrayerTimeEidByCityID,
      Client.PrayerTimeRamadanByCityID, Accessor.respond, sliceDec, ptrDec, execute_eq]
    cases c.request "GET" _ _ Body.nil with
    | error err => rfl
    | ok o =>
      cases o with
      | none => rfl
      | some req =>
        dsimp only
        cases net req with
        | error msg => rfl
        | ok res =>
          dsimp only
          generalize Awqat.respond _ _ res = p
          obtain ⟨e, r⟩ := p
          cases e with
          | some err => rfl
          | none =>
            cases r with
            | none => rfl
            | some env =>
              obtain ⟨d, b, m⟩ := env
              cases d <;> rfl

/-- The requests and the final state of an accessor call. -/
theorem call_sent (net : http.Transport) (c : Client) (a : Accessor) :
    (a.call net c).sent = sentOf (c.request "GET" a.endp a.arg .nil) ∧ (a.call net c).client = c := by
  rw [call_eq]
  cases c.request "GET" a.endp a.arg .nil with
  | error err => exact ⟨rfl, rfl⟩
  | ok o =>
    cases o with
    | none => exact ⟨rfl, rfl⟩
    | some req => dsimp only; cases net req <;> exact ⟨rfl, rfl⟩

/-- Once the transport has answered, an accessor returns what `Accessor.respond` says. -/
theorem call_outcome_of_answered (net : http.Transport) (c : Client) (a : Accessor)
    (res : http.Response) (h : (a.call net c).answered net res) :
    (a.call net c).outcome = a.respond res := by
  obtain ⟨req, hs, hn⟩ := h
  rw [call_eq] at hs ⊢
  cases hr : c.request "GET" a.endp a.arg .nil with
  | error err => rw [hr] at hs; simp at hs
  | ok o =>
    cases o with
    | none => rw [hr] at hs; simp at hs
    | some req1 =>
      rw [hr] at hs
      dsimp only at hs ⊢
      cases hn1 : net req1 with
      | error msg =>
        rw [hn1] at hs
        simp only [List.cons.injEq, and_true] at hs
        subst hs
        rw [hn1] at hn
        cases hn
      | ok res1 =>
        rw [hn1] at hs
        simp only [List.cons.injEq, and_true] at hs
        subst hs
        rw [hn1] at hn
        cases hn
        rfl

/-- Decoding an envelope object into a fresh `AwqatResponse`. -/
theorem decAwqatResponse_envelope {T : Type} (d : Dec T) (zero : T) (data : JSON) (success : Bool)
    (message : String) (old : AwqatResponse T) (hold : old.Data = none) :
    decAwqatResponse d zero (envelope data success message) old =
      if data.isNull then some { Data := none, Success := success, Message := message }
      else (d data zero).map (fun v => { Data := some v, Success := success, Message := message }) := by
  obtain ⟨od, ob, om⟩ := old
  simp only at hold
  subst hold
  cases data with
  | null =>
    simp [decAwqatResponse, decStruct, envelope, decMembers, AwqatResponse.fields, findField,
      Field.of, decPtr, decBool, decString, JSON.isNull]
  | bool x =>
    cases hd : d (.bool x) zero <;>
    simp [decAwqatResponse, decStruct, envelope, decMembers, AwqatResponse.fields, findField,
      Field.of, decPtr, decBool, decString, JSON.isNull, hd]
  | num x =>
    cases hd : d (.num x) zero <;>
    simp [decAwqatResponse, decStruct, envelope, decMembers, AwqatResponse.fields, findField,
      Field.of, decPtr, decBool, decString, JSON.isNull, hd]
  | str x =>
    cases hd : d (.str x) zero <;>
    simp [decAwqatResponse, decStruct, envelope, decMembers, AwqatResponse.fields, findField,
      Field.of, decPtr, decBool, decString, JSON.isNull, hd]
  | arr x =>
    cases hd : d (.arr x) zero <;>
    simp [decAwqatResponse, decStruct, envelope, decMembers, AwqatResponse.fields, findField,
      Field.of, decPtr, decBool, decString, JSON.isNull, hd]
  | obj x =>
    cases hd : d (.obj x) zero <;>
    simp [decAwqatResponse, decStruct, envelope, decMembers, AwqatResponse.fields, findField,
      Field.of, decPtr, decBool, decString, JSON.isNull, hd]

/-- A status code outside both sets gives the formatted error, whatever the body. -/
theorem respond_unexpected {β : Type} (dec : Dec β) (target : β) (code : Int) (body : Option JSON)
    (hcode : code ∉ [200, 400, 401, 403, 404, 415, 500]) :
    respond dec target ⟨code, body⟩ =
      (some (.errorf ("unexpected HTTP response status code: " ++ toString code)), target) := by
  simp only [List.mem_cons, List.mem_singleton, not_or, List.mem_nil_iff, or_false] at hcode
  obtain ⟨h0, h1, h2, h3, h4, h5, h6⟩ := hcode
  simp [respond, h0, h1, h2, h3, h4, h5, h6]

/-- A status code of the error set and an envelope give the decoded envelope as error. -/
theorem respond_api {β : Type} (dec : Dec β) (target : β) (code : Int) (data : JSON)
    (success : Bool) (message : String)
    (hcode : code ∈ [400, 401, 403, 404, 415, 500]) (hdata : data.floatsFinite = true) :
    respond dec target ⟨code, some (envelope data success message)⟩ =
      (some (.api { Data := if data.isNull then none else some data,
                    Success := success, Message := message }), target) := by
  have h200 : code ≠ 200 := by
    intro h; subst h; simp at hcode
  unfold respond
  simp only [h200, if_false, hcode, if_true]
  rw [decAwqatResponse_envelope decAny .null data success message {} rfl]
  by_cases hn : data.isNull = true
  · simp [hn]
  · simp [hn, decAny, hdata]

/-- Status 200: the body is decoded into the target. -/
theorem respond_ok {β : Type} (dec : Dec β) (target : β) (j : JSON) :
    respond dec target ⟨200, some j⟩ =
      match dec j target with
      | none => (some .decode, target)
      | some v => (none, v) := by
  simp [respond]

/-- The default base address parses. -/
theorem parse_default : url.Parse defaultBaseUrl = .ok baseURL := by rfl

/-- A string has positive length exactly when it is not empty. -/
theorem length_pos_iff (s : String) : 0 < s.length ↔ s ≠ "" := by
  obtain ⟨l⟩ := s
  cases l with
  | nil => simp [String.length]
  | cons x xs =>
    simp [String.length]
    intro h
    have := congrArg String.data h
    simp at this

/-- A request made by `http.NewRequest` has the method and body given and no header. -/
theorem newRequest_inv (method urlText : String) (body : Option JSON) (req : http.Request)
    (hm : method ≠ "") (h : http.NewRequest method urlText body = .ok req) :
    req.Method = method ∧ req.Header = [] ∧ req.Body = body := by
  unfold http.NewRequest at h
  simp only [hm, if_false] at h
  split at h
  · cases h
  · split at h
    · cases h
    · simp only [Except.ok.injEq] at h
      subst h
      exact ⟨rfl, rfl, rfl⟩

/-- The headers, method and body of the request `execute` builds. -/
theorem request_inv (c : Client) (method endp path : String) (body : Body) (req : http.Request)
    (h : c.request method endp path body = .ok (some req)) :
    req.Header = headersFor c.accessToken ∧ req.Method = method ∧
      ((method = "GET" ∧ req.Body = none) ∨ (method = "POST" ∧ req.Body = some (jsonMarshal body))) := by
  unfold Client.request at h
  cases hp : url.Parse c.BaseUrl with
  | error err => rw [hp] at h; cases h
  | ok u0 =>
    rw [hp] at h
    dsimp only at h
    have hh : ∀ r : http.Request, r.Header = [] →
        ((if 0 < c.accessToken.length then r.Header.Set "Authorization" ("Bearer " ++ c.accessToken)
          else r.Header).Add "Content-Type" "application/json").Add "Accept" "application/json"
          = headersFor c.accessToken := by
      intro r hr
      rw [hr]
      by_cases ht : c.accessToken = ""
      · have : ¬ 0 < c.accessToken.length := by rw [length_pos_iff]; simpa using ht
        simp [this, headersFor, ht, http.Header.Add]
      · have : 0 < c.accessToken.length := by rw [length_pos_iff]; exact ht
        simp [this, headersFor, ht, http.Header.Add, http.Header.Set]
    by_cases hm : method = "POST"
    · subst hm
      simp only [if_true] at h
      cases hn : http.NewRequest "POST" (u0.ResolveReference { Path := endp }).text
          (some (jsonMarshal body)) with
      | error err => rw [hn] at h; cases h
      | ok r =>
        rw [hn] at h
        obtain ⟨h1, h2, h3⟩ := newRequest_inv _ _ _ _ (by decide) hn
        simp only [Except.map, Except.ok.injEq, Option.some.injEq] at h
        subst h
        exact ⟨hh r h2, h1, Or.inr ⟨rfl, h3⟩⟩
    · simp only [hm, if_false] at h
      by_cases hg : method = "GET"
      · subst hg
        simp only [if_true] at h
        cases hn : http.NewRequest "GET" (u0.ResolveReference { Path := endp }).text none with
        | error err => rw [hn] at h; cases h
        | ok r =>
          rw [hn] at h
          obtain ⟨h1, h2, h3⟩ := newRequest_inv _ _ _ _ (by decide) hn
          simp only [Except.map, Except.ok.injEq, Option.some.injEq] at h
          subst h
          exact ⟨hh _ h2, h1, Or.inl ⟨rfl, h3⟩⟩
      · simp only [hg, if_false] at h
        cases h

/-- The request of an accessor below the default base address, before the suffix is joined. -/
theorem newRequest_endp (a : Accessor) :
    http.NewRequest "GET" (baseURL.ResolveReference { Path := a.endp }).text none =
      .ok { Method := "GET", URL := { baseURL with Path := String.mk ('/' :: a.endp.data) } } := by
  cases a <;> simp only [Accessor.endp] <;> rfl

/-- The login request below the default base address. -/
theorem newRequest_login (b : Option JSON) :
    http.NewRequest "POST" (baseURL.ResolveReference { Path := "auth/login" }).text b =
      .ok { Method := "POST", URL := { baseURL with Path := "/auth/login" }, Body := b } := by
  rfl

/-- The request an accessor builds on a client with the default base address. -/
theorem request_get_default (c : Client) (hc : c.BaseUrl = defaultBaseUrl) (a : Accessor) :
    c.request "GET" a.endp a.arg .nil =
      .ok (some { Method := "GET",
                  URL := ({ baseURL with Path := String.mk ('/' :: a.endp.data) } : URL).JoinPath a.arg,
                  Header := headersFor c.accessToken,
                  Body := none }) := by
  cases hr : c.request "GET" a.endp a.arg .nil with
  | error err =>
    simp [Client.request, hc, parse_default, newRequest_endp, Except.map] at hr
  | ok o =>
    cases o with
    | none => simp [Client.request, hc, parse_default, newRequest_endp, Except.map] at hr
    | some req =>
      obtain ⟨h1, h2, h3⟩ := request_inv c _ _ _ _ req hr
      simp only [Client.request, hc, parse_default, newRequest_endp, Except.map] at hr
      simp at hr
      rw [← hr] at h1 ⊢
      simp only at h1
      simp [h1]

/-- The login request built on a client with the default base address. -/
theorem request_login_default (c : Client) (hc : c.BaseUrl = defaultBaseUrl) (path : String)
    (body : Body) :
    c.request "POST" "auth/login" path body =
      .ok (some { Method := "POST",
                  URL := { baseURL with Path := "/auth/login" },
                  Header := headersFor c.accessToken,
                  Body := some (jsonMarshal body) }) := by
  cases hr : c.request "POST" "auth/login" path body with
  | error err =>
    simp [Client.request, hc, parse_default, newRequest_login, Except.map] at hr
  | ok o =>
    cases o with
    | none => simp [Client.request, hc, parse_default, newRequest_login, Except.map] at hr
    | some req =>
      obtain ⟨h1, h2, h3⟩ := request_inv c _ _ _ _ req hr
      simp only [Client.request, hc, parse_default, newRequest_login, Except.map] at hr
      simp at hr
      rw [← hr] at h1 ⊢
      simp only at h1
      simp [h1]

/-- A split has at least one piece. -/
theorem split_ne_nil (sep : Char) (s : List Char) : split sep s ≠ [] := by
  cases s with
  | nil => simp [split]
  | cons c cs =>
    unfold split
    split
    · simp
    · split <;> simp

/-- Splitting distributes over a separator. -/
theorem split_append (sep : Char) (a b : List Char) :
    split sep (a ++ sep :: b) = split sep a ++ split sep b := by
  induction a with
  | nil => simp [split]
  | cons c cs ih =>
    by_cases hc : c = sep
    · simp [split, hc, ih]
    · simp only [List.cons_append, split, hc, if_false]
      show (match split sep (cs ++ sep :: b) with
        | [] => [[c]]
        | x :: xs => (c :: x) :: xs) = _
      rw [ih]
      cases hs : split sep cs with
      | nil => exact absurd hs (split_ne_nil sep cs)
      | cons x xs => simp

/-- A text without separator is its only piece. -/
theorem split_of_not_mem (sep : Char) (s : List Char) (h : sep ∉ s) : split sep s = [s] := by
  induction s with
  | nil => simp [split]
  | cons c cs ih =>
    simp only [List.mem_cons, not_or] at h
    have hc : c ≠ sep := fun e => h.1 e.symm
    simp [split, hc, ih h.2]

/-- Cleaning the elements of a path goes from left to right. -/
theorem cleanElems_append (rooted : Bool) (xs ys out : List (List Char)) :
    path.cleanElems rooted (xs ++ ys) out = path.cleanElems rooted ys (path.cleanElems rooted xs out) := by
  induction xs generalizing out with
  | nil => simp [path.cleanElems]
  | cons e es ih =>
    simp only [List.cons_append, path.cleanElems]
    split
    · exact ih _
    · split
      · split
        · split
          · exact ih _
          · exact ih _
        · split <;> exact ih _
      · exact ih _

/-- A path without percent sign unescapes to itself. -/
theorem unescape_path_of_no_percent (p : List Char) (h : '%' ∉ p) :
    unescape .encodePath p = .ok p := by
  induction p with
  | nil => simp [unescape]
  | cons c cs ih =>
    simp only [List.mem_cons, not_or] at h
    have hc : c ≠ '%' := fun e => h.1 e.symm
    unfold unescape
    simp [hc, ih h.2, Except.map]

/-- `setPath` changes the path only. -/
theorem setPath_frame (u v : URL) (p : List Char) (h : u.setPath p = .ok v) :
    v.RawQuery = u.RawQuery ∧ v.ForceQuery = u.ForceQuery ∧ v.Scheme = u.Scheme ∧
      v.Host = u.Host ∧ v.Fragment = u.Fragment := by
  unfold URL.setPath at h
  split at h
  · cases h
  · split at h <;> (cases h; exact ⟨rfl, rfl, rfl, rfl, rfl⟩)

/-- `JoinPath` changes the path only. -/
theorem JoinPath_frame (u : URL) (s : String) :
    (u.JoinPath s).RawQuery = u.RawQuery ∧ (u.JoinPath s).ForceQuery = u.ForceQuery ∧
      (u.JoinPath s).Scheme = u.Scheme ∧ (u.JoinPath s).Host = u.Host ∧
      (u.JoinPath s).Fragment = u.Fragment := by
  unfold URL.JoinPath
  dsimp only
  cases h : u.setPath _ with
  | error e => exact ⟨rfl, rfl, rfl, rfl, rfl⟩
  | ok v => exact setPath_frame u v _ h

/-- `setPath` with a path without percent sign stores that path. -/
theorem setPath_path (u : URL) (p : List Char) (h : '%' ∉ p) :
    ((u.setPath p).toOption.getD u).Path = String.mk p := by
  unfold URL.setPath
  rw [unescape_path_of_no_percent p h]
  dsimp only
  split <;> rfl

/-- Joining one more element after a non-empty list of elements. -/
theorem intercalate_snoc (sep : List Char) (xs : List (List Char)) (s : List Char) (h : xs ≠ []) :
    sep.intercalate (xs ++ [s]) = sep.intercalate xs ++ sep ++ s := by
  induction xs with
  | nil => exact absurd rfl h
  | cons x xs ih =>
    cases xs with
    | nil => simp [List.intercalate]
    | cons y ys =>
      have := ih (by simp)
      simp [List.intercalate] at this ⊢
      rw [this]

/-- A request a run sent is the request that was built. -/
theorem mem_sentOf (built : Except Error (Option http.Request)) (req : http.Request)
    (h : req ∈ sentOf built) : built = .ok (some req) := by
  cases built with
  | error err => simp [sentOf] at h
  | ok o =>
    cases o with
    | none => simp [sentOf] at h
    | some r => simp [sentOf] at h; rw [h]

/-- The URL of a GET request of `execute` is the URL `http.NewRequest` parsed from the
resolved address, with the suffix joined by `JoinPath`. -/
theorem request_get_url (c : Client) (endp path : String) (body : Body) (req : http.Request)
    (h : c.request "GET" endp path body = .ok (some req)) :
    ∃ u0 r1, url.Parse c.BaseUrl = .ok u0 ∧
      http.NewRequest "GET" (u0.ResolveReference { Path := endp }).text none = .ok r1 ∧
      req.URL = r1.URL.JoinPath path := by
  unfold Client.request at h
  cases hp : url.Parse c.BaseUrl with
  | error err => rw [hp] at h; cases h
  | ok u0 =>
    rw [hp] at h
    have hm : ¬ ("GET" = "POST") := by decide
    simp only [hm, if_false, if_true] at h
    cases hn : http.NewRequest "GET" (u0.ResolveReference { Path := endp }).text none with
    | error err => rw [hn] at h; cases h
    | ok r1 =>
      rw [hn] at h
      simp only [Except.map, Except.ok.injEq, Option.some.injEq] at h
      subst h
      exact ⟨u0, r1, rfl, hn, rfl⟩

/-- `auth` on a client with the default base address. -/
theorem auth_eq (net : http.Transport) (c : Client) (hc : c.BaseUrl = defaultBaseUrl) :
    c.auth net =
      match net (loginRequest c) with
      | .error msg => ⟨[loginRequest c], c, .returns (some (.transport msg))⟩
      | .ok res =>
        ⟨[loginRequest c],
          (authResult c (respond (decAwqatResponse decAuthResponse {}) {} res)).1,
          (authResult c (respond (decAwqatResponse decAuthResponse {}) {} res)).2⟩ := by
  have hl : c.request "POST" "auth/login" "" (.credentials c.Credentials) =
      .ok (some (loginRequest c)) := request_login_default c hc "" _
  simp only [Client.auth, execute_eq, hl]
  cases net (loginRequest c) with
  | error msg => rfl
  | ok res =>
    dsimp only
    generalize respond (decAwqatResponse decAuthResponse {}) {} res = p
    obtain ⟨e, r⟩ := p
    cases e with
    | some err => rfl
    | none =>
      obtain ⟨d, b, m⟩ := r
      cases d <;> rfl

/-- `New`, case by case on the login exchange. -/
theorem New_eq (net : http.Transport) (credentials : Credentials) :
    New net credentials =
      match net (loginRequest (newClient credentials)) with
      | .error msg =>
        ⟨[loginRequest (newClient credentials)], newClient credentials,
          .returns (none, some (.transport msg))⟩
      | .ok res =>
        match respond (decAwqatResponse decAuthResponse {}) {} res with
        | (some err, _) =>
          ⟨[loginRequest (newClient credentials)], newClient credentials, .returns (none, some err)⟩
        | (none, env) =>
          match env.Data with
          | none => ⟨[loginRequest (newClient credentials)], newClient credentials, .panics⟩
          | some data =>
            ⟨[loginRequest (newClient credentials)],
              { newClient credentials with accessToken := data.AccessToken },
              .returns (some { newClient credentials with accessToken := data.AccessToken }, none)⟩ := by
  have h := auth_eq net (newClient credentials) rfl
  have hN : New net credentials =
      (match (Client.auth net (newClient credentials)).outcome with
      | .panics => ⟨(Client.auth net (newClient credentials)).sent,
          (Client.auth net (newClient credentials)).client, .panics⟩
      | .returns (some err) => ⟨(Client.auth net (newClient credentials)).sent,
          (Client.auth net (newClient credentials)).client, .returns (none, some err)⟩
      | .returns none => ⟨(Client.auth net (newClient credentials)).sent,
          (Client.auth net (newClient credentials)).client,
          .returns (some (Client.auth net (newClient credentials)).client, none)⟩) := by
    generalize hr : Client.auth net (newClient credentials) = r
    have : New net credentials =
      (match r.outcome with
      | .panics => ⟨r.sent, r.client, .panics⟩
      | .returns (some err) => ⟨r.sent, r.client, .returns (none, some err)⟩
      | .returns none => ⟨r.sent, r.client, .returns (some r.client, none)⟩) := by
      rw [← hr]; simp only [New, newClient]
    rw [this]
  rw [hN, h]
  cases net (loginRequest (newClient credentials)) with
  | error msg => rfl
  | ok res =>
    dsimp only
    generalize respond (decAwqatResponse decAuthResponse {}) {} res = p
    obtain ⟨e, r⟩ := p
    cases e with
    | some err => rfl
    | none =>
      obtain ⟨d, b, m⟩ := r
      cases d <;> rfl

/-- A status code other than 200 always gives an error. -/
theorem respond_not_200 {β : Type} (dec : Dec β) (target : β) (res : http.Response)
    (h : res.StatusCode ≠ 200) : ∃ err, respond dec target res = (some err, target) := by
  unfold respond
  simp only [h, if_false]
  split
  · split
    · exact ⟨_, rfl⟩
    · split <;> exact ⟨_, rfl⟩
  · exact ⟨_, rfl⟩

/-- `execute` returns no error only for a 200 response whose body decodes. -/
theorem respond_none {β : Type} (dec : Dec β) (target v : β) (res : http.Response)
    (h : respond dec target res = (none, v)) :
    res.StatusCode = 200 ∧ ∃ j, res.Body = some j ∧ dec j target = some v := by
  by_cases h2 : res.StatusCode = 200
  · refine ⟨h2, ?_⟩
    unfold respond at h
    simp only [h2, if_true] at h
    cases hb : res.Body with
    | none => rw [hb] at h; cases h
    | some j =>
      rw [hb] at h
      dsimp only at h
      cases hd : dec j target with
      | none => rw [hd] at h; cases h
      | some w =>
        rw [hd] at h
        simp only [Prod.mk.injEq, true_and] at h
        subst h
        exact ⟨j, rfl, hd⟩
  · obtain ⟨err, he⟩ := respond_not_200 dec target res h2
    rw [he] at h
    cases h

/-- On a client with the default base address every accessor reaches the transport. -/
theorem answered_const (a : Accessor) (c : Client) (hc : c.BaseUrl = defaultBaseUrl)
    (res : http.Response) : (a.call (constNet res) c).answered (constNet res) res := by
  refine ⟨{ Method := "GET", URL := a.url, Header := headersFor c.accessToken, Body := none },
    ?_, rfl⟩
  rw [(call_sent _ c a).1, request_get_default c hc a]
  rfl

/-- `New` always sends the login request. -/
theorem New_sent (net : http.Transport) (credentials : Credentials) :
    (New net credentials).sent = [loginRequest (newClient credentials)] := by
  rw [New_eq]
  cases net (loginRequest (newClient credentials)) with
  | error msg => rfl
  | ok res =>
    dsimp only
    generalize respond (decAwqatResponse decAuthResponse {}) {} res = p
    obtain ⟨e, r⟩ := p
    cases e with
    | some err => rfl
    | none =>
      obtain ⟨d, b, m⟩ := r
      cases d <;> rfl

/-- The requests `StatesByCountryID` sends. -/
theorem StatesByCountryID_sent (net : http.Transport) (c : Client) (countryID : String) :
    (Client.StatesByCountryID net c countryID).sent =
      sentOf (c.request "GET" (Accessor.StatesByCountryID countryID).endp
        (Accessor.StatesByCountryID countryID).arg .nil) :=
  (call_sent net c (.StatesByCountryID countryID)).1

/-- The keys `accessToken` and `refreshToken` are read into an `AuthResponse`. -/
theorem decAuthResponse_authData (t r : String) (old : AuthResponse) :
    decAuthResponse (authData t r) old = some { AccessToken := t, RefreshToken := r } := by
  rfl

/-- `auth` either leaves the client alone, or stores the token after a login without error. -/
theorem auth_cases (net : http.Transport) (c : Client) :
    (c.auth net).sent = sentOf (c.request "POST" "auth/login" "" (.credentials c.Credentials)) ∧
    (((c.auth net).client = c ∧ (c.auth net).outcome ≠ .returns none) ∨
      ∃ res data,
        (c.execute net "POST" "auth/login" "" (.credentials c.Credentials)
          (decAwqatResponse decAuthResponse {}) {}).outcome = .returns (none, res) ∧
        res.Data = some data ∧ (c.auth net).client = { c with accessToken := data.AccessToken } ∧
        (c.auth net).outcome = .returns none) := by
  simp only [Client.auth, execute_eq]
  cases c.request "POST" "auth/login" "" (.credentials c.Credentials) with
  | error err => exact ⟨rfl, Or.inl ⟨rfl, by simp⟩⟩
  | ok o =>
    cases o with
    | none => exact ⟨rfl, Or.inl ⟨rfl, by simp⟩⟩
    | some req =>
      dsimp only
      cases net req with
      | error msg => exact ⟨rfl, Or.inl ⟨rfl, by simp⟩⟩
      | ok res =>
        dsimp only
        generalize respond (decAwqatResponse decAuthResponse {}) {} res = p
        obtain ⟨e, r⟩ := p
        cases e with
        | some err => exact ⟨rfl, Or.inl ⟨rfl, by simp⟩⟩
        | none =>
          obtain ⟨d, b, m⟩ := r
          cases d with
          | none => exact ⟨rfl, Or.inl ⟨rfl, by simp⟩⟩
          | some data => exact ⟨rfl, Or.inr ⟨_, data, rfl, rfl, rfl, rfl⟩⟩

/-- With a non-empty message `Error()` runs out of any fuel. -/
theorem Error_diverges {T : Type} (err : AwqatResponse T) (h : err.Message ≠ "") (fuel : Nat) :
    err.Error fuel = none := by
  induction fuel with
  | zero => rfl
  | succ n ih => simp [AwqatResponse.Error, h, ih]

/-- An integer literal of a value of Go `int` is stored as that value. -/
theorem decInt_ofInt (i old : Int) (h : isGoInt i = true) : decInt (.num (.ofInt i)) old = some i := by
  simp only [isGoInt, Bool.and_eq_true, decide_eq_true_eq] at h
  simp [decInt, NumLit.ofInt, h.1, h.2]

/-- One member of an object, stored into the field that `findField` gives. -/
theorem decMembers_step {σ : Type} (fields : List (Field σ)) (k : String) (v : JSON)
    (kvs : List (String × JSON)) (st st1 : σ)
    (h : (findField fields k).bind (fun f => f.store v st) = some st1) :
    decMembers fields ((k, v) :: kvs) st = decMembers fields kvs st1 := by
  cases hf : findField fields k with
  | none => rw [hf] at h; cases h
  | some f =>
    rw [hf] at h
    simp only [Option.bind] at h
    simp only [decMembers, hf, h]

/-- The wire object of a location is decoded to the location, whatever the variable held. -/
theorem decLocation_wire (l old : Location) (h : isGoInt l.ID = true) :
    decLocation l.wire old = some l := by
  unfold decLocation Location.wire decStruct
  dsimp only
  refine (decMembers_step _ "id" _ _ old { old with ID := l.ID } ?_).trans ?_
  · show (decInt _ _).map _ = _
    rw [decInt_ofInt _ _ h]
    rfl
  · rfl

/-- The wire object of the content of the day is decoded to it. -/
theorem decDailyContent_wire (d old : DailyContent) (h1 : isGoInt d.ID = true)
    (h2 : isGoInt d.DayOfYear = true) :
    decDailyContent d.wire old = some d := by
  unfold decDailyContent DailyContent.wire decStruct
  dsimp only
  refine (decMembers_step _ "id" _ _ old { old with ID := d.ID } ?_).trans ?_
  · show (decInt _ _).map _ = _
    rw [decInt_ofInt _ _ h1]
    rfl
  refine (decMembers_step _ "dayOfYear" _ _ _ { old with ID := d.ID, DayOfYear := d.DayOfYear }
    ?_).trans ?_
  · show (decInt _ _).map _ = _
    rw [decInt_ofInt _ _ h2]
    rfl
  · rfl

/-- The wire object of an Eid record is decoded to it. -/
theorem decPrayerTimeEid_wire (e old : PrayerTimeEid) :
    decPrayerTimeEid e.wire old = some e := by
  rfl

/-- The wire object of a prayer-time record is decoded to it. -/
theorem decPrayerTime_wire (t old : PrayerTime) :
    decPrayerTime t.wire old = some t := by
  rfl

/-- The elements of an array of wire objects are decoded to the typed values, whatever
the backing memory holds. -/
theorem decElems_wire {α : Type} (d : Dec α) (zero : α) (wire : α → JSON) (vs : List α)
    (h : ∀ v ∈ vs, ∀ old, d (wire v) old = some v) (backing : List α) :
    decElems d zero (vs.map wire) backing = some (vs, backing.drop vs.length) := by
  induction vs generalizing backing with
  | nil => simp [decElems]
  | cons v vs ih =>
    simp only [List.map_cons, decElems, h v (List.mem_cons_self _ _)]
    rw [ih (fun w hw => h w (List.mem_cons_of_mem _ hw))]
    simp

/-- An array of wire objects is decoded into a fresh slice with the typed values as
elements. -/
theorem decSlice_wire {α : Type} (d : Dec α) (zero : α) (wire : α → JSON) (vs : List α)
    (h : ∀ v ∈ vs, ∀ old, d (wire v) old = some v) :
    (decSlice d zero (.arr (vs.map wire)) {}).map (fun s => s.elems) = some vs := by
  cases vs with
  | nil => rfl
  | cons v vs =>
    have := decElems_wire d zero wire (v :: vs) h []
    simp only [List.map_cons] at this
    simp [decSlice, this]

/-- The members `success` and `message` leave the data of an envelope alone. -/
theorem decMembers_status {T : Type} (d : Dec T) (zero : T) (ms : List (String × JSON))
    (h : ms.all isStatusMember = true) (st : AwqatResponse T) :
    ∃ st1, decMembers (AwqatResponse.fields d zero) ms st = some st1 ∧ st1.Data = st.Data := by
  induction ms generalizing st with
  | nil => exact ⟨st, rfl, rfl⟩
  | cons m ms ih =>
    simp only [List.all_cons, Bool.and_eq_true] at h
    obtain ⟨k, v⟩ := m
    obtain ⟨hm, hms⟩ := h
    cases v with
    | bool b =>
      simp only [isStatusMember, beq_iff_eq] at hm
      subst hm
      obtain ⟨st1, h1, h2⟩ := ih hms { st with Success := b }
      exact ⟨st1, (decMembers_step (AwqatResponse.fields d zero) "success" (.bool b) ms st
        { st with Success := b } rfl).trans h1, h2⟩
    | str s =>
      simp only [isStatusMember, beq_iff_eq] at hm
      subst hm
      obtain ⟨st1, h1, h2⟩ := ih hms { st with Message := s }
      exact ⟨st1, (decMembers_step (AwqatResponse.fields d zero) "message" (.str s) ms st
        { st with Message := s } rfl).trans h1, h2⟩
    | null => simp [isStatusMember] at hm
    | num n => simp [isStatusMember] at hm
    | arr xs => simp [isStatusMember] at hm
    | obj kvs => simp [isStatusMember] at hm

/-- Decoding a well-formed envelope: the data is decoded from the zero value. -/
theorem decAwqatResponse_wellFormed {T : Type} (d : Dec T) (zero : T) (data : JSON) (v : T)
    (pre post : List (String × JSON)) (hpre : pre.all isStatusMember = true)
    (hpost : post.all isStatusMember = true) (hnull : data.isNull = false)
    (hd : d data zero = some v) :
    ∃ env, decAwqatResponse d zero (.obj (pre ++ ("data", data) :: post)) {} = some env ∧
      env.Data = some v := by
  have happ : ∀ (xs ys : List (String × JSON)) (st st1 : AwqatResponse T),
      decMembers (AwqatResponse.fields d zero) xs st = some st1 →
      decMembers (AwqatResponse.fields d zero) (xs ++ ys) st =
        decMembers (AwqatResponse.fields d zero) ys st1 := by
    intro xs ys
    induction xs with
    | nil => intro st st1 h; simp only [decMembers, Option.some.injEq] at h; subst h; rfl
    | cons x xs ih =>
      intro st st1 h
      obtain ⟨k, w⟩ := x
      simp only [decMembers, List.cons_append] at h ⊢
      cases hf : findField (AwqatResponse.fields d zero) k with
      | none => rw [hf] at h; exact ih _ _ h
      | some f =>
        rw [hf] at h
        dsimp only at h ⊢
        cases hs : f.store w st with
        | none => rw [hs] at h; cases h
        | some st2 => rw [hs] at h; exact ih _ _ h
  obtain ⟨st1, h1, e1⟩ := decMembers_status d zero pre hpre {}
  obtain ⟨st2, h2, e2⟩ := decMembers_status d zero post hpost { st1 with Data := some v }
  refine ⟨st2, ?_, e2⟩
  show decMembers _ _ _ = _
  rw [happ _ _ _ _ h1]
  refine (decMembers_step _ "data" _ _ st1 { st1 with Data := some v } ?_).trans h2
  show (decPtr d zero data st1.Data).map _ = _
  rw [e1]
  cases data with
  | null => cases hnull
  | _ => simp only [decPtr, Option.getD, hd]; rfl

/-- A 200 answer with a well-formed envelope around an array of wire objects, seen
by an accessor that returns a sequence. -/
theorem sliceResult_wire {T : Type} (d : Dec T) (zero : T) (wire : T → JSON) (vs : List T)
    (pre post : List (String × JSON)) (h : ∀ v ∈ vs, ∀ old, d (wire v) old = some v)
    (hpre : pre.all isStatusMember = true) (hpost : post.all isStatusMember = true) :
    sliceResult (respond (sliceDec d zero) (some {})
      ⟨200, some (.obj (pre ++ ("data", .arr (vs.map wire)) :: post))⟩) =
        .returns (some vs, none) := by
  have hs := decSlice_wire d zero wire vs h
  cases hd : decSlice d zero (.arr (vs.map wire)) {} with
  | none => rw [hd] at hs; cases hs
  | some s =>
    rw [hd] at hs
    simp only [Option.map_some', Option.some.injEq] at hs
    obtain ⟨env, he, hdata⟩ := decAwqatResponse_wellFormed (decSlice d zero) {}
      (.arr (vs.map wire)) s pre post hpre hpost rfl hd
    rw [respond_ok]
    have hp : sliceDec d zero (.obj (pre ++ ("data", .arr (vs.map wire)) :: post)) (some {}) =
        some (some env) := by
      show (decAwqatResponse (decSlice d zero) {} _ {}).map some = _
      rw [he]
      rfl
    rw [hp]
    simp only [sliceResult, hdata, hs]

/-- A 200 answer with a well-formed envelope around a wire object, seen by an accessor
that returns a single record. -/
theorem ptrResult_wire {T : Type} (d : Dec T) (zero : T) (data : JSON) (v : T)
    (pre post : List (String × JSON)) (hnull : data.isNull = false)
    (h : d data zero = some v)
    (hpre : pre.all isStatusMember = true) (hpost : post.all isStatusMember = true) :
    ptrResult (respond (ptrDec d zero) (some {})
      ⟨200, some (.obj (pre ++ ("data", data) :: post))⟩) = .returns (some v, none) := by
  obtain ⟨env, he, hdata⟩ := decAwqatResponse_wellFormed d zero data v pre post hpre hpost hnull h
  rw [respond_ok]
  have hp : ptrDec d zero (.obj (pre ++ ("data", data) :: post)) (some {}) = some (some env) := by
    show (decAwqatResponse d zero _ {}).map some = _
    rw [he]
    rfl
  rw [hp]
  simp only [ptrResult, hdata]

/-- `cut` on a text without the separator. -/
theorem cut_of_not_mem (sep : Char) (s : List Char) (h : sep ∉ s) : cut sep s = (s, [], false) := by
  induction s with
  | nil => rfl
  | cons c cs ih =>
    simp only [List.mem_cons, not_or] at h
    have hc : c ≠ sep := fun e => h.1 e.symm
    simp [cut, hc, ih h.2]

/-- `cut` stops at the first separator. -/
theorem cut_append (sep : Char) (a b : List Char) (h : sep ∉ a) :
    cut sep (a ++ sep :: b) = (a, b, true) := by
  induction a with
  | nil => simp [cut]
  | cons c cs ih =>
    simp only [List.mem_cons, not_or] at h
    have hc : c ≠ sep := fun e => h.1 e.symm
    simp [cut, hc, ih h.2]

/-- `lastIndex` on a text without the separator. -/
theorem lastIndex_of_not_mem (sep : Char) (s : List Char) (h : sep ∉ s) : lastIndex sep s = none := by
  unfold lastIndex
  have : s.reverse.findIdx? (fun c => c = sep) = none := by
    rw [List.findIdx?_eq_none_iff]
    intro x hx
    simp only [decide_eq_false_iff_not]
    intro e
    exact h (e ▸ List.mem_reverse.1 hx)
  rw [this]
  rfl

/-- A control character is escaped in every mode. -/
theorem ctl_escaped (c : Char) (mode : Mode) (h : c.toNat < 32 ∨ c.toNat = 127) :
    shouldEscape c mode = true := by
  have hc : c = Char.ofNat c.toNat := (Char.ofNat_toNat c).symm
  generalize c.toNat = n at h hc
  subst hc
  have hn : n < 32 ∨ n = 127 := h
  rcases hn with hn | hn
  · interval_cases n <;> cases mode <;> decide
  · subst hn; cases mode <;> decide

/-- A text of characters that need no escape is written as it is. -/
theorem escape_plain (mode : Mode) (s : List Char)
    (h : ∀ c ∈ s, c.toNat < 128 ∧ shouldEscape c mode = false) : escape mode s = s := by
  induction s with
  | nil => rfl
  | cons c cs ih =>
    have hc := h c (List.mem_cons_self _ _)
    simp [escape, hc.1, hc.2, ih (fun d hd => h d (List.mem_cons_of_mem _ hd))]

/-- A character that is escaped does not occur in a text of characters that need no escape. -/
theorem not_mem_of_escaped (mode : Mode) (s : List Char) (x : Char)
    (h : ∀ c ∈ s, c.toNat < 128 ∧ shouldEscape c mode = false) (hx : shouldEscape x mode = true) :
    x ∉ s := by
  intro hm
  have := (h x hm).2
  rw [hx] at this
  cases this

/-- A host of characters that need no escape is read as it is. -/
theorem unescape_host_plain (s : List Char)
    (h : ∀ c ∈ s, c.toNat < 128 ∧ shouldEscape c .encodeHost = false) :
    unescape .encodeHost s = .ok s := by
  induction s with
  | nil => rfl
  | cons c cs ih =>
    have hc := h c (List.mem_cons_self _ _)
    have hp : c ≠ '%' := by
      intro e
      subst e
      exact absurd hc.2 (by decide)
    unfold unescape
    simp [hp, hc.2, ih (fun d hd => h d (List.mem_cons_of_mem _ hd)), Except.map]

/-- A lowercase letter is a letter. -/
theorem isLower_isLetter (c : Char) (h : isLower c = true) : isLetter c = true := by
  simp only [isLower, Bool.and_eq_true, decide_eq_true_eq] at h
  simp [isLetter, h.1, h.2]

/-- The loop of `getScheme` on the characters of a plain scheme after the first. -/
theorem getSchemeLoop_plain (raw rest : List Char) (s : List Char) (i : Nat) (seen : List Char)
    (hi : i ≠ 0)
    (hs : s.all (fun d => isLower d || isDigit d || d = '+' || d = '-' || d = '.') = true) :
    getSchemeLoop raw i seen (s ++ ':' :: rest) = some (seen.reverse ++ s, rest) := by
  induction s generalizing i seen with
  | nil =>
    have h1 : isLetter ':' = false := by decide
    have h2 : isDigit ':' = false := by decide
    simp [getSchemeLoop, h1, h2, hi]
  | cons c cs ih =>
    simp only [List.all_cons, Bool.and_eq_true] at hs
    obtain ⟨hc, hcs⟩ := hs
    simp only [List.cons_append, getSchemeLoop]
    by_cases hl : isLetter c = true
    · simp only [hl, if_true]
      show getSchemeLoop raw (i + 1) (c :: seen) (cs ++ ':' :: rest) = _
      rw [ih (i + 1) (c :: seen) (by omega) hcs]
      simp
    · have hd : (isDigit c || c = '+' || c = '-' || c = '.') = true := by
        simp only [Bool.or_eq_true, decide_eq_true_eq] at hc ⊢
        rcases hc with (((h | h) | h) | h) | h
        · exact absurd (isLower_isLetter c h) hl
        · exact Or.inl (Or.inl (Or.inl h))
        · exact Or.inl (Or.inl (Or.inr h))
        · exact Or.inl (Or.inr h)
        · exact Or.inr h
      simp only [hl, Bool.false_eq_true, if_false, hd, if_true, hi]
      show getSchemeLoop raw (i + 1) (c :: seen) (cs ++ ':' :: rest) = _
      rw [ih (i + 1) (c :: seen) (by omega) hcs]
      simp

/-- `getScheme` finds a plain scheme before the colon. -/
theorem getScheme_plain (s rest : List Char) (hs : plainScheme s = true) :
    getScheme (s ++ ':' :: rest) = some (s, rest) := by
  cases s with
  | nil => cases hs
  | cons c cs =>
    simp only [plainScheme, Bool.and_eq_true] at hs
    unfold getScheme
    simp only [List.cons_append, getSchemeLoop, isLower_isLetter c hs.1, if_true]
    show getSchemeLoop _ 1 [c] (cs ++ ':' :: rest) = _
    rw [getSchemeLoop_plain _ rest cs 1 [c] (by omega) hs.2]
    simp

/-- A plain scheme has no uppercase letter. -/
theorem toLower_plain (s : List Char) (hs : plainScheme s = true) : toLower s = s := by
  have key : ∀ d : Char, (isLower d || isDigit d || d = '+' || d = '-' || d = '.') = true →
      ¬ (65 ≤ d.toNat ∧ d.toNat ≤ 90) := by
    intro d hd
    simp only [Bool.or_eq_true, decide_eq_true_eq, isLower, isDigit, Bool.and_eq_true] at hd
    rcases hd with (((h | h) | h) | h) | h
    · omega
    · omega
    · subst h; decide
    · subst h; decide
    · subst h; decide
  cases s with
  | nil => cases hs
  | cons c cs =>
    simp only [plainScheme, Bool.and_eq_true] at hs
    have hall : ∀ d ∈ c :: cs, ¬ (65 ≤ d.toNat ∧ d.toNat ≤ 90) := by
      intro d hd
      rcases List.mem_cons.1 hd with e | e
      · subst e; exact key d (by simp [hs.1])
      · exact key d (List.all_eq_true.1 hs.2 d e)
    unfold toLower
    conv_rhs => rw [← List.map_id (c :: cs)]
    apply List.map_congr_left
    intro d hd
    simp [hall d hd]

/-- The characters of a plain host. -/
theorem plainHost_chars (h : List Char) (hh : plainHost h = true) :
    (∀ c ∈ h, c.toNat < 128 ∧ shouldEscape c .encodeHost = false) ∧ '[' ∉ h := by
  simp only [plainHost, Bool.and_eq_true, List.all_eq_true, decide_eq_true_eq,
    Bool.not_eq_true', bne_iff_ne, ne_eq] at hh
  refine ⟨fun c hc => ⟨(hh.1 c hc).1.1, (hh.1 c hc).1.2⟩, fun hm => (hh.1 _ hm).2 rfl⟩

/-- The characters of a plain path, and its leading slash. -/
theorem plainPath_chars (p : List Char) (hp : plainPath p = true) :
    (∀ c ∈ p, c.toNat < 128 ∧ shouldEscape c .encodePath = false) ∧ ∃ q, p = '/' :: q := by
  simp only [plainPath, Bool.and_eq_true, List.all_eq_true, decide_eq_true_eq,
    Bool.not_eq_true'] at hp
  refine ⟨fun c hc => hp.2 c hc, ?_⟩
  cases p with
  | nil => simp at hp
  | cons c q =>
    have := hp.1
    simp only [List.head?_cons, Option.some.injEq] at this
    exact ⟨q, by rw [this]⟩

/-- `parseHost` accepts a plain host as it is. -/
theorem parseHost_plain (h : List Char) (hh : plainHost h = true) : parseHost h = .ok h := by
  obtain ⟨hc, hb⟩ := plainHost_chars h hh
  simp only [plainHost, Bool.and_eq_true] at hh
  unfold parseHost
  rw [lastIndex_of_not_mem '[' h hb]
  dsimp only
  cases hl : lastIndex ':' h with
  | none => exact unescape_host_plain h hc
  | some i =>
    have hp := hh.2
    rw [hl] at hp
    dsimp only at hp ⊢
    simp only [hp, Bool.not_true, Bool.false_eq_true, if_false]
    exact unescape_host_plain h hc

/-- `parseAuthority` reads a plain host and no user information. -/
theorem parseAuthority_plain (h : List Char) (hh : plainHost h = true) :
    parseAuthority h = .ok (none, h) := by
  obtain ⟨hc, hb⟩ := plainHost_chars h hh
  unfold parseAuthority
  rw [lastIndex_of_not_mem '@' h (not_mem_of_escaped .encodeHost h '@' hc (by decide))]
  dsimp only
  rw [parseHost_plain h hh]
  rfl

/-- `setPath` stores a plain path, and no raw path. -/
theorem setPath_plain (u : URL) (p : List Char)
    (hp : ∀ c ∈ p, c.toNat < 128 ∧ shouldEscape c .encodePath = false) :
    u.setPath p = .ok { u with Path := String.mk p, RawPath := "" } := by
  unfold URL.setPath
  rw [unescape_path_of_no_percent p (not_mem_of_escaped .encodePath p '%' hp (by decide))]
  dsimp only
  rw [escape_plain .encodePath p hp]
  simp

/-- The characters of a plain scheme. -/
theorem plainScheme_chars (s : List Char) (hs : plainScheme s = true) :
    s ≠ [] ∧ ∀ c ∈ s, 43 ≤ c.toNat ∧ c.toNat ≤ 122 := by
  have key : ∀ d : Char, (isLower d || isDigit d || d = '+' || d = '-' || d = '.') = true →
      43 ≤ d.toNat ∧ d.toNat ≤ 122 := by
    intro d hd
    simp only [Bool.or_eq_true, decide_eq_true_eq, isLower, isDigit, Bool.and_eq_true] at hd
    rcases hd with (((h | h) | h) | h) | h
    · omega
    · omega
    · subst h; decide
    · subst h; decide
    · subst h; decide
  cases s with
  | nil => cases hs
  | cons c cs =>
    simp only [plainScheme, Bool.and_eq_true] at hs
    refine ⟨by simp, ?_⟩
    intro d hd
    rcases List.mem_cons.1 hd with e | e
    · subst e; exact key d (by simp [hs.1])
    · exact key d (List.all_eq_true.1 hs.2 d e)

/-- A character that needs no escape is no control character. -/
theorem not_ctl_of_plain (mode : Mode) (c : Char) (h : shouldEscape c mode = false) :
    ¬ (c.toNat < 32 ∨ c.toNat = 127) := by
  intro hc
  rw [ctl_escaped c mode hc] at h
  cases h

/-- The authority step of `parse` on a plain host and path. -/
theorem parseRest_plain (u : URL) (h q : List Char) (hu : u.Scheme ≠ "")
    (hh : plainHost h = true) (hp : plainPath ('/' :: q) = true) :
    parseRest u ('/' :: '/' :: (h ++ '/' :: q)) =
      .ok { u with User := none, Host := String.mk h, Path := String.mk ('/' :: q), RawPath := "" } := by
  obtain ⟨hhc, hhb⟩ := plainHost_chars h hh
  obtain ⟨hpc, -⟩ := plainPath_chars _ hp
  have hslash : '/' ∉ h := not_mem_of_escaped .encodeHost h '/' hhc (by decide)
  unfold parseRest
  have hpre : "//".data.isPrefixOf ('/' :: '/' :: (h ++ '/' :: q)) = true := by
    simp [List.isPrefixOf]
  simp only [hu, ne_eq, not_false_eq_true, true_or, hpre, and_self, if_true, List.drop_succ_cons,
    List.drop_zero, cut_append '/' h q hslash, parseAuthority_plain h hh]
  exact setPath_plain _ _ hpc

/-- `parse` on the text of a plain scheme, host and path. -/
theorem parse_plain (s h p : List Char) (hs : plainScheme s = true) (hh : plainHost h = true)
    (hp : plainPath p = true) :
    parse (s ++ ':' :: '/' :: '/' :: (h ++ p)) =
      .ok { Scheme := String.mk s, Host := String.mk h, Path := String.mk p } := by
  obtain ⟨hhc, hhb⟩ := plainHost_chars h hh
  obtain ⟨hpc, q, hq⟩ := plainPath_chars p hp
  obtain ⟨hsne, hsc⟩ := plainScheme_chars s hs
  subst hq
  have hctl : (s ++ ':' :: '/' :: '/' :: (h ++ '/' :: q)).any
      (fun c => decide (c.toNat < 32) || decide (c.toNat = 127)) = false := by
    rw [Bool.eq_false_iff]
    intro hany
    simp only [List.any_eq_true, Bool.or_eq_true, decide_eq_true_eq] at hany
    obtain ⟨c, hc, hctl⟩ := hany
    simp only [List.mem_append, List.mem_cons] at hc
    rcases hc with hc | hc | hc | hc | hc | hc | hc
    · have := hsc c hc; omega
    · subst hc; revert hctl; decide
    · subst hc; revert hctl; decide
    · subst hc; revert hctl; decide
    · exact not_ctl_of_plain _ c (hhc c hc).2 hctl
    · subst hc; revert hctl; decide
    · exact not_ctl_of_plain _ c (hpc c (List.mem_cons_of_mem _ hc)).2 hctl
  have hstar : s ++ ':' :: '/' :: '/' :: (h ++ '/' :: q) ≠ ['*'] := by
    intro e
    have := congrArg List.length e
    simp at this
    omega
  have hq1 : '?' ∉ '/' :: '/' :: (h ++ '/' :: q) := by
    intro hm
    simp only [List.mem_cons, List.mem_append] at hm
    rcases hm with hm | hm | hm | hm | hm
    · revert hm; decide
    · revert hm; decide
    · exact not_mem_of_escaped .encodeHost h '?' hhc (by decide) hm
    · revert hm; decide
    · exact not_mem_of_escaped .encodePath _ '?' hpc (by decide) (List.mem_cons_of_mem _ hm)
  have hlast : ¬ (('/' :: '/' :: (h ++ '/' :: q)).getLast? = some '?' ∧
      ('/' :: '/' :: (h ++ '/' :: q)).count '?' = 1) := by
    intro hl
    exact hq1 (List.mem_of_getLast?_eq_some hl.1)
  unfold parse
  rw [hctl]
  simp only [Bool.false_eq_true, if_false, hstar, getScheme_plain s _ hs, hlast,
    cut_of_not_mem '?' _ hq1, List.head?_cons, ne_eq, not_true_eq_false, toLower_plain s hs]
  rw [parseRest_plain _ h q _ hh hp]
  intro e
  exact hsne (congrArg String.data e)

/-- The text of a plain URL: scheme, `://`, host and path. -/
theorem text_plain (u : URL) (h : plainURL u = true) :
    u.text = String.mk (u.Scheme.data ++ ':' :: '/' :: '/' :: (u.Host.data ++ u.Path.data)) := by
  obtain ⟨sch, opq, usr, host, pth, rawp, omi, fq, rq, frag, rfrag⟩ := u
  simp only [plainURL, Bool.and_eq_true, beq_iff_eq, Option.isNone_iff_eq_none,
    Bool.not_eq_true'] at h
  obtain ⟨⟨⟨⟨⟨⟨⟨⟨⟨⟨hs, hh⟩, hp⟩, h1⟩, h2⟩, h3⟩, h4⟩, h5⟩, h6⟩, h7⟩, h8⟩ := h
  subst h1 h2 h3 h4 h5 h6 h7 h8
  obtain ⟨hhc, hhb⟩ := plainHost_chars _ hh
  obtain ⟨hpc, q, hq⟩ := plainPath_chars _ hp
  obtain ⟨hsne, hsc⟩ := plainScheme_chars _ hs
  have hsch : sch ≠ "" := fun e => hsne (congrArg String.data e)
  have hpne : pth ≠ "" := by
    intro e
    rw [e] at hq
    cases hq
  have hstar : pth ≠ "*" := by
    intro e
    rw [e] at hq
    cases hq
  have hesc : URL.EscapedPath { Scheme := sch, Host := host, Path := pth } = pth.data := by
    simp [URL.EscapedPath, hstar, escape_plain .encodePath _ hpc]
  have hhead : URL.stringHead { Scheme := sch, Host := host, Path := pth } =
      sch.data ++ ':' :: '/' :: '/' :: host.data := by
    by_cases hho : host = ""
    · subst hho
      simp [URL.stringHead, hsch, hpne]
    · simp [URL.stringHead, hsch, hpne, hho, escape_plain .encodeHost _ hhc]
  unfold URL.text
  simp only [hesc, hhead]
  simp [hq, hsch]

/-- A plain URL is read back from its text as it is. -/
theorem Parse_text_plain (u : URL) (h : plainURL u = true) : url.Parse u.text = .ok u := by
  rw [text_plain u h]
  obtain ⟨sch, opq, usr, host, pth, rawp, omi, fq, rq, frag, rfrag⟩ := u
  simp only [plainURL, Bool.and_eq_true, beq_iff_eq, Option.isNone_iff_eq_none,
    Bool.not_eq_true'] at h
  obtain ⟨⟨⟨⟨⟨⟨⟨⟨⟨⟨hs, hh⟩, hp⟩, h1⟩, h2⟩, h3⟩, h4⟩, h5⟩, h6⟩, h7⟩, h8⟩ := h
  subst h1 h2 h3 h4 h5 h6 h7 h8
  obtain ⟨hhc, hhb⟩ := plainHost_chars _ hh
  obtain ⟨hpc, q, hq⟩ := plainPath_chars _ hp
  obtain ⟨hsne, hsc⟩ := plainScheme_chars _ hs
  dsimp only at hs hh hp hhc hpc hq hsc ⊢
  have hfrag : '#' ∉ sch.data ++ ':' :: '/' :: '/' :: (host.data ++ pth.data) := by
    intro hm
    simp only [List.mem_append, List.mem_cons] at hm
    rcases hm with hm | hm | hm | hm | hm | hm
    · have := hsc _ hm
      revert this
      decide
    · revert hm; decide
    · revert hm; decide
    · revert hm; decide
    · exact not_mem_of_escaped .encodeHost _ '#' hhc (by decide) hm
    · exact not_mem_of_escaped .encodePath _ '#' hpc (by decide) hm
  unfold url.Parse
  simp only [cut_of_not_mem '#' _ hfrag, parse_plain _ _ _ hs hh hp, if_true]

/-- The request `http.NewRequest` makes from the text of a plain URL. -/
theorem newRequest_plain (method : String) (u : URL) (body : Option JSON)
    (hm : method = "GET" ∨ method = "POST") (h : plainURL u = true) :
    http.NewRequest method u.text body =
      .ok { Method := method,
            URL := { u with Host := String.mk (http.removeEmptyPort u.Host.data) },
            Header := [], Body := body } := by
  unfold http.NewRequest
  rw [Parse_text_plain u h]
  rcases hm with hm | hm <;> subst hm <;> rfl

/-- The escaped form of a plain path is the path. -/
theorem escapedPath_plain (u : URL) (hraw : u.RawPath = "") (hp : plainPath u.Path.data = true) :
    u.EscapedPath = u.Path.data := by
  obtain ⟨hpc, q, hq⟩ := plainPath_chars _ hp
  have hstar : u.Path ≠ "*" := by
    intro e
    rw [e] at hq
    cases hq
  simp [URL.EscapedPath, hraw, hstar, escape_plain .encodePath _ hpc]

/-- `path.Clean` on a rooted path. -/
theorem clean_rooted (p : List Char) (h : p.head? = some '/') :
    path.Clean p = '/' :: ['/'].intercalate (path.cleanElems true (split '/' p) []).reverse := by
  have hne : p ≠ [] := by
    intro e
    rw [e] at h
    cases h
  simp [path.Clean, hne, h]

/-- The elements of a clean rooted path other than the root. -/
theorem cleanElems_of_clean (p : List Char) (hroot : p.head? = some '/') (hne : p ≠ ['/'])
    (hclean : path.Clean p = p) :
    (path.cleanElems true (split '/' p) []).reverse ≠ [] ∧
      '/' :: ['/'].intercalate (path.cleanElems true (split '/' p) []).reverse = p := by
  rw [clean_rooted p hroot] at hclean
  refine ⟨?_, hclean⟩
  intro e
  rw [e] at hclean
  exact hne hclean.symm

/-- Cleaning a rooted path followed by a slash and more. -/
theorem clean_append_rest (p rest : List Char) (hroot : p.head? = some '/') :
    path.Clean (p ++ '/' :: rest) =
      '/' :: ['/'].intercalate
        (path.cleanElems true (split '/' rest) (path.cleanElems true (split '/' p) [])).reverse := by
  have h : (p ++ '/' :: rest).head? = some '/' := by
    cases p with
    | nil => cases hroot
    | cons c cs => exact hroot
  rw [clean_rooted _ h, split_append, cleanElems_append]

/-- The elements `path.Clean` keeps of one plain segment, with or without a slash
before it. -/
theorem cleanElems_segment (s : List Char) (k : List (List Char)) (h1 : s ≠ []) (h2 : '/' ∉ s)
    (h3 : s ≠ ['.']) (h4 : s ≠ ['.', '.']) :
    path.cleanElems true (split '/' s) k = s :: k ∧
      path.cleanElems true (split '/' ('/' :: s)) k = s :: k := by
  have e : split '/' ('/' :: s) = [] :: split '/' s := by simp [split]
  rw [e, split_of_not_mem _ _ h2]
  simp [path.cleanElems, h1, h3, h4]

/-- `path.Join` of a clean path and one plain segment. -/
theorem join_clean_segment (p s : List Char) (hp : p.head? = some '/') (hc : cleanPath p = true)
    (h1 : s ≠ []) (h2 : '/' ∉ s) (h3 : s ≠ ['.']) (h4 : s ≠ ['.', '.']) :
    path.Join [p, s] = trimSlash p ++ '/' :: s := by
  have hpne : p ≠ [] := by
    intro e
    rw [e] at hp
    cases hp
  have hj : path.Join [p, s] = path.Clean (p ++ '/' :: s) := by
    simp [path.Join, path.joinBuf, hpne]
  rw [hj]
  obtain ⟨e1, e2⟩ := cleanElems_segment s (path.cleanElems true (split '/' (trimSlash p)) []) h1 h2 h3 h4
  simp only [cleanPath, Bool.or_eq_true, beq_iff_eq, Bool.and_eq_true, bne_iff_ne, ne_eq] at hc
  rcases hc with hc | ⟨⟨hne, hroot⟩, hclean⟩
  · subst hc
    have := (cleanElems_segment s [] h1 h2 h3 h4).2
    rw [clean_append_rest ['/'] s rfl]
    have hk : path.cleanElems true (split '/' ['/']) [] = [] := by decide
    rw [hk, (cleanElems_segment s [] h1 h2 h3 h4).1]
    have ht : trimSlash ['/'] = [] := by decide
    simp [ht, List.intercalate]
  · obtain ⟨hk1, hk2⟩ := cleanElems_of_clean _ hroot hne hclean
    by_cases ht : p.getLast? = some '/'
    · have hsplit : p = trimSlash p ++ ['/'] := by
        simp only [trimSlash, ht, if_true]
        exact (List.dropLast_append_getLast? _ ht).symm
      have : p ++ '/' :: s = trimSlash p ++ '/' :: ('/' :: s) := by
        conv_lhs => rw [hsplit]
        simp
      rw [this, clean_append_rest _ _ hroot, e2, List.reverse_cons, intercalate_snoc _ _ _ hk1]
      conv_rhs => rw [← hk2]
      simp
    · have htrim : trimSlash p = p := by simp [trimSlash, ht]
      rw [htrim] at hk1 hk2 e1 hroot ⊢
      rw [clean_append_rest _ _ hroot, e1, List.reverse_cons, intercalate_snoc _ _ _ hk1]
      conv_rhs => rw [← hk2]
      simp

/-- `path.Join` of a clean path and the empty text: the slash at the end is removed. -/
theorem join_clean_empty (p : List Char) (hp : p.head? = some '/') (hc : cleanPath p = true) :
    path.Join [p, []] = if p = ['/'] then ['/'] else trimSlash p := by
  have hpne : p ≠ [] := by
    intro e
    rw [e] at hp
    cases hp
  have hj : path.Join [p, []] = path.Clean (p ++ '/' :: []) := by
    simp [path.Join, path.joinBuf, hpne]
  rw [hj]
  simp only [cleanPath, Bool.or_eq_true, beq_iff_eq, Bool.and_eq_true, bne_iff_ne, ne_eq] at hc
  by_cases hr : p = ['/']
  · subst hr
    decide
  · rw [if_neg hr]
    rcases hc with hc | ⟨⟨hne, hroot⟩, hclean⟩
    · exact absurd hc hr
    · obtain ⟨hk1, hk2⟩ := cleanElems_of_clean _ hroot hne hclean
      have hnil : ∀ k, path.cleanElems true (split '/' []) k = k ∧
          path.cleanElems true (split '/' ['/']) k = k := by
        intro k
        constructor <;> simp [split, path.cleanElems]
      by_cases ht : p.getLast? = some '/'
      · have hsplit : p = trimSlash p ++ ['/'] := by
          simp only [trimSlash, ht, if_true]
          exact (List.dropLast_append_getLast? _ ht).symm
        have : p ++ ['/'] = trimSlash p ++ '/' :: ['/'] := by
          conv_lhs => rw [hsplit]
          simp
        rw [this, clean_append_rest _ _ hroot, (hnil _).2]
        exact hk2
      · have htrim : trimSlash p = p := by simp [trimSlash, ht]
        rw [htrim] at hk1 hk2 hroot ⊢
        rw [clean_append_rest _ _ hroot, (hnil _).1]
        exact hk2

/-- `JoinPath` of a URL with a plain clean path and one plain segment. -/
theorem joinPath_clean_segment (v : URL) (hraw : v.RawPath = "")
    (hpl : plainPath v.Path.data = true) (hcl : cleanPath v.Path.data = true) (s : String)
    (hs : isSegment s) :
    (v.JoinPath s).Path = String.mk (trimSlash v.Path.data ++ '/' :: s.data) := by
  obtain ⟨h1, h2, h3, h4, h5⟩ := hs
  obtain ⟨hpc, q, hq⟩ := plainPath_chars _ hpl
  have e1 : s.data ≠ [] := fun e => h1 (String.ext e)
  have e4 : s.data ≠ ['.'] := fun e => h4 (String.ext e)
  have e5 : s.data ≠ ['.', '.'] := fun e => h5 (String.ext e)
  have hl : s.data.getLast? ≠ some '/' := by
    intro e
    exact h2 (List.mem_of_getLast?_eq_some e)
  have hhead : v.Path.data.head? = some '/' := by rw [hq]; rfl
  unfold URL.JoinPath
  simp only [escapedPath_plain v hraw hpl, hhead, ne_eq, not_true_eq_false, if_false,
    join_clean_segment _ _ hhead hcl e1 h2 e4 e5, hl, false_and]
  rw [setPath_path]
  intro hm
  rcases List.mem_append.1 hm with hm | hm
  · have hsub : '%' ∈ v.Path.data := by
      unfold trimSlash at hm
      split at hm
      · exact List.mem_of_mem_dropLast hm
      · exact hm
    exact not_mem_of_escaped .encodePath _ '%' hpc (by decide) hsub
  · rcases List.mem_cons.1 hm with hm | hm
    · exact absurd hm (by decide)
    · exact h3 hm

/-- `JoinPath` of a URL with a plain clean path and the empty suffix. -/
theorem joinPath_clean_empty (v : URL) (hraw : v.RawPath = "")
    (hpl : plainPath v.Path.data = true) (hcl : cleanPath v.Path.data = true) :
    (v.JoinPath "").Path =
      String.mk (if v.Path.data = ['/'] then ['/'] else trimSlash v.Path.data) := by
  obtain ⟨hpc, q, hq⟩ := plainPath_chars _ hpl
  have hhead : v.Path.data.head? = some '/' := by rw [hq]; rfl
  have hd : ("" : String).data = [] := rfl
  unfold URL.JoinPath
  simp only [escapedPath_plain v hraw hpl, hhead, ne_eq, not_true_eq_false, if_false, hd,
    join_clean_empty _ hhead hcl, List.getLast?_nil, reduceCtorEq, false_and]
  rw [setPath_path]
  intro hm
  have hsub : '%' ∈ v.Path.data := by
    split at hm
    · rename_i h; rw [h]; exact hm
    · unfold trimSlash at hm
      split at hm
      · exact List.mem_of_mem_dropLast hm
      · exact hm
  exact not_mem_of_escaped .encodePath _ '%' hpc (by decide) hsub

/-- The headers `execute` adds to a request without headers. -/
theorem headers_eq (accessToken : String) :
    ((if 0 < accessToken.length then
        http.Header.Set [] "Authorization" ("Bearer " ++ accessToken)
      else []).Add "Content-Type" "application/json").Add "Accept" "application/json" =
      headersFor accessToken := by
  by_cases ht : accessToken = ""
  · have : ¬ 0 < accessToken.length := by rw [length_pos_iff]; simpa using ht
    simp [this, headersFor, ht, http.Header.Add]
  · have : 0 < accessToken.length := by rw [length_pos_iff]; exact ht
    simp [this, headersFor, ht, http.Header.Add, http.Header.Set]

/-- The GET request `execute` builds when base address and endpoint resolve to a plain
URL. -/
theorem request_get_plain (c : Client) (endp path : String) (body : Body) (u0 : URL)
    (hp : url.Parse c.BaseUrl = .ok u0)
    (hu : plainURL (u0.ResolveReference { Path := endp }) = true) :
    c.request "GET" endp path body =
      .ok (some { Method := "GET",
                  URL := ({ u0.ResolveReference { Path := endp } with
                    Host := String.mk (http.removeEmptyPort
                      (u0.ResolveReference { Path := endp }).Host.data) } : URL).JoinPath path,
                  Header := headersFor c.accessToken,
                  Body := none }) := by
  unfold Client.request
  rw [hp]
  have hm : ¬ ("GET" = "POST") := by decide
  simp only [hm, if_false, if_true, newRequest_plain "GET" _ none (Or.inl rfl) hu, Except.map]
  rw [← headers_eq]

/-- The POST request `execute` builds when base address and endpoint resolve to a plain
URL. -/
theorem request_post_plain (c : Client) (endp path : String) (body : Body) (u0 : URL)
    (hp : url.Parse c.BaseUrl = .ok u0)
    (hu : plainURL (u0.ResolveReference { Path := endp }) = true) :
    c.request "POST" endp path body =
      .ok (some { Method := "POST",
                  URL := { u0.ResolveReference { Path := endp } with
                    Host := String.mk (http.removeEmptyPort
                      (u0.ResolveReference { Path := endp }).Host.data) },
                  Header := headersFor c.accessToken,
                  Body := some (jsonMarshal body) }) := by
  unfold Client.request
  rw [hp]
  simp only [if_true, newRequest_plain "POST" _ _ (Or.inr rfl) hu, Except.map]
  rw [← headers_eq]

/-- The fields of a plain URL. -/
theorem plainURL_fields (u : URL) (h : plainURL u = true) :
    plainPath u.Path.data = true ∧ u.RawPath = "" ∧ u.RawQuery = "" ∧ u.ForceQuery = false := by
  simp only [plainURL, Bool.and_eq_true, beq_iff_eq, Option.isNone_iff_eq_none,
    Bool.not_eq_true'] at h
  obtain ⟨⟨⟨⟨⟨⟨⟨⟨⟨⟨hs, hh⟩, hp⟩, h1⟩, h2⟩, h3⟩, h4⟩, h5⟩, h6⟩, h7⟩, h8⟩ := h
  exact ⟨hp, h3, h6, h5⟩

/-- The base address of `localClient` parses. -/
theorem parse_local : url.Parse localClient.BaseUrl = .ok localURL := by rfl

/-- The base address of `doubledSlashClient` parses. -/
theorem parse_doubledSlash : url.Parse doubledSlashClient.BaseUrl = .ok doubledSlashURL := by rfl

/-- The address `doubledSlashClient` resolves for `StatesByCountryID` is plain. -/
theorem plain_doubledSlash :
    plainURL (doubledSlashURL.ResolveReference { Path := "api/place/states" }) = true := by
  decide!

/-- The requests `CitiesByStateID` sends. -/
theorem CitiesByStateID_sent (net : http.Transport) (c : Client) (stateID : String) :
    (Client.CitiesByStateID net c stateID).sent =
      sentOf (c.request "GET" (Accessor.CitiesByStateID stateID).endp
        (Accessor.CitiesByStateID stateID).arg .nil) :=
  (call_sent net c (.CitiesByStateID stateID)).1

/-- The base address of `badAddressClient` does not parse. -/
theorem parse_badAddress :
    url.Parse badAddressClient.BaseUrl = .error (.url "://bad" .missingScheme) := by rfl

/-- Without a base address that parses, `execute` sends nothing. -/
theorem execute_of_parse_error {β : Type} (net : http.Transport) (c : Client)
    (method endp path : String) (body : Body) (dec : Dec β) (target : β) (err : Error)
    (hp : url.Parse c.BaseUrl = .error err) :
    (c.execute net method endp path body dec target).sent = [] ∧
      (c.execute net method endp path body dec target).outcome = .returns (some err, target) := by
  rw [execute_eq]
  have : c.request method endp path body = .error err := by
    unfold Client.request
    rw [hp]
  rw [this]
  exact ⟨rfl, rfl⟩

/-- With a method that is neither `GET` nor `POST`, `execute` sends nothing and panics. -/
theorem execute_of_other_method {β : Type} (net : http.Transport) (c : Client)
    (method endp path : String) (body : Body) (dec : Dec β) (target : β) (u0 : URL)
    (hp : url.Parse c.BaseUrl = .ok u0) (hg : method ≠ "GET") (hpost : method ≠ "POST") :
    (c.execute net method endp path body dec target).sent = [] ∧
      (c.execute net method endp path body dec target).outcome = .panics := by
  rw [execute_eq]
  have : c.request method endp path body = .ok none := by
    unfold Client.request
    rw [hp]
    simp only [hg, hpost, if_false]
  rw [this]
  exact ⟨rfl, rfl⟩

/-- The characters `escape` writes for a byte. -/
theorem mem_escapeByte (b : Nat) (x : Char) (h : x ∈ escapeByte b) :
    x ∈ "%0123456789ABCDEF".data := by
  have hget : ∀ i : Nat, "0123456789ABCDEF".data.getD i '0' ∈ "0123456789ABCDEF".data := by
    intro i
    by_cases hi : i < 16
    · interval_cases i <;> decide
    · have hd : "0123456789ABCDEF".data.getD i '0' = '0' :=
        List.getD_eq_default _ _ (by simp only [not_lt] at hi; exact hi)
      rw [hd]
      decide
  simp only [escapeByte, List.mem_cons, List.mem_singleton, List.not_mem_nil, or_false] at h
  rcases h with h | h | h
  · subst h; decide
  · subst h; exact List.mem_cons_of_mem _ (hget _)
  · subst h; exact List.mem_cons_of_mem _ (hget _)

/-- A character that is escaped, and is neither the percent sign nor a hexadecimal
digit, does not occur in an escaped text. -/
theorem not_mem_escape (mode : Mode) (s : List Char) (x : Char)
    (hx : shouldEscape x mode = true) (hh : x ∉ "%0123456789ABCDEF".data) :
    x ∉ escape mode s := by
  induction s with
  | nil => simp [escape]
  | cons c cs ih =>
    intro hm
    unfold escape at hm
    rcases List.mem_append.1 hm with hm | hm
    · split at hm
      · split at hm
        · exact hh (mem_escapeByte _ _ hm)
        · rename_i hc
          simp only [List.mem_singleton] at hm
          subst hm
          exact hc hx
      · simp only [List.mem_flatMap] at hm
        obtain ⟨b, -, hb⟩ := hm
        exact hh (mem_escapeByte _ _ hb)
    · exact ih hm

/-- The authority text has no slash, question mark or number sign. -/
theorem not_mem_authorityText (u : URL) (x : Char) (hx : x = '/' ∨ x = '?' ∨ x = '#') :
    x ∉ authorityText u := by
  have h1 : shouldEscape x .encodeHost = true := by
    rcases hx with h | h | h <;> subst h <;> decide
  have h2 : shouldEscape x .encodeUserPassword = true := by
    rcases hx with h | h | h <;> subst h <;> decide
  have h3 : x ∉ "%0123456789ABCDEF".data := by
    rcases hx with h | h | h <;> subst h <;> decide
  have h4 : x ≠ '@' ∧ x ≠ ':' := by
    rcases hx with h | h | h <;> subst h <;> decide
  intro hm
  unfold authorityText at hm
  rcases List.mem_append.1 hm with hm | hm
  · cases hu : u.User with
    | none => rw [hu] at hm; cases hm
    | some ui =>
      rw [hu] at hm
      dsimp only at hm
      rcases List.mem_append.1 hm with hm | hm
      · unfold Userinfo.text at hm
        cases hpw : ui.password with
        | none =>
          rw [hpw] at hm
          exact not_mem_escape _ _ x h2 h3 hm
        | some pw =>
          rw [hpw] at hm
          dsimp only at hm
          rcases List.mem_append.1 hm with hm | hm
          · exact not_mem_escape _ _ x h2 h3 hm
          · rcases List.mem_cons.1 hm with hm | hm
            · exact h4.2 hm
            · exact not_mem_escape _ _ x h2 h3 hm
      · simp only [List.mem_singleton] at hm
        exact h4.1 hm
  · split at hm
    · exact not_mem_escape _ _ x h1 h3 hm
    · cases hm

/-- The fields of a rooted URL. -/
theorem rootedURL_fields (u : URL) (h : rootedURL u = true) :
    plainScheme u.Scheme.data = true ∧ plainPath u.Path.data = true ∧ u.Opaque = "" ∧
      u.RawPath = "" ∧ u.OmitHost = false ∧ u.ForceQuery = false ∧ u.RawQuery = "" ∧
      u.Fragment = "" := by
  simp only [rootedURL, Bool.and_eq_true, beq_iff_eq, Bool.not_eq_true'] at h
  obtain ⟨⟨⟨⟨⟨⟨⟨⟨hs, hp⟩, h1⟩, h3⟩, h4⟩, h5⟩, h6⟩, h7⟩, h8⟩ := h
  exact ⟨hs, hp, h1, h3, h4, h5, h6, h7⟩

/-- A plain URL is a rooted URL. -/
theorem rootedURL_of_plain (u : URL) (h : plainURL u = true) : rootedURL u = true := by
  simp only [plainURL, Bool.and_eq_true, beq_iff_eq, Option.isNone_iff_eq_none,
    Bool.not_eq_true'] at h
  obtain ⟨⟨⟨⟨⟨⟨⟨⟨⟨⟨hs, hh⟩, hp⟩, h1⟩, h2⟩, h3⟩, h4⟩, h5⟩, h6⟩, h7⟩, h8⟩ := h
  simp [rootedURL, hs, hp, h1, h3, h4, h5, h6, h7, h8]

/-- The text of a rooted URL: scheme, `://`, authority and path. -/
theorem text_rooted (u : URL) (h : rootedURL u = true) :
    u.text =
      String.mk (u.Scheme.data ++ ':' :: '/' :: '/' :: (authorityText u ++ u.Path.data)) := by
  obtain ⟨hs, hp, h1, h3, h4, h5, h6, h7⟩ := rootedURL_fields u h
  obtain ⟨hpc, q, hq⟩ := plainPath_chars _ hp
  obtain ⟨hsne, hsc⟩ := plainScheme_chars _ hs
  have hsch : u.Scheme ≠ "" := fun e => hsne (congrArg String.data e)
  have hpne : u.Path ≠ "" := by
    intro e
    rw [e] at hq
    cases hq
  have hesc : u.EscapedPath = u.Path.data := escapedPath_plain u h3 hp
  have hhead : u.stringHead = u.Scheme.data ++ ':' :: '/' :: '/' :: authorityText u := by
    simp [URL.stringHead, authorityText, hsch, hpne, h4]
  unfold URL.text
  simp only [hesc, hhead]
  simp [hq, hsch, h1, h5, h6, h7]

/-- What `parse` makes of the text of a scheme, an authority and a plain path, when
it accepts the text: the path, and no query. -/
theorem parse_rooted (s auth p : List Char) (v : URL) (hs : plainScheme s = true)
    (ha : ∀ x, x = '/' ∨ x = '?' ∨ x = '#' → x ∉ auth) (hp : plainPath p = true)
    (hv : parse (s ++ ':' :: '/' :: '/' :: (auth ++ p)) = .ok v) :
    v.Path = String.mk p ∧ v.RawPath = "" ∧ v.RawQuery = "" ∧ v.ForceQuery = false ∧
      v.Fragment = "" := by
  obtain ⟨hpc, q, hq⟩ := plainPath_chars p hp
  obtain ⟨hsne, hsc⟩ := plainScheme_chars s hs
  subst hq
  have hstar : s ++ ':' :: '/' :: '/' :: (auth ++ '/' :: q) ≠ ['*'] := by
    intro e
    have := congrArg List.length e
    simp at this
    omega
  have hq1 : '?' ∉ '/' :: '/' :: (auth ++ '/' :: q) := by
    intro hm
    simp only [List.mem_cons, List.mem_append] at hm
    rcases hm with hm | hm | hm | hm | hm
    · revert hm; decide
    · revert hm; decide
    · exact ha '?' (Or.inr (Or.inl rfl)) hm
    · revert hm; decide
    · exact not_mem_of_escaped .encodePath _ '?' hpc (by decide) (List.mem_cons_of_mem _ hm)
  have hlast : ¬ (('/' :: '/' :: (auth ++ '/' :: q)).getLast? = some '?' ∧
      ('/' :: '/' :: (auth ++ '/' :: q)).count '?' = 1) := by
    intro hl
    exact hq1 (List.mem_of_getLast?_eq_some hl.1)
  have hsch : (String.mk s) ≠ "" := by
    intro e
    exact hsne (congrArg String.data e)
  have hpre : "//".data.isPrefixOf ('/' :: '/' :: (auth ++ '/' :: q)) = true := by
    simp [List.isPrefixOf]
  unfold parse at hv
  split at hv
  · cases hv
  · simp only [hstar, if_false, getScheme_plain s _ hs, hlast,
      cut_of_not_mem '?' _ hq1, List.head?_cons, ne_eq, not_true_eq_false,
      toLower_plain s hs] at hv
    unfold parseRest at hv
    simp only [hsch, ne_eq, not_false_eq_true, true_or, hpre, and_self, if_true,
      List.drop_succ_cons, List.drop_zero,
      cut_append '/' auth q (ha '/' (Or.inl rfl))] at hv
    cases hpa : parseAuthority auth with
    | error e => rw [hpa] at hv; cases hv
    | ok r =>
      obtain ⟨user, host⟩ := r
      rw [hpa] at hv
      dsimp only at hv
      rw [setPath_plain _ _ hpc] at hv
      simp only [Except.ok.injEq] at hv
      subst hv
      exact ⟨rfl, rfl, rfl, rfl, rfl⟩

/-- What `url.Parse` makes of the text of a rooted URL, when it accepts the text: the
path of the URL, and no query. -/
theorem Parse_text_rooted (u v : URL) (h : rootedURL u = true)
    (hv : url.Parse u.text = .ok v) :
    v.Path = u.Path ∧ v.RawPath = "" ∧ v.RawQuery = "" ∧ v.ForceQuery = false := by
  obtain ⟨hs, hp, h1, h3, h4, h5, h6, h7⟩ := rootedURL_fields u h
  obtain ⟨hpc, q, hq⟩ := plainPath_chars _ hp
  obtain ⟨hsne, hsc⟩ := plainScheme_chars _ hs
  rw [text_rooted u h] at hv
  have hfrag : '#' ∉ u.Scheme.data ++ ':' :: '/' :: '/' :: (authorityText u ++ u.Path.data) := by
    intro hm
    simp only [List.mem_append, List.mem_cons] at hm
    rcases hm with hm | hm | hm | hm | hm | hm
    · have := hsc _ hm
      revert this
      decide
    · revert hm; decide
    · revert hm; decide
    · revert hm; decide
    · exact not_mem_authorityText u '#' (Or.inr (Or.inr rfl)) hm
    · exact not_mem_of_escaped .encodePath _ '#' hpc (by decide) hm
  unfold url.Parse at hv
  simp only [cut_of_not_mem '#' _ hfrag] at hv
  cases hpar : parse (u.Scheme.data ++ ':' :: '/' :: '/' :: (authorityText u ++ u.Path.data)) with
  | error e => rw [hpar] at hv; cases hv
  | ok w =>
    rw [hpar] at hv
    simp only [if_true, Except.ok.injEq] at hv
    subst hv
    obtain ⟨e1, e2, e3, e4, -⟩ := parse_rooted _ _ _ w hs (not_mem_authorityText u) hp hpar
    exact ⟨e1, e2, e3, e4⟩

/-- The URL of a request made by `http.NewRequest` is the URL parsed from the text,
with an empty port removed from the host. -/
theorem newRequest_url (method urlText : String) (body : Option JSON) (req : http.Request)
    (h : http.NewRequest method urlText body = .ok req) :
    ∃ v, url.Parse urlText = .ok v ∧
      req.URL = { v with Host := String.mk (http.removeEmptyPort v.Host.data) } := by
  unfold http.NewRequest at h
  by_cases hm : (!http.validMethod (if method = "" then "GET" else method)) = true
  · rw [if_pos hm] at h
    cases h
  · rw [if_neg hm] at h
    cases hp : url.Parse urlText with
    | error e => rw [hp] at h; cases h
    | ok v =>
      rw [hp] at h
      simp only [Except.ok.injEq] at h
      subst h
      exact ⟨v, rfl, rfl⟩

/-- The URL of a POST request of `execute` is the URL `http.NewRequest` parsed from the
resolved address. -/
theorem request_post_url (c : Client) (endp path : String) (body : Body) (req : http.Request)
    (h : c.request "POST" endp path body = .ok (some req)) :
    ∃ u0 r1, url.Parse c.BaseUrl = .ok u0 ∧
      http.NewRequest "POST" (u0.ResolveReference { Path := endp }).text
        (some (jsonMarshal body)) = .ok r1 ∧
      req.URL = r1.URL := by
  unfold Client.request at h
  cases hp : url.Parse c.BaseUrl with
  | error err => rw [hp] at h; cases h
  | ok u0 =>
    rw [hp] at h
    simp only [if_true] at h
    cases hn : http.NewRequest "POST" (u0.ResolveReference { Path := endp }).text
        (some (jsonMarshal body)) with
    | error err => rw [hn] at h; cases h
    | ok r1 =>
      rw [hn] at h
      simp only [Except.map, Except.ok.injEq, Option.some.injEq] at h
      subst h
      exact ⟨u0, r1, rfl, hn, rfl⟩

/-- The path and query of a GET request sent for a rooted resolved URL. -/
theorem get_request_rooted (c : Client) (endp path : String) (body : Body) (u0 : URL)
    (req : http.Request) (hp : url.Parse c.BaseUrl = .ok u0)
    (hu : rootedURL (u0.ResolveReference { Path := endp }) = true)
    (hreq : req ∈ sentOf (c.request "GET" endp path body)) :
    req.Method = "GET" ∧ req.URL.RawQuery = "" ∧ req.URL.ForceQuery = false ∧
      (cleanPath (u0.ResolveReference { Path := endp }).Path.data = true →
        (isSegment path → req.URL.Path = String.mk
          (trimSlash (u0.ResolveReference { Path := endp }).Path.data ++ '/' :: path.data)) ∧
        (path = "" → req.URL.Path = String.mk
          (if (u0.ResolveReference { Path := endp }).Path.data = ['/'] then ['/']
           else trimSlash (u0.ResolveReference { Path := endp }).Path.data))) := by
  have hb := mem_sentOf _ _ hreq
  obtain ⟨-, hm, -⟩ := request_inv c _ _ _ _ req hb
  obtain ⟨u0', r1, hp', hn, hurl⟩ := request_get_url c endp path body req hb
  rw [hp] at hp'
  cases hp'
  obtain ⟨v, hv, hr1⟩ := newRequest_url _ _ _ _ hn
  obtain ⟨e1, e2, e3, e4⟩ := Parse_text_rooted _ v hu hv
  obtain ⟨-, hpl, -⟩ := rootedURL_fields _ hu
  have hP : r1.URL.Path = (u0.ResolveReference { Path := endp }).Path := by rw [hr1]; exact e1
  have hR : r1.URL.RawPath = "" := by rw [hr1]; exact e2
  have hQ : r1.URL.RawQuery = "" := by rw [hr1]; exact e3
  have hF : r1.URL.ForceQuery = false := by rw [hr1]; exact e4
  rw [← hP] at hpl ⊢
  rw [hurl]
  refine ⟨hm, (JoinPath_frame _ _).1.trans hQ, (JoinPath_frame _ _).2.1.trans hF, ?_⟩
  intro hcl
  constructor
  · intro hs
    exact joinPath_clean_segment r1.URL hR hpl hcl path hs
  · intro hs
    subst hs
    exact joinPath_clean_empty r1.URL hR hpl hcl

/-- The path and query of a POST request sent for a rooted resolved URL. -/
theorem post_request_rooted (c : Client) (endp path : String) (body : Body) (u0 : URL)
    (req : http.Request) (hp : url.Parse c.BaseUrl = .ok u0)
    (hu : rootedURL (u0.ResolveReference { Path := endp }) = true)
    (hreq : req ∈ sentOf (c.request "POST" endp path body)) :
    req.Method = "POST" ∧ req.URL.Path = (u0.ResolveReference { Path := endp }).Path ∧
      req.URL.RawQuery = "" ∧ req.URL.ForceQuery = false := by
  have hb := mem_sentOf _ _ hreq
  obtain ⟨-, hm, -⟩ := request_inv c _ _ _ _ req hb
  obtain ⟨u0', r1, hp', hn, hurl⟩ := request_post_url c endp path body req hb
  rw [hp] at hp'
  cases hp'
  obtain ⟨v, hv, hr1⟩ := newRequest_url _ _ _ _ hn
  obtain ⟨e1, e2, e3, e4⟩ := Parse_text_rooted _ v hu hv
  rw [hurl, hr1]
  exact ⟨hm, e1, e3, e4⟩

/-- The base address of `userClient` parses. -/
theorem parse_user : url.Parse userClient.BaseUrl = .ok userURL := by rfl

/-- A result of `url.Parse` known through its value. -/
theorem parse_of_toOption (r : Except Error URL) (v : URL) (h : r.toOption = some v) :
    r = .ok v := by
  cases r with
  | error e => cases h
  | ok w =>
    simp only [Except.toOption, Option.some.injEq] at h
    rw [h]

/-- The address `StatesByCountryID` resolves on `userClient` is read back from its text. -/
theorem parse_user_states :
    url.Parse (userURL.ResolveReference { Path := "api/place/states" }).text =
      .ok { userURL with Path := "/v1/api/place/states" } := by
  have h : (url.Parse (userURL.ResolveReference { Path := "api/place/states" }).text).toOption =
      some { userURL with Path := "/v1/api/place/states" } := by
    decide!
  exact parse_of_toOption _ _ h

/-- The GET request `execute` builds, given what `url.Parse` makes of the base address
and of the resolved address. -/
theorem request_get_of_parse (c : Client) (endp path : String) (body : Body) (u0 v : URL)
    (hp : url.Parse c.BaseUrl = .ok u0)
    (hv : url.Parse (u0.ResolveReference { Path := endp }).text = .ok v) :
    c.request "GET" endp path body =
      .ok (some { Method := "GET",
                  URL := ({ v with Host := String.mk (http.removeEmptyPort v.Host.data) } :
                    URL).JoinPath path,
                  Header := headersFor c.accessToken,
                  Body := none }) := by
  unfold Client.request
  rw [hp]
  have hm : ¬ ("GET" = "POST") := by decide
  have hn : http.NewRequest "GET" (u0.ResolveReference { Path := endp }).text none =
      .ok { Method := "GET",
            URL := { v with Host := String.mk (http.removeEmptyPort v.Host.data) },
            Header := [], Body := none } := by
    unfold http.NewRequest
    rw [hv]
    rfl
  simp only [hm, if_false, if_true, hn, Except.map]
  rw [← headers_eq]

/-- A call of `StatesByCountryID` on `userClient` sends one request. -/
theorem user_sent (countryID : String) :
    ∃ req, (Accessor.call downNet userClient (.StatesByCountryID countryID)).sent = [req] := by
  rw [(call_sent downNet userClient (.StatesByCountryID countryID)).1]
  simp only [Accessor.endp, Accessor.arg]
  rw [request_get_of_parse userClient _ _ _ _ _ parse_user parse_user_states]
  exact ⟨_, rfl⟩

/-! ## Properties -/

/-! ### C1: a 200 answer gives the data -/

/-- C1: for every accessor and every typed value `v` of its result type, when the
transport answers with status 200 and a well-formed envelope, an object whose member
`data` is the JSON value of `v` and whose other members, before and after it in any
order, are `success` holding a boolean or `message` holding a text, the accessor
returns exactly `v` and no error. -/
theorem accessor_returns_data (net : http.Transport) (c : Client) (a : Accessor) (v : Value)
    (pre post : List (String × JSON))
    (hv : v.isResultOf a = true) (hpre : pre.all isStatusMember = true)
    (hpost : post.all isStatusMember = true)
    (hres : (a.call net c).answered net ⟨200, some (.obj (pre ++ ("data", v.wire) :: post))⟩) :
    (a.call net c).outcome = .returns (some v, none) := by
  rw [call_outcome_of_answered net c a _ hres]
  have hloc : ∀ ls : List Location, ls.all (fun l => isGoInt l.ID) = true →
      ∀ l ∈ ls, ∀ old, decLocation l.wire old = some l := by
    intro ls h l hl old
    exact decLocation_wire l old (List.all_eq_true.1 h l hl)
  cases v with
  | locations ls =>
    cases a <;> simp only [Value.isResultOf, Bool.false_eq_true] at hv <;>
    · simp only [Accessor.respond, Value.wire,
        sliceResult_wire decLocation {} Location.wire ls pre post (hloc ls hv) hpre hpost]
      rfl
  | prayerTimes ts =>
    cases a <;> simp only [Value.isResultOf, Bool.false_eq_true] at hv <;>
    · simp only [Accessor.respond, Value.wire,
        sliceResult_wire decPrayerTime {} PrayerTime.wire ts pre post
          (fun t _ old => decPrayerTime_wire t old) hpre hpost]
      rfl
  | dailyContent d =>
    cases a <;> simp only [Value.isResultOf, Bool.false_eq_true, Bool.and_eq_true] at hv
    simp only [Accessor.respond, Value.wire,
      ptrResult_wire decDailyContent {} d.wire d pre post rfl
        (decDailyContent_wire d {} hv.1 hv.2) hpre hpost]
    rfl
  | eid e =>
    cases a <;> simp only [Value.isResultOf, Bool.false_eq_true] at hv
    simp only [Accessor.respond, Value.wire,
      ptrResult_wire decPrayerTimeEid {} e.wire e pre post rfl
        (decPrayerTimeEid_wire e {}) hpre hpost]
    rfl

/-- C1, witness: the round-trip scenario of the specification, one country. -/
theorem accessor_returns_data_witness :
    (Value.locations [{ ID := 1, Code := "TR", Name := "Turkey" }]).isResultOf .Countries = true ∧
    ([] : List (String × JSON)).all isStatusMember = true ∧
    [("success", JSON.bool true), ("message", JSON.str "")].all isStatusMember = true ∧
    (Accessor.call (constNet ⟨200, some (envelope turkeyData true "")⟩) exampleClient
      .Countries).answered (constNet ⟨200, some (envelope turkeyData true "")⟩)
        ⟨200, some (.obj ([] ++ ("data", (Value.locations
          [{ ID := 1, Code := "TR", Name := "Turkey" }]).wire) ::
            [("success", JSON.bool true), ("message", JSON.str "")]))⟩ ∧
    (Accessor.call (constNet ⟨200, some (envelope turkeyData true "")⟩) exampleClient
      .Countries).outcome =
        .returns (some (.locations [{ ID := 1, Code := "TR", Name := "Turkey" }]), none) :=
  ⟨by decide, rfl, rfl, answered_const _ _ rfl _,
    accessor_returns_data _ exampleClient .Countries
      (.locations [{ ID := 1, Code := "TR", Name := "Turkey" }]) []
      [("success", JSON.bool true), ("message", JSON.str "")] (by decide) rfl rfl
      (answered_const _ _ rfl _)⟩

/-! ### C2: an error status gives the error envelope -/

/-- C2: for every accessor, when the transport answers with a status code among 400,
401, 403, 404, 415, 500 and an envelope as body, the accessor returns no result and
the error `api` whose `Message` and `Success` are the `message` and `success` of the
body. -/
theorem api_error_carries_message (net : http.Transport) (c : Client) (a : Accessor) (code : Int)
    (data : JSON) (success : Bool) (message : String)
    (hcode : code ∈ [400, 401, 403, 404, 415, 500]) (hdata : data.floatsFinite = true)
    (hres : (a.call net c).answered net ⟨code, some (envelope data success message)⟩) :
    (a.call net c).outcome =
      .returns (none, some (.api { Data := if data.isNull then none else some data,
                                   Success := success, Message := message })) := by
  rw [call_outcome_of_answered net c a _ hres]
  cases a <;> simp [Accessor.respond, respond_api _ _ code data success message hcode hdata, sliceResult, ptrResult, convOutcome]

/-- C2, witness: status 401 with the message `invalid token`. -/
theorem api_error_carries_message_witness :
    (401 : Int) ∈ [400, 401, 403, 404, 415, 500] ∧
    JSON.null.floatsFinite = true ∧
    (Accessor.call (constNet ⟨401, some (envelope .null false "invalid token")⟩) exampleClient
      .Countries).answered (constNet ⟨401, some (envelope .null false "invalid token")⟩)
        ⟨401, some (envelope .null false "invalid token")⟩ ∧
    (Accessor.call (constNet ⟨401, some (envelope .null false "invalid token")⟩) exampleClient
      .Countries).outcome =
        .returns (none, some (.api { Data := none, Success := false, Message := "invalid token" })) :=
  ⟨by decide, rfl, answered_const _ _ rfl _,
    api_error_carries_message _ exampleClient .Countries 401 .null false "invalid token"
      (by decide) rfl (answered_const _ _ rfl _)⟩

/-! ### C3: any other status gives the status error -/

/-- C3: for every status code outside 200, 400, 401, 403, 404, 415 and 500 with which
the transport answers, `execute` returns the error formatted with exactly that code and
leaves the decoding target alone, and every accessor returns that error and no result;
the body of the response, decodable or not, plays no part. -/
theorem unexpected_status_error (net : http.Transport) (c : Client) (code : Int)
    (body : Option JSON) (hcode : code ∉ [200, 400, 401, 403, 404, 415, 500]) :
    (∀ (β : Type) (method endp path : String) (b : Body) (dec : Dec β) (target : β),
      (c.execute net method endp path b dec target).answered net ⟨code, body⟩ →
      (c.execute net method endp path b dec target).outcome =
        .returns (some (.errorf ("unexpected HTTP response status code: " ++ toString code)),
          target)) ∧
    (∀ a : Accessor, (a.call net c).answered net ⟨code, body⟩ →
      (a.call net c).outcome =
        .returns (none,
          some (.errorf ("unexpected HTTP response status code: " ++ toString code)))) := by
  constructor
  · intro β method endp path b dec target h
    obtain ⟨req, hs, hn⟩ := h
    rw [execute_sent] at hs
    rw [execute_outcome_of_sent net c method endp path b dec target req _ hs hn,
      respond_unexpected dec target code body hcode]
  · intro a h
    rw [call_outcome_of_answered net c a _ h]
    cases a <;> simp [Accessor.respond, respond_unexpected _ _ code body hcode, sliceResult, ptrResult, convOutcome]

/-- C3, witness: status 204. -/
theorem unexpected_status_error_witness :
    (204 : Int) ∉ [200, 400, 401, 403, 404, 415, 500] ∧
    (Accessor.call (constNet ⟨204, none⟩) exampleClient .Countries).answered
      (constNet ⟨204, none⟩) ⟨204, none⟩ ∧
    (Accessor.call (constNet ⟨204, none⟩) exampleClient .Countries).outcome =
      .returns (none, some (.errorf "unexpected HTTP response status code: 204")) :=
  ⟨by decide, answered_const _ _ rfl _,
    (unexpected_status_error (constNet ⟨204, none⟩) exampleClient 204 none (by decide)).2
      .Countries (answered_const _ _ rfl _)⟩

/-! ### C4: construction fails when the login does -/

/-- C4, counterexample: a login answered with status 200 and an envelope whose
`success` is false but whose data holds a token makes `New` return a client, holding
that token, and no error. -/
theorem New_ignores_success_flag :
    (New (constNet ⟨200, some (envelope (authData "t" "r") false "login failed")⟩)
        { Email := "user@example.org", Password := "wrong" }).outcome =
      .returns
        (some { BaseUrl := "https://awqatsalah.diyanet.gov.tr/",
                Credentials := { Email := "user@example.org", Password := "wrong" },
                accessToken := "t",
                c := newDefaultHTTPClient }, none) := by
  rw [New_eq]
  rfl

/-- C4, amended: when every answer of the login exchange is a transport failure or a
response with a status code other than 200, `New` returns an error and no client, and
the access token of the allocated client stays empty. -/
theorem New_fails_without_200 (net : http.Transport) (credentials : Credentials)
    (h : ∀ res, (New net credentials).answered net res → res.StatusCode ≠ 200) :
    ∃ err, (New net credentials).outcome = .returns (none, some err) ∧
      (New net credentials).client.accessToken = "" := by
  have hs := New_sent net credentials
  have h2 : ∀ res, net (loginRequest (newClient credentials)) = .ok res → res.StatusCode ≠ 200 :=
    fun res hn => h res ⟨_, hs, hn⟩
  rw [New_eq]
  cases hn : net (loginRequest (newClient credentials)) with
  | error msg => exact ⟨_, rfl, rfl⟩
  | ok res =>
    obtain ⟨err, he⟩ := respond_not_200 (decAwqatResponse decAuthResponse {}) {} res (h2 res hn)
    dsimp only
    rw [he]
    exact ⟨_, rfl, rfl⟩

/-- C4, witness: a login answered with status 401 and a failure envelope. -/
theorem New_fails_without_200_witness :
    (∀ res, (New (constNet ⟨401, some (envelope .null false "invalid credentials")⟩)
        { Email := "user@example.org", Password := "wrong" }).answered
          (constNet ⟨401, some (envelope .null false "invalid credentials")⟩) res →
        res.StatusCode ≠ 200) ∧
    ∃ err, (New (constNet ⟨401, some (envelope .null false "invalid credentials")⟩)
        { Email := "user@example.org", Password := "wrong" }).outcome = .returns (none, some err) ∧
      (New (constNet ⟨401, some (envelope .null false "invalid credentials")⟩)
        { Email := "user@example.org", Password := "wrong" }).client.accessToken = "" :=
  have h : ∀ res, (New (constNet ⟨401, some (envelope .null false "invalid credentials")⟩)
        { Email := "user@example.org", Password := "wrong" }).answered
          (constNet ⟨401, some (envelope .null false "invalid credentials")⟩) res →
        res.StatusCode ≠ 200 := by
    rintro res ⟨req, -, hn⟩
    cases hn
    decide
  ⟨h, New_fails_without_200 _ _ h⟩

/-! ### C5: the bearer token of later requests -/

/-- C5, counterexample: after a login that returned the empty access token, `New`
returns a client whose `Countries` request carries no `Authorization` header. -/
theorem empty_token_sends_no_authorization :
    ∃ c req,
      (New (constNet ⟨200, some (envelope (authData "" "r") true "")⟩)
        { Email := "user@example.org", Password := "secret" }).outcome = .returns (some c, none) ∧
      (Accessor.call (constNet ⟨200, some (envelope (authData "" "r") true "")⟩) c .Countries).sent
        = [req] ∧
      req.Header.Values "Authorization" = [] := by
  refine ⟨{ BaseUrl := "https://awqatsalah.diyanet.gov.tr/",
            Credentials := { Email := "user@example.org", Password := "secret" },
            accessToken := "", c := newDefaultHTTPClient },
          { Method := "GET", URL := Accessor.url .Countries, Header := headersFor "", Body := none },
          ?_, ?_, ?_⟩
  · rw [New_eq]; rfl
  · rw [(call_sent _ _ _).1, request_get_default _ rfl]
    rfl
  · decide

/-- C5, amended: when `New` returns a client, the login was answered with status 200
and an envelope with data, the client holds the default base address, the credentials
and the `AccessToken` of that data and nothing else of it, and every later accessor
call sends one GET request without body whose headers are `Authorization: Bearer` and
the token, unless the token is empty, then `Content-Type` and `Accept`. -/
theorem bearer_header_after_New (net : http.Transport) (credentials : Credentials) (c : Client)
    (h : (New net credentials).outcome = .returns (some c, none)) :
    ∃ res j env data,
      (New net credentials).answered net res ∧ res.StatusCode = 200 ∧ res.Body = some j ∧
      decAwqatResponse decAuthResponse {} j {} = some env ∧ env.Data = some data ∧
      c = { BaseUrl := defaultBaseUrl, Credentials := credentials,
            accessToken := data.AccessToken, c := newDefaultHTTPClient } ∧
      ∀ (net2 : http.Transport) (a : Accessor),
        (a.call net2 c).sent =
          [{ Method := "GET", URL := a.url,
             Header := (if data.AccessToken = "" then []
               else [("Authorization", "Bearer " ++ data.AccessToken)]) ++
                 [("Content-Type", "application/json"), ("Accept", "application/json")],
             Body := none }] := by
  have hs := New_sent net credentials
  rw [New_eq] at h
  cases hn : net (loginRequest (newClient credentials)) with
  | error msg => rw [hn] at h; cases h
  | ok res =>
    rw [hn] at h
    dsimp only at h
    cases hp : respond (decAwqatResponse decAuthResponse {}) {} res with
    | mk e env =>
      rw [hp] at h
      cases e with
      | some err => cases h
      | none =>
        dsimp only at h
        obtain ⟨h200, j, hb, hd⟩ := respond_none _ _ _ _ hp
        cases hdat : env.Data with
        | none => rw [hdat] at h; cases h
        | some data =>
          rw [hdat] at h
          simp only [Outcome.returns.injEq, Prod.mk.injEq, Option.some.injEq, and_true] at h
          refine ⟨res, j, env, data, ⟨_, hs, hn⟩, h200, hb, hd, hdat, h.symm, ?_⟩
          intro net2 a
          rw [(call_sent net2 c a).1, request_get_default c (by rw [← h]; rfl) a, ← h]
          rfl

/-- C5, witness: a login that returned the token `t`, then a call of `Countries`. -/
theorem bearer_header_after_New_witness :
    (New (constNet ⟨200, some (envelope (authData "t" "r") true "")⟩)
      { Email := "user@example.org", Password := "secret" }).outcome =
        .returns (some { BaseUrl := "https://awqatsalah.diyanet.gov.tr/",
                         Credentials := { Email := "user@example.org", Password := "secret" },
                         accessToken := "t", c := newDefaultHTTPClient }, none) ∧
    ∃ req, (Accessor.call downNet
        { BaseUrl := "https://awqatsalah.diyanet.gov.tr/",
          Credentials := { Email := "user@example.org", Password := "secret" },
          accessToken := "t", c := newDefaultHTTPClient } .Countries).sent = [req] ∧
      req.Header.Values "Authorization" = ["Bearer t"] := by
  have h : (New (constNet ⟨200, some (envelope (authData "t" "r") true "")⟩)
      { Email := "user@example.org", Password := "secret" }).outcome =
        .returns (some { BaseUrl := "https://awqatsalah.diyanet.gov.tr/",
                         Credentials := { Email := "user@example.org", Password := "secret" },
                         accessToken := "t", c := newDefaultHTTPClient }, none) := by
    rw [New_eq]; rfl
  refine ⟨h, ?_⟩
  obtain ⟨res, j, env, data, -, -, -, -, -, hc, hsent⟩ := bearer_header_after_New _ _ _ h
  have ht : data.AccessToken = "t" := (congrArg Client.accessToken hc).symm
  refine ⟨_, hsent downNet .Countries, ?_⟩
  rw [ht]
  rfl

/-! ### C6: the path of the request -/

/-- C6, counterexample: the suffix is not always one more segment of the resolved
path.  `StatesByCountryID` with the suffix `..` requests `/api/place`; on the base
address `http://h//v1/` the resolved path is `//v1/api/place/states` and
`StatesByCountryID` with the suffix `7` requests `/v1/api/place/states/7`; and
`CitiesByStateID` with the empty suffix requests `/api/place/cities`, the resolved
path `/api/place/cities/` without its last slash. -/
theorem suffix_is_joined_by_path_clean :
    (∃ req, (Client.StatesByCountryID downNet exampleClient "..").sent = [req] ∧
      req.URL.Path = "/api/place" ∧ req.URL.Path ≠ "/api/place/states/..") ∧
    (∃ req, (Client.StatesByCountryID downNet doubledSlashClient "7").sent = [req] ∧
      url.Parse doubledSlashClient.BaseUrl = .ok doubledSlashURL ∧
      (doubledSlashURL.ResolveReference { Path := "api/place/states" }).Path =
        "//v1/api/place/states" ∧
      req.URL.Path = "/v1/api/place/states/7" ∧ req.URL.Path ≠ "//v1/api/place/states/7") ∧
    (∃ req, (Client.CitiesByStateID downNet exampleClient "").sent = [req] ∧
      (baseURL.ResolveReference { Path := "api/place/cities/" }).Path = "/api/place/cities/" ∧
      req.URL.Path = "/api/place/cities" ∧ req.URL.Path ≠ "/api/place/cities/") := by
  refine ⟨?_, ?_, ?_⟩
  · rw [StatesByCountryID_sent, request_get_default exampleClient rfl]
    refine ⟨_, rfl, ?_, ?_⟩
    · decide!
    · decide!
  · rw [StatesByCountryID_sent]
    simp only [Accessor.endp, Accessor.arg]
    rw [request_get_plain _ _ _ _ _ parse_doubledSlash plain_doubledSlash]
    refine ⟨_, rfl, parse_doubledSlash, ?_, ?_, ?_⟩
    · decide!
    · decide!
    · decide!
  · rw [CitiesByStateID_sent, request_get_default exampleClient rfl]
    refine ⟨_, rfl, ?_, ?_, ?_⟩
    · decide!
    · decide!
    · decide!

/-- C6, amended: when the base address parses and resolves with the endpoint to a
rooted URL (a scheme, any user information and host, a rooted path written without
escapes, no query and no fragment), every request a GET call of `execute`, and so an
accessor, sends is a GET request whose query is empty; when moreover the resolved path
is clean (the root, or a path without empty or dot elements, with or without a slash
after it) and the suffix is one plain segment, the path of the request is the resolved
path without the slash at its end, a slash and the suffix; with the empty suffix it is
the resolved path without the slash at its end (the root stays the root).  The request
is sent when the resolved URL is plain (no user information, and a host without
brackets and escapes).  For every client, the query of a GET request does not depend on
the suffix, and the run of a POST call does not depend on the suffix; a POST request
sent for a rooted resolved URL has the resolved path. -/
theorem suffix_is_one_more_segment (net : http.Transport) :
    (∀ (β : Type) (c : Client) (endp path : String) (body : Body) (dec : Dec β) (target : β)
        (u0 : URL) (req : http.Request),
      url.Parse c.BaseUrl = .ok u0 → rootedURL (u0.ResolveReference { Path := endp }) = true →
      req ∈ (c.execute net "GET" endp path body dec target).sent →
      req.Method = "GET" ∧ req.URL.RawQuery = "" ∧ req.URL.ForceQuery = false ∧
        (cleanPath (u0.ResolveReference { Path := endp }).Path.data = true →
          (isSegment path → req.URL.Path = String.mk
            (trimSlash (u0.ResolveReference { Path := endp }).Path.data ++ '/' :: path.data)) ∧
          (path = "" → req.URL.Path = String.mk
            (if (u0.ResolveReference { Path := endp }).Path.data = ['/'] then ['/']
             else trimSlash (u0.ResolveReference { Path := endp }).Path.data)))) ∧
    (∀ (c : Client) (a : Accessor) (u0 : URL) (req : http.Request),
      url.Parse c.BaseUrl = .ok u0 → rootedURL (u0.ResolveReference { Path := a.endp }) = true →
      req ∈ (a.call net c).sent →
      req.Method = "GET" ∧ req.URL.RawQuery = "" ∧ req.URL.ForceQuery = false ∧
        (cleanPath (u0.ResolveReference { Path := a.endp }).Path.data = true →
          (isSegment a.arg → req.URL.Path = String.mk
            (trimSlash (u0.ResolveReference { Path := a.endp }).Path.data ++ '/' :: a.arg.data)) ∧
          (a.arg = "" → req.URL.Path = String.mk
            (if (u0.ResolveReference { Path := a.endp }).Path.data = ['/'] then ['/']
             else trimSlash (u0.ResolveReference { Path := a.endp }).Path.data)))) ∧
    (∀ (β : Type) (c : Client) (method endp path : String) (body : Body) (dec : Dec β)
        (target : β) (u0 : URL),
      method = "GET" ∨ method = "POST" → url.Parse c.BaseUrl = .ok u0 →
      plainURL (u0.ResolveReference { Path := endp }) = true →
      ∃ req, (c.execute net method endp path body dec target).sent = [req]) ∧
    (∀ (c : Client) (a : Accessor) (u0 : URL),
      url.Parse c.BaseUrl = .ok u0 → plainURL (u0.ResolveReference { Path := a.endp }) = true →
      ∃ req, (a.call net c).sent = [req]) ∧
    (∀ (β : Type) (c : Client) (endp path1 path2 : String) (body : Body) (dec : Dec β)
        (target : β) (req1 req2 : http.Request),
      req1 ∈ (c.execute net "GET" endp path1 body dec target).sent →
      req2 ∈ (c.execute net "GET" endp path2 body dec target).sent →
      req1.URL.RawQuery = req2.URL.RawQuery ∧ req1.URL.ForceQuery = req2.URL.ForceQuery) ∧
    (∀ (β : Type) (c : Client) (endp path : String) (body : Body) (dec : Dec β) (target : β),
      c.execute net "POST" endp path body dec target =
        c.execute net "POST" endp "" body dec target) ∧
    (∀ (β : Type) (c : Client) (endp path : String) (body : Body) (dec : Dec β) (target : β)
        (u0 : URL) (req : http.Request),
      url.Parse c.BaseUrl = .ok u0 → rootedURL (u0.ResolveReference { Path := endp }) = true →
      req ∈ (c.execute net "POST" endp path body dec target).sent →
      req.Method = "POST" ∧ req.URL.Path = (u0.ResolveReference { Path := endp }).Path ∧
        req.URL.RawQuery = "" ∧ req.URL.ForceQuery = false) := by
  refine ⟨?_, ?_, ?_, ?_, ?_, ?_, ?_⟩
  · intro β c endp path body dec target u0 req hp hu hreq
    rw [execute_sent] at hreq
    exact get_request_rooted c endp path body u0 req hp hu hreq
  · intro c a u0 req hp hu hreq
    rw [(call_sent net c a).1] at hreq
    exact get_request_rooted c a.endp a.arg .nil u0 req hp hu hreq
  · intro β c method endp path body dec target u0 hm hp hu
    rw [execute_sent]
    rcases hm with hm | hm <;> subst hm
    · rw [request_get_plain c endp path body u0 hp hu]
      exact ⟨_, rfl⟩
    · rw [request_post_plain c endp path body u0 hp hu]
      exact ⟨_, rfl⟩
  · intro c a u0 hp hu
    rw [(call_sent net c a).1, request_get_plain c a.endp a.arg .nil u0 hp hu]
    exact ⟨_, rfl⟩
  · intro β c endp path1 path2 body dec target req1 req2 h1 h2
    rw [execute_sent] at h1 h2
    obtain ⟨u0, r1, hp1, hn1, e1⟩ := request_get_url c endp path1 body req1 (mem_sentOf _ _ h1)
    obtain ⟨u0', r2, hp2, hn2, e2⟩ := request_get_url c endp path2 body req2 (mem_sentOf _ _ h2)
    rw [hp1] at hp2
    cases hp2
    rw [hn1] at hn2
    cases hn2
    rw [e1, e2]
    exact ⟨(JoinPath_frame _ _).1.trans (JoinPath_frame _ _).1.symm,
      (JoinPath_frame _ _).2.1.trans (JoinPath_frame _ _).2.1.symm⟩
  · intro β c endp path body dec target
    rw [execute_eq, execute_eq]
    have : c.request "POST" endp path body = c.request "POST" endp "" body := by
      simp [Client.request]
    rw [this]
  · intro β c endp path body dec target u0 req hp hu hreq
    rw [execute_sent] at hreq
    exact post_request_rooted c endp path body u0 req hp hu hreq

/-- C6, witness: `CitiesByStateID` with the suffix `5` requests `/api/place/cities/5`;
`PrayerTimeDailyByCityID` with the suffix `5` on a client of a test server at
`http://127.0.0.1:8080/v1/` requests `/v1/api/PrayerTime/Daily/5`; `Countries`, whose
suffix is empty, requests `/api/place/countries`; the login request has the path
`/auth/login`; and on a client whose base address `http://user@[::1]:8080/v1/` names
a user and an IPv6 host, `StatesByCountryID` with the suffix `5` requests
`/v1/api/place/states/5`. -/
theorem suffix_is_one_more_segment_witness :
    url.Parse exampleClient.BaseUrl = .ok baseURL ∧
    plainURL (baseURL.ResolveReference { Path := "api/place/cities/" }) = true ∧
    cleanPath (baseURL.ResolveReference { Path := "api/place/cities/" }).Path.data = true ∧
    isSegment "5" ∧
    (∃ req, (Accessor.call downNet exampleClient (.CitiesByStateID "5")).sent = [req] ∧
      req.URL.Path = "/api/place/cities/5" ∧ req.URL.RawQuery = "") ∧
    url.Parse localClient.BaseUrl = .ok localURL ∧
    plainURL (localURL.ResolveReference { Path := "api/PrayerTime/Daily" }) = true ∧
    cleanPath (localURL.ResolveReference { Path := "api/PrayerTime/Daily" }).Path.data = true ∧
    (∃ req, (Accessor.call downNet localClient (.PrayerTimeDailyByCityID "5")).sent = [req] ∧
      req.URL.Path = "/v1/api/PrayerTime/Daily/5" ∧ req.URL.RawQuery = "") ∧
    plainURL (baseURL.ResolveReference { Path := "api/place/countries" }) = true ∧
    cleanPath (baseURL.ResolveReference { Path := "api/place/countries" }).Path.data = true ∧
    (∃ req, (Accessor.call downNet exampleClient .Countries).sent = [req] ∧
      req.URL.Path = "/api/place/countries") ∧
    plainURL (baseURL.ResolveReference { Path := "auth/login" }) = true ∧
    (∃ req, (Client.execute downNet exampleClient "POST" "auth/login" "7"
        (.credentials exampleClient.Credentials) (decAwqatResponse decAuthResponse {}) {}).sent
          = [req] ∧
      req.URL.Path = "/auth/login" ∧ req.URL.RawQuery = "") ∧
    url.Parse userClient.BaseUrl = .ok userURL ∧
    rootedURL (userURL.ResolveReference { Path := "api/place/states" }) = true ∧
    cleanPath (userURL.ResolveReference { Path := "api/place/states" }).Path.data = true ∧
    (∃ req, (Accessor.call downNet userClient (.StatesByCountryID "5")).sent = [req] ∧
      req.URL.Path = "/v1/api/place/states/5" ∧ req.URL.RawQuery = "") := by
  have p1 : plainURL (baseURL.ResolveReference { Path := "api/place/cities/" }) = true := by
    decide!
  have c1 : cleanPath (baseURL.ResolveReference { Path := "api/place/cities/" }).Path.data
      = true := by decide!
  have p2 : plainURL (localURL.ResolveReference { Path := "api/PrayerTime/Daily" }) = true := by
    decide!
  have c2 : cleanPath (localURL.ResolveReference { Path := "api/PrayerTime/Daily" }).Path.data
      = true := by decide!
  have p3 : plainURL (baseURL.ResolveReference { Path := "api/place/countries" }) = true := by
    decide!
  have c3 : cleanPath (baseURL.ResolveReference { Path := "api/place/countries" }).Path.data
      = true := by decide!
  have p4 : plainURL (baseURL.ResolveReference { Path := "auth/login" }) = true := by
    decide!
  have p5 : rootedURL (userURL.ResolveReference { Path := "api/place/states" }) = true := by
    decide!
  have c5 : cleanPath (userURL.ResolveReference { Path := "api/place/states" }).Path.data
      = true := by decide!
  have e5 : String.mk (trimSlash (userURL.ResolveReference
      { Path := "api/place/states" }).Path.data ++ '/' :: "5".data) =
        "/v1/api/place/states/5" := by
    decide!
  have s5 : isSegment "5" := by decide
  have e1 : String.mk (trimSlash (baseURL.ResolveReference
      { Path := "api/place/cities/" }).Path.data ++ '/' :: "5".data) = "/api/place/cities/5" := by
    decide!
  have e2 : String.mk (trimSlash (localURL.ResolveReference
      { Path := "api/PrayerTime/Daily" }).Path.data ++ '/' :: "5".data) =
        "/v1/api/PrayerTime/Daily/5" := by
    decide!
  have e3 : String.mk
      (if (baseURL.ResolveReference { Path := "api/place/countries" }).Path.data = ['/'] then ['/']
       else trimSlash (baseURL.ResolveReference { Path := "api/place/countries" }).Path.data) =
        "/api/place/countries" := by
    decide!
  have e4 : (baseURL.ResolveReference { Path := "auth/login" }).Path = "/auth/login" := by
    decide!
  obtain ⟨r1, hs1⟩ := (suffix_is_one_more_segment downNet).2.2.2.1 exampleClient
    (.CitiesByStateID "5") baseURL parse_default p1
  obtain ⟨-, hq1, -, hpath1⟩ := (suffix_is_one_more_segment downNet).2.1 exampleClient
    (.CitiesByStateID "5") baseURL r1 parse_default (rootedURL_of_plain _ p1)
    (by rw [hs1]; exact List.mem_singleton.2 rfl)
  obtain ⟨r2, hs2⟩ := (suffix_is_one_more_segment downNet).2.2.2.1 localClient
    (.PrayerTimeDailyByCityID "5") localURL parse_local p2
  obtain ⟨-, hq2, -, hpath2⟩ := (suffix_is_one_more_segment downNet).2.1 localClient
    (.PrayerTimeDailyByCityID "5") localURL r2 parse_local (rootedURL_of_plain _ p2)
    (by rw [hs2]; exact List.mem_singleton.2 rfl)
  obtain ⟨r3, hs3⟩ := (suffix_is_one_more_segment downNet).2.2.2.1 exampleClient
    .Countries baseURL parse_default p3
  obtain ⟨-, -, -, hpath3⟩ := (suffix_is_one_more_segment downNet).2.1 exampleClient
    .Countries baseURL r3 parse_default (rootedURL_of_plain _ p3)
    (by rw [hs3]; exact List.mem_singleton.2 rfl)
  obtain ⟨r4, hs4⟩ := (suffix_is_one_more_segment downNet).2.2.1 _ exampleClient "POST"
    "auth/login" "7" (.credentials exampleClient.Credentials)
    (decAwqatResponse decAuthResponse {}) {} baseURL (Or.inr rfl) parse_default p4
  obtain ⟨-, hpath4, hq4, -⟩ := (suffix_is_one_more_segment downNet).2.2.2.2.2.2 _ exampleClient
    "auth/login" "7" (.credentials exampleClient.Credentials)
    (decAwqatResponse decAuthResponse {}) {} baseURL r4 parse_default (rootedURL_of_plain _ p4)
    (by rw [hs4]; exact List.mem_singleton.2 rfl)
  obtain ⟨r5, hs5⟩ := user_sent "5"
  obtain ⟨-, hq5, -, hpath5⟩ := (suffix_is_one_more_segment downNet).2.1 userClient
    (.StatesByCountryID "5") userURL r5 parse_user p5
    (by rw [hs5]; exact List.mem_singleton.2 rfl)
  exact ⟨parse_default, p1, c1, s5, ⟨r1, hs1, ((hpath1 c1).1 s5).trans e1, hq1⟩,
    parse_local, p2, c2, ⟨r2, hs2, ((hpath2 c2).1 s5).trans e2, hq2⟩,
    p3, c3, ⟨r3, hs3, ((hpath3 c3).2 rfl).trans e3⟩,
    p4, ⟨r4, hs4, hpath4.trans e4, hq4⟩,
    parse_user, p5, c5, ⟨r5, hs5, ((hpath5 c5).1 s5).trans e5, hq5⟩⟩

/-! ### C7: an envelope without data -/

/-- C7, the failing input: answered with status 200 and an envelope whose data is
`null`, `Countries` panics on `*res.Data`, and `DailyContent` returns neither a result
nor an error. -/
theorem nil_data_panics :
    (Client.Countries (constNet ⟨200, some (envelope .null false "no data")⟩) exampleClient).outcome
      = .panics ∧
    (Client.DailyContent (constNet ⟨200, some (envelope .null false "no data")⟩)
      exampleClient).outcome = .returns (none, none) := by
  have h1 := call_outcome_of_answered _ exampleClient .Countries _
    (answered_const .Countries exampleClient rfl ⟨200, some (envelope .null false "no data")⟩)
  have h2 := call_outcome_of_answered _ exampleClient .DailyContent _
    (answered_const .DailyContent exampleClient rfl ⟨200, some (envelope .null false "no data")⟩)
  have e1 : Accessor.respond .Countries ⟨200, some (envelope .null false "no data")⟩ = .panics := by
    rfl
  have e2 : Accessor.respond .DailyContent ⟨200, some (envelope .null false "no data")⟩ =
      .returns (none, none) := by
    rfl
  rw [e1] at h1
  rw [e2] at h2
  simp only [Accessor.call, Run.conv] at h1 h2
  constructor
  · cases hC : (Client.Countries (constNet ⟨200, some (envelope .null false "no data")⟩)
        exampleClient).outcome with
    | panics => rfl
    | returns p => rw [hC] at h1; cases h1
  · cases hC : (Client.DailyContent (constNet ⟨200, some (envelope .null false "no data")⟩)
        exampleClient).outcome with
    | panics => rw [hC] at h2; cases h2
    | returns p =>
      rw [hC] at h2
      obtain ⟨v, e⟩ := p
      simp only [Outcome.returns.injEq, Prod.mk.injEq, Option.map_eq_none'] at h2
      rw [h2.1, h2.2]

/-! ### C8: the login exchange -/

/-- C8, counterexample: the body of the login request has the keys `Email` and
`Password`, not `email` and `password`. -/
theorem login_body_keys_are_field_names :
    ∃ req, (Client.auth downNet exampleClient).sent = [req] ∧
      req.Body = some (.obj [("Email", .str "user@example.org"), ("Password", .str "secret")]) ∧
      req.Body ≠ some (.obj [("email", .str "user@example.org"), ("password", .str "secret")]) := by
  rw [auth_eq _ _ rfl]
  refine ⟨loginRequest exampleClient, rfl, rfl, ?_⟩
  intro h
  simp [loginRequest, exampleClient] at h

/-- C8, amended: on a client with the default base address `auth` sends one POST to
`/auth/login` whose body is the object with the keys `Email` and `Password` holding
the credentials; answered with status 200 and an envelope whose data has the keys
`accessToken` and `refreshToken`, it stores the value of `accessToken` as the token;
these two keys are read into the fields `AccessToken` and `RefreshToken`. -/
theorem login_request_shape (net : http.Transport) (c : Client)
    (hc : c.BaseUrl = defaultBaseUrl) :
    (c.auth net).sent =
      [{ Method := "POST",
         URL := { Scheme := "https", Host := "awqatsalah.diyanet.gov.tr", Path := "/auth/login" },
         Header := (if c.accessToken = "" then [] else [("Authorization", "Bearer " ++ c.accessToken)]) ++
           [("Content-Type", "application/json"), ("Accept", "application/json")],
         Body := some (.obj [("Email", .str c.Credentials.Email),
                             ("Password", .str c.Credentials.Password)]) }] ∧
    (∀ (t r : String) (success : Bool) (message : String),
      net (loginRequest c) = .ok ⟨200, some (envelope (authData t r) success message)⟩ →
      (c.auth net).outcome = .returns none ∧ (c.auth net).client = { c with accessToken := t }) ∧
    (∀ (t r : String) (old : AuthResponse),
      decAuthResponse (.obj [("accessToken", .str t), ("refreshToken", .str r)]) old =
        some { AccessToken := t, RefreshToken := r }) := by
  rw [auth_eq net c hc]
  refine ⟨?_, ?_, decAuthResponse_authData⟩
  · cases net (loginRequest c) <;> rfl
  · intro t r success message hn
    rw [hn]
    have : respond (decAwqatResponse decAuthResponse {}) {}
        ⟨200, some (envelope (authData t r) success message)⟩ =
        (none, { Data := some { AccessToken := t, RefreshToken := r },
                 Success := success, Message := message }) := by
      rw [respond_ok, decAwqatResponse_envelope _ _ _ _ _ _ rfl]
      simp [authData, JSON.isNull, decAuthResponse_authData]
      rfl
    dsimp only
    rw [this]
    exact ⟨rfl, rfl⟩

/-- C8, witness: a login of the example client answered with the token `t2`. -/
theorem login_request_shape_witness :
    exampleClient.BaseUrl = defaultBaseUrl ∧
    (Client.auth (constNet ⟨200, some (envelope (authData "t2" "r2") true "")⟩) exampleClient).sent =
      [{ Method := "POST",
         URL := { Scheme := "https", Host := "awqatsalah.diyanet.gov.tr", Path := "/auth/login" },
         Header := [("Authorization", "Bearer tok"), ("Content-Type", "application/json"),
           ("Accept", "application/json")],
         Body := some (.obj [("Email", .str "user@example.org"), ("Password", .str "secret")]) }] ∧
    (Client.auth (constNet ⟨200, some (envelope (authData "t2" "r2") true "")⟩)
      exampleClient).client.accessToken = "t2" :=
  ⟨rfl, (login_request_shape _ exampleClient rfl).1,
    congrArg Client.accessToken
      ((login_request_shape (constNet ⟨200, some (envelope (authData "t2" "r2") true "")⟩)
        exampleClient rfl).2.1 "t2" "r2" true "" rfl).2⟩

/-! ### C9: the state of the client -/

/-- C9, counterexample: on a client whose base address does not parse, `Countries`
returns the error of `url.Parse` and hands no request to the transport; with the method
`PUT`, `execute` hands none over either, and panics. -/
theorem no_request_without_address :
    (Client.Countries downNet badAddressClient).sent = [] ∧
    (Client.Countries downNet badAddressClient).outcome =
      .returns (none, some (.url "://bad" .missingScheme)) ∧
    (Client.execute downNet exampleClient "PUT" "api/place/countries" "" .nil decString "").sent
      = [] ∧
    (Client.execute downNet exampleClient "PUT" "api/place/countries" "" .nil decString "").outcome
      = .panics := by
  have he := execute_of_parse_error downNet badAddressClient "GET" "api/place/countries" ""
    .nil (decPtr (decAwqatResponse (decSlice decLocation {}) {}) {}) (some {}) _ parse_badAddress
  have h2 := execute_of_other_method downNet exampleClient "PUT" "api/place/countries" "" .nil
    decString "" baseURL parse_default (by decide) (by decide)
  refine ⟨?_, ?_, h2.1, h2.2⟩
  · simp only [Client.Countries, he.2, he.1]
  · simp only [Client.Countries, he.2]

/-- C9, amended: `execute` and every accessor leave the client as they found it and
hand at most one request to the transport; `auth` hands over at most one request, keeps
the base address, the credentials and the HTTP client, and changes the access token
only when its `execute` returned no error, to the `AccessToken` of the decoded data.
Exactly one request is handed over by a `GET` or `POST` call of `execute` whose base
address parses and resolves with the endpoint to a plain URL, and so by every accessor
call and by `auth` on a client with the base address `New` sets; none is handed over
when the base address does not parse (the error of `url.Parse` is returned) or when
the method is neither `GET` nor `POST` (the call panics). -/
theorem session_state_frame :
    (∀ (β : Type) (net : http.Transport) (c : Client) (method endp path : String) (body : Body)
        (dec : Dec β) (target : β),
      (c.execute net method endp path body dec target).client = c ∧
      (c.execute net method endp path body dec target).sent.length ≤ 1) ∧
    (∀ (net : http.Transport) (c : Client) (a : Accessor),
      (a.call net c).client = c ∧ (a.call net c).sent.length ≤ 1) ∧
    (∀ (net : http.Transport) (c : Client),
      (c.auth net).sent.length ≤ 1 ∧
      (c.auth net).client.BaseUrl = c.BaseUrl ∧
      (c.auth net).client.Credentials = c.Credentials ∧
      (c.auth net).client.c = c.c ∧
      (((c.auth net).client = c ∧ (c.auth net).outcome ≠ .returns none) ∨
        ∃ res data,
          (c.execute net "POST" "auth/login" "" (.credentials c.Credentials)
            (decAwqatResponse decAuthResponse {}) {}).outcome = .returns (none, res) ∧
          res.Data = some data ∧
          (c.auth net).client = { c with accessToken := data.AccessToken } ∧
          (c.auth net).outcome = .returns none)) ∧
    (∀ (β : Type) (net : http.Transport) (c : Client) (method endp path : String) (body : Body)
        (dec : Dec β) (target : β) (u0 : URL),
      method = "GET" ∨ method = "POST" → url.Parse c.BaseUrl = .ok u0 →
      plainURL (u0.ResolveReference { Path := endp }) = true →
      (c.execute net method endp path body dec target).sent.length = 1) ∧
    (∀ (net : http.Transport) (c : Client) (a : Accessor), c.BaseUrl = defaultBaseUrl →
      (a.call net c).sent.length = 1 ∧ (c.auth net).sent.length = 1) ∧
    (∀ (β : Type) (net : http.Transport) (c : Client) (method endp path : String) (body : Body)
        (dec : Dec β) (target : β) (err : Error),
      url.Parse c.BaseUrl = .error err →
      (c.execute net method endp path body dec target).sent = [] ∧
      (c.execute net method endp path body dec target).outcome = .returns (some err, target)) ∧
    (∀ (β : Type) (net : http.Transport) (c : Client) (method endp path : String) (body : Body)
        (dec : Dec β) (target : β) (u0 : URL),
      url.Parse c.BaseUrl = .ok u0 → method ≠ "GET" → method ≠ "POST" →
      (c.execute net method endp path body dec target).sent = [] ∧
      (c.execute net method endp path body dec target).outcome = .panics) := by
  refine ⟨?_, ?_, ?_, ?_, ?_, ?_, ?_⟩
  · intro β net c method endp path body dec target
    refine ⟨execute_client _ _ _ _ _ _ _ _, ?_⟩
    rw [execute_sent]
    exact sentOf_length_le _
  · intro net c a
    refine ⟨(call_sent net c a).2, ?_⟩
    rw [(call_sent net c a).1]
    exact sentOf_length_le _
  · intro net c
    obtain ⟨hs, hcase⟩ := auth_cases net c
    refine ⟨?_, ?_, ?_, ?_, hcase⟩
    · rw [hs]; exact sentOf_length_le _
    · rcases hcase with ⟨h, -⟩ | ⟨res, data, -, -, h, -⟩ <;> rw [h]
    · rcases hcase with ⟨h, -⟩ | ⟨res, data, -, -, h, -⟩ <;> rw [h]
    · rcases hcase with ⟨h, -⟩ | ⟨res, data, -, -, h, -⟩ <;> rw [h]
  · intro β net c method endp path body dec target u0 hm hp hu
    rw [execute_sent]
    rcases hm with hm | hm <;> subst hm
    · rw [request_get_plain c endp path body u0 hp hu]
      rfl
    · rw [request_post_plain c endp path body u0 hp hu]
      rfl
  · intro net c a hc
    constructor
    · rw [(call_sent net c a).1, request_get_default c hc a]
      rfl
    · rw [(auth_cases net c).1, request_login_default c hc]
      rfl
  · intro β net c method endp path body dec target err hp
    exact execute_of_parse_error net c method endp path body dec target err hp
  · intro β net c method endp path body dec target u0 hp hg hpost
    exact execute_of_other_method net c method endp path body dec target u0 hp hg hpost

/-- C9, witness: a call of `Countries` and a login on the example client hand one
request each to the transport, and a `GET` call of `execute` on a client of a test
server hands over one. -/
theorem session_state_frame_witness :
    exampleClient.BaseUrl = defaultBaseUrl ∧
    (Accessor.call downNet exampleClient .Countries).sent.length = 1 ∧
    (Client.auth downNet exampleClient).sent.length = 1 ∧
    url.Parse localClient.BaseUrl = .ok localURL ∧
    plainURL (localURL.ResolveReference { Path := "api/DailyContent" }) = true ∧
    (Client.execute downNet localClient "GET" "api/DailyContent" "" .nil decString "").sent.length
      = 1 :=
  have p : plainURL (localURL.ResolveReference { Path := "api/DailyContent" }) = true := by
    decide!
  ⟨rfl, (session_state_frame.2.2.2.2.1 downNet exampleClient .Countries rfl).1,
    (session_state_frame.2.2.2.2.1 downNet exampleClient .Countries rfl).2,
    parse_local, p,
    session_state_frame.2.2.2.1 String downNet localClient "GET" "api/DailyContent" "" .nil
      decString "" localURL (Or.inl rfl) parse_local p⟩

/-! ### C10: the text of an error envelope -/

/-- C10, the failing input: for the response with the message `invalid token` the
method `Error()` returns with no amount of fuel, as `%s` formats `err` by calling
`err.Error()` again; with the empty message it returns the text of the mismatched
verbs. -/
theorem Error_never_returns_with_message :
    (∀ fuel : Nat,
      AwqatResponse.Error
        ({ Data := none, Success := false, Message := "invalid token" } : AwqatResponse JSON) fuel
        = none) ∧
    (∀ fuel : Nat,
      AwqatResponse.Error
        ({ Data := none, Success := false, Message := "" } : AwqatResponse JSON) (fuel + 1)
        = some "%!d(string=) API error: %!s(MISSING)") := by
  constructor
  · intro fuel
    exact Error_diverges _ (by decide) fuel
  · intro fuel
    simp [AwqatResponse.Error]

end Awqat
